import Mathlib

/-!
# fdm, mail-state.c: rule matching and delivery dispatch

A shallow embedding of `mail_match`, `mail_deliver`, `find_delivery_users`,
`fill_delivery_queue`, `start_action` and `finish_action`.

Conventions of the embedding.

* A pointer to a rule is a path into the rule forest, innermost index first:
  `i :: q` is entry `i` of the child list of the rule at `q`, and `[i]` is entry
  `i` of the top-level list.  `TAILQ_NEXT` is `(i + 1) :: q` when that entry
  exists, `TAILQ_FIRST` of the child list is `0 :: i :: q`.
* A pointer to a clause (`mctx->expritem`) is an index into the clause list of
  the current rule.
* A pointer that may be `NULL` is an `Option`.  Dereferencing `NULL` or a path
  that names no rule is `Abort.fault`; `fatalx` is `Abort.fatalx`.
* Functions of other compilation units (predicates, deliverers, template
  expansion, the privileged channel, the clock) are fields of `World`.
* Every call reports, next to the status and the new context, the list of
  external calls it made (`Event`), so that visits can be counted.
-/

namespace Fdm

abbrev Uid := Nat

/-- The tag store of a message (`struct strb`), as an ordered key/value list. -/
abbrev Tags := List (String × String)

/-- Pointer to a rule: a path into the forest, innermost index first. -/
abbrev RulePtr := List Nat

inductive Decision where
  | DECISION_NONE
  | DECISION_KEEP
  | DECISION_DROP
deriving DecidableEq, Repr

inductive Op where
  | OP_NONE
  | OP_AND
  | OP_OR
deriving DecidableEq, Repr

/-- Return codes of `mail_match` and `mail_deliver`. -/
inductive Status where
  | MAIL_CONTINUE
  | MAIL_DELIVER
  | MAIL_MATCH
  | MAIL_ERROR
  | MAIL_BLOCKED
  | MAIL_DONE
deriving DecidableEq, Repr

inductive DeliverType where
  | DELIVER_INCHILD
  | DELIVER_ASUSER
  | DELIVER_WRBACK
deriving DecidableEq, Repr

/-- Return code of a delivery function; only `DELIVER_SUCCESS` is tested. -/
inductive DeliverRet where
  | DELIVER_SUCCESS
  | DELIVER_FAILURE
deriving DecidableEq, Repr

inductive MsgType where
  | MSG_ACTION
  | MSG_DONE
  | MSG_OTHER (n : Nat)
deriving DecidableEq, Repr

def ACTION_DONE : Nat := 0
def ACTION_ERROR : Nat := 1
def ACTION_PARENT : Nat := 2

/-- The four codes a predicate returns (`match.h`, not part of this file):
    they are case labels of one `switch`, hence pairwise distinct. -/
structure MatchCodes where
  MATCH_FALSE : Int
  MATCH_TRUE : Int
  MATCH_ERROR : Int
  MATCH_PARENT : Int
  distinct : [MATCH_FALSE, MATCH_TRUE, MATCH_ERROR, MATCH_PARENT].Nodup

/-- A template string (`struct replstr`). -/
structure Replstr where
  str : Option String
deriving DecidableEq, Repr

/-- One clause of a rule (`struct expritem`): predicate, operator, inversion. -/
structure Expritem where
  «match» : Nat
  op : Op
  inverted : Bool
deriving DecidableEq, Repr

/-- The fields of `struct rule` other than its nested list. -/
structure RuleData where
  idx : Nat
  accounts : Option (List String)
  expr : Option (List Expritem)
  stop : Bool
  key : Replstr
  value : Replstr
  actions : List Replstr
  find_uid : Bool
  users : Option (List Uid)
deriving DecidableEq, Repr

/-- A rule with its nested rules (`struct rule`, field `rules`). -/
inductive Rule where
  | node (d : RuleData) (rules : List Rule)

def Rule.d : Rule → RuleData
  | .node d _ => d

def Rule.rules : Rule → List Rule
  | .node _ rs => rs

/-- The delivery mechanism of an action (`struct deliver`); `deliver` is the
    function pointer, `none` when it is `NULL`. -/
structure Deliver where
  name : String
  type : DeliverType
  deliver : Option Nat
deriving DecidableEq, Repr

structure Action where
  name : String
  deliver : Deliver
  find_uid : Bool
  users : Option (List Uid)
deriving DecidableEq, Repr

structure Account where
  name : String
  find_uid : Bool
  users : Option (List Uid)
deriving DecidableEq, Repr

/-- The message (`struct mail`): index, tags, disposition, the character the
    wrapped line ends currently hold, and the payload. -/
structure Mail where
  idx : Nat
  tags : Tags
  decision : Decision
  wrapped : Char
  body : String
deriving DecidableEq, Repr

/-- One queued delivery (`struct deliver_ctx`).  `mail` points to the message
    of the context, named by its index. -/
structure DeliverCtx where
  action : Action
  account : Account
  rule : RulePtr
  mail : Nat
  uid : Uid
  tim : Nat
deriving DecidableEq, Repr

/-- The traversal state of one message (`struct mail_ctx`). -/
structure MailCtx where
  account : Account
  mail : Mail
  rule : Option RulePtr
  stack : List RulePtr
  expritem : Option Nat
  result : Bool
  matched : Bool
  done : Bool
  msgid : Nat
  dqueue : List DeliverCtx
deriving DecidableEq, Repr

/-- The fields of `struct msg` that this file reads or writes. -/
structure Msg where
  type : MsgType
  id : Nat
  error : Int
  account : Option Account
  action : Option Action
  uid : Uid
  mail : Option Mail
deriving DecidableEq, Repr

structure Msgbuf where
  buf : Option Tags
  len : Nat
deriving DecidableEq, Repr

/-- What a predicate leaves behind: its return code, the outstanding id it
    wrote to the context, and the tag store of the message. -/
structure MatchOut where
  ret : Int
  msgid : Nat
  tags : Tags

/-- The collaborators of this file: configuration and external functions. -/
structure World where
  codes : MatchCodes
  impl_act : Decision
  def_user : Uid
  rules : List Rule
  name_match : String → String → Bool
  match_fn : MailCtx → Expritem → MatchOut
  replacestr : Replstr → Tags → Mail → Option String
  add_tag : Tags → String → String → Tags
  update_tags : Tags → Tags
  match_actions : Option String → List Action
  find_users : Mail → Option (List Uid)
  deliver_fn : DeliverCtx → Action → Mail → DeliverRet × Mail
  privsep_send : Msg → Msgbuf → Int
  mail_receive : Mail → Msg → Int × Mail
  trim_from : Mail → Mail
  fill_wrapped : Mail → Mail
  get_time : Nat
  strb_size : Tags → Nat

/-- External calls made during one call of `mail_match` or `mail_deliver`. -/
inductive Event where
  | matched (rule : RulePtr) (item : Nat) (ret : Int)
  | delivered (dctx : DeliverCtx)
  | sent (msg : Msg) (msgbuf : Msgbuf)
deriving DecidableEq, Repr

inductive Abort where
  | fatalx (msg : String)
  | fault
deriving DecidableEq, Repr

/-- What a call hands back: status, context afterwards, external calls. -/
structure Ret where
  status : Status
  mctx : MailCtx
  events : List Event
deriving DecidableEq, Repr

/-- Modelled from the spec: `set_wrapped` of mail.c is missing; it switches the
    wrap convention of the message and touches nothing else. -/
def set_wrapped (m : Mail) (c : Char) : Mail :=
  { m with wrapped := c }

/-- Modelled from the spec: `mail_send` of mail.c is missing; it copies the
    message into the payload of the envelope and touches nothing else. -/
def mail_send (m : Mail) (msg : Msg) : Msg :=
  { msg with mail := some m }

/-- The list (`TAILQ`) that holds the children of the rule at `q`; the
    top-level list for the empty path. -/
def rule_list (rules : List Rule) : RulePtr → Option (List Rule)
  | [] => some rules
  | i :: q =>
    match rule_list rules q with
    | none => none
    | some l =>
      match l[i]? with
      | none => none
      | some r => some r.rules

/-- The rule a pointer names, if any. -/
def rule_at (rules : List Rule) : RulePtr → Option Rule
  | [] => none
  | i :: q =>
    match rule_list rules q with
    | none => none
    | some l => l[i]?

/-- Read through a rule pointer. -/
def deref_rule (W : World) : Option RulePtr → Except Abort Rule
  | none => .error .fault
  | some p =>
    match rule_at W.rules p with
    | none => .error .fault
    | some r => .ok r

/-- Pointer arithmetic `TAILQ_NEXT(rule, entry)`. -/
def tailq_next_rule (W : World) (p : RulePtr) : Except Abort (Option RulePtr) :=
  match p, rule_at W.rules p with
  | i :: q, some _ =>
    match rule_at W.rules ((i + 1) :: q) with
    | some _ => .ok (some ((i + 1) :: q))
    | none => .ok none
  | _, _ => .error .fault

/-- Read through `mctx->expritem`. -/
def deref_expritem (W : World) (mctx : MailCtx) : Except Abort Expritem :=
  match deref_rule W mctx.rule, mctx.expritem with
  | .ok r, some i =>
    match r.d.expr with
    | some l =>
      match l[i]? with
      | some ei => .ok ei
      | none => .error .fault
    | none => .error .fault
  | _, _ => .error .fault

/-- Pointer arithmetic `TAILQ_NEXT(mctx->expritem, entry)`. -/
def tailq_next_expritem (W : World) (mctx : MailCtx) : Except Abort (Option Nat) :=
  match deref_rule W mctx.rule, mctx.expritem with
  | .ok r, some i =>
    match r.d.expr with
    | some l =>
      match l[i]?, l[i + 1]? with
      | some _, some _ => .ok (some (i + 1))
      | some _, none => .ok none
      | none, _ => .error .fault
    | none => .error .fault
  | _, _ => .error .fault

/-- Lines 73-90: the accumulator update on the resume path, `truth` telling
    whether the reply carried `MATCH_TRUE` or `MATCH_FALSE`. -/
def adjust_reply (ei : Expritem) (truth : Bool) (result : Bool) : Bool :=
  if truth then
    if !ei.inverted then
      if ei.op = .OP_NONE ∨ ei.op = .OP_OR then true else result
    else
      if ei.op = .OP_AND then false else result
  else
    if !ei.inverted then
      if ei.op = .OP_AND then false else result
    else
      if ei.op = .OP_NONE ∨ ei.op = .OP_OR then true else result

/-- Lines 169-186: the accumulator update on the synchronous path. -/
def adjust_sync (ei : Expritem) (truth : Bool) (result : Bool) : Bool :=
  if truth then
    if !ei.inverted then
      if ei.op = .OP_NONE ∨ ei.op = .OP_OR then true else result
    else
      if ei.op = .OP_AND then false else result
  else
    if !ei.inverted then
      if ei.op = .OP_AND then false else result
    else
      if ei.op = .OP_NONE ∨ ei.op = .OP_OR then true else result

/-- Lines 339-376.  Returns the identity set and `*should_free`. -/
def find_delivery_users (W : World) (mctx : MailCtx) (t : Action) :
    Except Abort (List Uid × Bool) :=
  match deref_rule W mctx.rule with
  | .error e => .error e
  | .ok r =>
    let a := mctx.account
    let m := mctx.mail
    let sel : Option (List Uid) × Bool :=
      if r.d.find_uid then (W.find_users m, true)
      else if r.d.users.isSome then (r.d.users, false)
      else if t.find_uid then (W.find_users m, true)
      else if t.users.isSome then (t.users, false)
      else if a.find_uid then (W.find_users m, true)
      else if a.users.isSome then (a.users, false)
      else (none, false)
    match sel.1 with
    | none => .ok ([W.def_user], true)
    | some users => .ok (users, sel.2)

/-- Lines 407-418: the loop over the identities of one action. -/
def fill_users (mctx : MailCtx) (r : RulePtr) (t : Action) : List Uid → MailCtx
  | [] => mctx
  | u :: us =>
    let dctx : DeliverCtx :=
      { action := t, account := mctx.account, rule := r, mail := mctx.mail.idx,
        uid := u, tim := 0 }
    fill_users { mctx with dqueue := mctx.dqueue ++ [dctx] } r t us

/-- Lines 403-422: the loop over the actions one template resolved to. -/
def fill_actions (W : World) (r : RulePtr) : List Action → MailCtx → Except Abort MailCtx
  | [], mctx => .ok mctx
  | t :: ts, mctx =>
    match find_delivery_users W mctx t with
    | .error e => .error e
    | .ok (users, _) => fill_actions W r ts (fill_users mctx r t users)

/-- Lines 392-433: the loop over the action-name templates of the rule. -/
def fill_templates (W : World) (r : RulePtr) : List Replstr → MailCtx → Except Abort (Nat × MailCtx)
  | [], mctx => .ok (0, mctx)
  | rs :: rest, mctx =>
    let s := W.replacestr rs mctx.mail.tags mctx.mail
    let ta := W.match_actions s
    if ta.isEmpty then .ok (1, mctx)
    else
      match fill_actions W r ta mctx with
      | .error e => .error e
      | .ok mctx1 => fill_templates W r rest mctx1

/-- Lines 378-435. -/
def fill_delivery_queue (W : World) (mctx : MailCtx) (r : RulePtr) :
    Except Abort (Nat × MailCtx) :=
  match deref_rule W (some r) with
  | .error e => .error e
  | .ok rule => fill_templates W r rule.d.actions mctx

/-- Lines 269-275: climb the stack while the rule pointer is `NULL`.  The
    stack is passed top first and handed back outermost first. -/
def pop_stack (W : World) (rule : Option RulePtr) : List RulePtr →
    Except Abort (Option RulePtr × List RulePtr)
  | [] => .ok (rule, [])
  | top :: rest =>
    match rule with
    | some p => .ok (some p, (top :: rest).reverse)
    | none =>
      match tailq_next_rule W top with
      | .error e => .error e
      | .ok nxt => pop_stack W nxt rest

/-- Label `next_rule`, lines 260-277. -/
def next_rule (W : World) (mctx : MailCtx) (error : Status) (ev : List Event) :
    Except Abort Ret :=
  match mctx.rule with
  | none => .error .fault
  | some p =>
    match tailq_next_rule W p with
    | .error e => .error e
    | .ok nxt =>
      match pop_stack W nxt mctx.stack.reverse with
      | .error e => .error e
      | .ok (r, st) => .ok ⟨error, { mctx with rule := r, stack := st }, ev⟩

/-- Lines 235-249: tag the message when the rule has a key template. -/
def tag_mail (W : World) (r : Rule) (m : Mail) : Mail :=
  if r.d.key.str.isSome then
    let tkey := W.replacestr r.d.key m.tags m
    let tvalue := W.replacestr r.d.value m.tags m
    match tkey, tvalue with
    | some k, some v => if k ≠ "" then { m with tags := W.add_tag m.tags k v } else m
    | _, _ => m
  else m

/-- Label `skip`, lines 197-258, followed by `next_rule`. -/
def skip (W : World) (mctx : MailCtx) (ev : List Event) : Except Abort Ret :=
  if !mctx.result then next_rule W mctx .MAIL_CONTINUE ev
  else
    let mctx := { mctx with matched := true }
    match mctx.rule, deref_rule W mctx.rule with
    | some p, .ok r =>
      let mctx := if r.d.stop then { mctx with done := true } else mctx
      if !r.rules.isEmpty then
        .ok ⟨.MAIL_CONTINUE,
          { mctx with stack := mctx.stack ++ [p], rule := some (0 :: p) }, ev⟩
      else
        let mctx := { mctx with mail := tag_mail W r mctx.mail }
        if !r.d.actions.isEmpty then
          match fill_delivery_queue W mctx p with
          | .error e => .error e
          | .ok (rc, mctx1) =>
            if rc ≠ 0 then .ok ⟨.MAIL_ERROR, mctx1, ev⟩
            else next_rule W mctx1 .MAIL_DELIVER ev
        else next_rule W mctx .MAIL_CONTINUE ev
    | _, _ => .error .fault

/-- Label `next_expritem`, lines 189-195, followed by `skip`. -/
def next_expritem (W : World) (mctx : MailCtx) (ev : List Event) : Except Abort Ret :=
  match tailq_next_expritem W mctx with
  | .error e => .error e
  | .ok nxt =>
    let mctx := { mctx with expritem := nxt }
    if nxt.isSome then .ok ⟨.MAIL_CONTINUE, mctx, ev⟩
    else skip W mctx ev

/-- Lines 163-187: call the predicate of the current clause and adjust. -/
def check_expritem (W : World) (mctx : MailCtx) : Except Abort Ret :=
  match deref_expritem W mctx, mctx.rule, mctx.expritem with
  | .ok ei, some p, some i =>
    let out := W.match_fn mctx ei
    let ev := [Event.matched p i out.ret]
    let mctx := { mctx with msgid := out.msgid, mail := { mctx.mail with tags := out.tags } }
    if out.ret = W.codes.MATCH_ERROR then .ok ⟨.MAIL_ERROR, mctx, ev⟩
    else if out.ret = W.codes.MATCH_PARENT then .ok ⟨.MAIL_BLOCKED, mctx, ev⟩
    else if out.ret = W.codes.MATCH_TRUE then
      next_expritem W { mctx with result := adjust_sync ei true mctx.result } ev
    else if out.ret = W.codes.MATCH_FALSE then
      next_expritem W { mctx with result := adjust_sync ei false mctx.result } ev
    else next_expritem W mctx ev
  | _, _, _ => .error .fault

/-- Lines 131-142: does the account list of the rule exclude this account. -/
def account_excluded (W : World) (r : Rule) (a : Account) : Bool :=
  match r.d.accounts with
  | none => false
  | some aa => !aa.isEmpty && !aa.any (fun an => W.name_match an a.name)

/-- Lines 127-158: start the expression of the current rule, then go on. -/
def start_expr (W : World) (mctx : MailCtx) : Except Abort Ret :=
  match deref_rule W mctx.rule with
  | .error e => .error e
  | .ok r =>
    if account_excluded W r mctx.account then
      skip W { mctx with result := false } []
    else
      match r.d.expr with
      | none => skip W { mctx with result := true } []
      | some [] => skip W { mctx with result := true } []
      | some (_ :: _) =>
        check_expritem W { mctx with result := false, expritem := some 0 }

/-- Lines 56-96: a reply with the outstanding id has arrived. -/
def resume_match (W : World) (mctx : MailCtx) (msg : Msg) (msgbuf : Msgbuf) :
    Except Abort Ret :=
  let mctx := { mctx with msgid := 0 }
  if msg.type ≠ .MSG_DONE then .error (.fatalx "child: unexpected message")
  else
    let mctx :=
      match msgbuf.buf with
      | some buf =>
        if msgbuf.len ≠ 0 then
          { mctx with mail := { mctx.mail with tags := W.update_tags buf } }
        else mctx
      | none => mctx
    if msg.error = W.codes.MATCH_ERROR then .ok ⟨.MAIL_ERROR, mctx, []⟩
    else if msg.error = W.codes.MATCH_TRUE then
      match deref_expritem W mctx with
      | .error e => .error e
      | .ok ei => next_expritem W { mctx with result := adjust_reply ei true mctx.result } []
    else if msg.error = W.codes.MATCH_FALSE then
      match deref_expritem W mctx with
      | .error e => .error e
      | .ok ei => next_expritem W { mctx with result := adjust_reply ei false mctx.result } []
    else .error (.fatalx "child: unexpected response")

/-- Lines 40-278. -/
def mail_match (W : World) (mctx : MailCtx) (msg : Option Msg) (msgbuf : Msgbuf) :
    Except Abort Ret :=
  let mctx := { mctx with mail := set_wrapped mctx.mail ' ' }
  if mctx.msgid ≠ 0 then
    match msg with
    | none => .ok ⟨.MAIL_BLOCKED, mctx, []⟩
    | some msg =>
      if msg.id ≠ mctx.msgid then .ok ⟨.MAIL_BLOCKED, mctx, []⟩
      else resume_match W mctx msg msgbuf
  else if mctx.done then .ok ⟨.MAIL_DONE, mctx, []⟩
  else
    match mctx.rule with
    | none =>
      let d : Decision :=
        match W.impl_act with
        | .DECISION_NONE => .DECISION_KEEP
        | .DECISION_KEEP => .DECISION_KEEP
        | .DECISION_DROP => .DECISION_DROP
      .ok ⟨.MAIL_DONE, { mctx with mail := { mctx.mail with decision := d } }, []⟩
    | some _ =>
      match mctx.expritem with
      | none => start_expr W mctx
      | some _ => check_expritem W mctx

/-- Lines 437-528.  Returns the action code, the context, the request with
    its start time, and the external calls. -/
def start_action (W : World) (mctx : MailCtx) (dctx : DeliverCtx) :
    Except Abort (Nat × MailCtx × DeliverCtx × List Event) :=
  let a := dctx.account
  let t := dctx.action
  let dctx := { dctx with tim := W.get_time }
  if t.deliver.deliver.isNone then .ok (0, mctx, dctx, [])
  else
    let m : Mail := { mctx.mail with tags := W.add_tag mctx.mail.tags "action" t.name }
    if t.deliver.type = .DELIVER_INCHILD then
      let out := W.deliver_fn dctx t m
      let mctx := { mctx with mail := out.2 }
      if out.1 ≠ .DELIVER_SUCCESS then .ok (ACTION_ERROR, mctx, dctx, [Event.delivered dctx])
      else .ok (ACTION_DONE, mctx, dctx, [Event.delivered dctx])
    else
      let msg : Msg :=
        { type := .MSG_ACTION, id := m.idx, error := 0, account := some a,
          action := some t, uid := dctx.uid, mail := none }
      let msgbuf : Msgbuf := { buf := some m.tags, len := W.strb_size m.tags }
      let msg := mail_send m msg
      let mctx := { mctx with mail := m }
      if W.privsep_send msg msgbuf ≠ 0 then .error (.fatalx "child: privsep_send error")
      else .ok (ACTION_PARENT, { mctx with msgid := msg.id }, dctx, [Event.sent msg msgbuf])

/-- Lines 530-565.  Returns the action code and the message afterwards. -/
def finish_action (W : World) (dctx : DeliverCtx) (m : Mail) (msg : Msg) (msgbuf : Msgbuf) :
    Nat × Mail :=
  let t := dctx.action
  let m : Mail :=
    match msgbuf.buf with
    | some buf => if msgbuf.len ≠ 0 then { m with tags := W.update_tags buf } else m
    | none => m
  if msg.error ≠ 0 then (ACTION_ERROR, m)
  else if t.deliver.type ≠ .DELIVER_WRBACK then (ACTION_DONE, m)
  else
    let rc := W.mail_receive m msg
    if rc.1 ≠ 0 then (ACTION_ERROR, rc.2)
    else (ACTION_DONE, W.fill_wrapped (W.trim_from rc.2))

/-- Lines 280-337. -/
def mail_deliver (W : World) (mctx : MailCtx) (msg : Option Msg) (msgbuf : Msgbuf) :
    Except Abort Ret :=
  let mctx := { mctx with mail := set_wrapped mctx.mail (Char.ofNat 10) }
  if mctx.msgid ≠ 0 then
    match msg with
    | none => .ok ⟨.MAIL_BLOCKED, mctx, []⟩
    | some msg =>
      if msg.id ≠ mctx.msgid then .ok ⟨.MAIL_BLOCKED, mctx, []⟩
      else
        let mctx := { mctx with msgid := 0 }
        match mctx.dqueue with
        | [] => .error .fault
        | dctx :: rest =>
          let fin := finish_action W dctx mctx.mail msg msgbuf
          let mctx := { mctx with mail := fin.2 }
          if fin.1 = ACTION_ERROR then .ok ⟨.MAIL_ERROR, mctx, []⟩
          else .ok ⟨.MAIL_CONTINUE, { mctx with dqueue := rest }, []⟩
  else
    match mctx.dqueue with
    | [] => .ok ⟨.MAIL_MATCH, mctx, []⟩
    | dctx :: rest =>
      match start_action W mctx dctx with
      | .error e => .error e
      | .ok (rc, mctx1, dctx1, ev) =>
        let mctx1 := { mctx1 with dqueue := dctx1 :: rest }
        if rc = ACTION_ERROR then .ok ⟨.MAIL_ERROR, mctx1, ev⟩
        else if rc = ACTION_PARENT then .ok ⟨.MAIL_BLOCKED, mctx1, ev⟩
        else .ok ⟨.MAIL_CONTINUE, { mctx1 with dqueue := rest }, ev⟩

/-- Successive `mail_match` calls with no reply, each on the context the
    previous one left; the returns are listed in call order. -/
def match_run (W : World) (mb : Msgbuf) : Nat → MailCtx → Except Abort (List Ret)
  | 0, _ => .ok []
  | n + 1, mctx =>
    match mail_match W mctx none mb with
    | .error e => .error e
    | .ok r =>
      match match_run W mb n r.mctx with
      | .error e => .error e
      | .ok rs => .ok (r :: rs)

/-- Successive `mail_deliver` calls with no reply, each on the context the
    previous one left; the returns are listed in call order. -/
def deliver_run (W : World) (mb : Msgbuf) : Nat → MailCtx → Except Abort (List Ret)
  | 0, _ => .ok []
  | n + 1, mctx =>
    match mail_deliver W mctx none mb with
    | .error e => .error e
    | .ok r =>
      match deliver_run W mb n r.mctx with
      | .error e => .error e
      | .ok rs => .ok (r :: rs)

/-! ## Statements of the specification, and concrete configurations -/

/-- The identity set `find_delivery_users` resolves for an action. -/
def resolved_users (W : World) (mctx : MailCtx) (t : Action) : List Uid :=
  match find_delivery_users W mctx t with
  | .ok (users, _) => users
  | .error _ => []

/-- The requests the specification lists for a matched rule: one per
    (action, identity) pair, by template, then action, then identity. -/
def spec_requests (W : World) (mctx : MailCtx) (r : RulePtr) (templates : List Replstr) :
    List DeliverCtx :=
  templates.flatMap fun rs =>
    (W.match_actions (W.replacestr rs mctx.mail.tags mctx.mail)).flatMap fun t =>
      (resolved_users W mctx t).map fun u =>
        { action := t, account := mctx.account, rule := r, mail := mctx.mail.idx,
          uid := u, tim := 0 }

/-- The six candidate sets of the user resolver in the order of the
    specification; a derive-from-message flag stands for the looked-up set. -/
def spec_candidates (W : World) (r : Rule) (t : Action) (a : Account) (m : Mail) :
    List (Option (List Uid)) :=
  [ if r.d.find_uid then W.find_users m else none, r.d.users,
    if t.find_uid then W.find_users m else none, t.users,
    if a.find_uid then W.find_users m else none, a.users ]

/-- The resolver as the specification words it: the first candidate that is a
    non-empty set, and the fallback identity alone when there is none. -/
def spec_first_nonempty (W : World) (r : Rule) (t : Action) (a : Account) (m : Mail) :
    List Uid :=
  match (spec_candidates W r t a m).find? fun c => c.any fun us => !us.isEmpty with
  | some (some us) => us
  | _ => [W.def_user]

/-- The six policies in order, each with whether it is configured (flag set,
    or explicit set present) and the set it yields. -/
def spec_policies (W : World) (r : Rule) (t : Action) (a : Account) (m : Mail) :
    List (Bool × Option (List Uid)) :=
  [ (r.d.find_uid, W.find_users m), (r.d.users.isSome, r.d.users),
    (t.find_uid, W.find_users m), (t.users.isSome, t.users),
    (a.find_uid, W.find_users m), (a.users.isSome, a.users) ]

/-- The resolver as amended: the first configured policy decides, and the
    fallback identity stands in when it yields no set or none is configured. -/
def spec_first_configured (W : World) (r : Rule) (t : Action) (a : Account) (m : Mail) :
    List Uid :=
  match (spec_policies W r t a m).find? fun c => c.1 with
  | some (_, some us) => us
  | _ => [W.def_user]

/-- Predicate codes used by the concrete configurations. -/
def codes0 : MatchCodes :=
  { MATCH_FALSE := 0, MATCH_TRUE := 1, MATCH_ERROR := 2, MATCH_PARENT := 3,
    distinct := by decide }

/-- A rule record with the given clauses and nothing else configured. -/
def plain_rule (cl : Option (List Expritem)) : RuleData :=
  { idx := 0, accounts := none, expr := cl, stop := false, key := ⟨none⟩, value := ⟨none⟩,
    actions := [], find_uid := false, users := none }

/-- A configuration over the given forest and actions: predicate number `n`
    answers code `n`, and predicate 3, which asks for privilege, records the
    index of the message as outstanding id; an action name resolves to the
    actions of that name and `*` to all of them; account names match by
    equality. -/
def world0 (rules : List Rule) (actions : List Action) : World :=
  { codes := codes0
    impl_act := .DECISION_NONE
    def_user := 1000
    rules := rules
    name_match := fun pat s => pat == s
    match_fn := fun c e => ⟨e.match, if e.match = 3 then c.mail.idx else c.msgid, c.mail.tags⟩
    replacestr := fun rs _ _ => rs.str
    add_tag := fun tags k v => tags ++ [(k, v)]
    update_tags := fun tags => tags
    match_actions := fun s => actions.filter fun t => s == some "*" || s == some t.name
    find_users := fun _ => none
    deliver_fn := fun _ _ m => (.DELIVER_SUCCESS, m)
    privsep_send := fun _ _ => 0
    mail_receive := fun m _ => (0, m)
    trim_from := fun m => m
    fill_wrapped := fun m => m
    get_time := 0
    strb_size := fun tags => tags.length }

def account0 : Account :=
  { name := "home", find_uid := false, users := none }

def mail0 : Mail :=
  { idx := 1, tags := [], decision := .DECISION_NONE, wrapped := 'x', body := "" }

/-- The context a message enters the engine with, at the first rule. -/
def ctx0 : MailCtx :=
  { account := account0, mail := mail0, rule := some [0], stack := [], expritem := none,
    result := false, matched := false, done := false, msgid := 0, dqueue := [] }

/-- An in-process action with an explicit identity set. -/
def action0 : Action :=
  { name := "inbox", deliver := ⟨"maildir", .DELIVER_INCHILD, some 0⟩, find_uid := false,
    users := some [7] }

/-- An action that needs the privileged peer, with two identities. -/
def action1 : Action :=
  { name := "archive", deliver := ⟨"mbox", .DELIVER_ASUSER, some 1⟩, find_uid := false,
    users := some [8, 9] }

/-- A rule without clauses that delivers to every action, then to `inbox`. -/
def rule3 : Rule :=
  .node { plain_rule none with actions := [⟨some "*"⟩, ⟨some "inbox"⟩] } []

/-- The code a predicate returns for a definite outcome. -/
def code (W : World) (outcome : Bool) : Int :=
  if outcome then W.codes.MATCH_TRUE else W.codes.MATCH_FALSE

/-- The clause table of the specification: what the accumulator becomes for
    inversion flag, operator and raw outcome. -/
def spec_table (inverted : Bool) (op : Op) (outcome : Bool) (acc : Bool) : Bool :=
  match inverted, op, outcome with
  | false, .OP_NONE, true => true
  | false, .OP_OR, true => true
  | false, .OP_AND, false => false
  | true, .OP_NONE, false => true
  | true, .OP_OR, false => true
  | true, .OP_AND, true => false
  | _, _, _ => acc

/-- The left fold of the clause table over clauses and their outcomes. -/
def spec_fold (acc : Bool) (cl : List Expritem) (outs : List Bool) : Bool :=
  (cl.zip outs).foldl (fun a x => spec_table x.1.inverted x.1.op x.2 a) acc

/-- The clauses `true AND`, `false AND`, `true OR` of the specification:
    predicates 1 and 0 answer true and false in `world0`. -/
def clauses1 : List Expritem :=
  [⟨1, .OP_AND, false⟩, ⟨0, .OP_AND, false⟩, ⟨1, .OP_OR, false⟩]

/-- A rule whose only clause, with operator OR, needs the privileged peer. -/
def rule2 : Rule :=
  .node (plain_rule (some [⟨3, .OP_OR, false⟩])) []

/-- The reply to the request of message 1, carrying the outcome true. -/
def reply2 : Msg :=
  { type := .MSG_DONE, id := 1, error := 1, account := none, action := none, uid := 0,
    mail := none }

/-- A rule whose first and only clause is inverted, with operator AND, on a
    predicate that answers false. -/
def rule9 : Rule :=
  .node (plain_rule (some [⟨0, .OP_AND, true⟩])) []

/-- The same rule with the clause not inverted, on a predicate that answers
    true. -/
def rule10 : Rule :=
  .node (plain_rule (some [⟨1, .OP_AND, false⟩])) []

/-- A rule whose only clause is inverted, with operator OR, and needs the
    privileged peer. -/
def rule10r : Rule :=
  .node (plain_rule (some [⟨3, .OP_OR, true⟩])) []

/-- The rule of `clauses1` restricted to the account `work`, followed by an
    unrestricted rule. -/
def rules6 : List Rule :=
  [.node { plain_rule (some clauses1) with accounts := some ["work"] } [.node (plain_rule none) []],
   .node (plain_rule none) []]

/-- The driver loop: `Reaches W c d` when some sequence of `mail_match` and
    `mail_deliver` calls, with any replies, leads from context `c` to `d`. -/
inductive Reaches (W : World) : MailCtx → MailCtx → Prop where
  | refl (c : MailCtx) : Reaches W c c
  | match_step (c d : MailCtx) (msg : Option Msg) (mb : Msgbuf) (ret : Ret) :
      Reaches W c d → mail_match W d msg mb = .ok ret → Reaches W c ret.mctx
  | deliver_step (c d : MailCtx) (msg : Option Msg) (mb : Msgbuf) (ret : Ret) :
      Reaches W c d → mail_deliver W d msg mb = .ok ret → Reaches W c ret.mctx

/-- The rule pointer a message enters the engine with: the first top-level
    rule, `NULL` when there is none. -/
def first_rule (rules : List Rule) : Option RulePtr :=
  match rules with
  | [] => none
  | _ :: _ => some [0]

/-- The chain of ancestors of a rule, outermost first. -/
def ancestors : RulePtr → List RulePtr
  | [] => []
  | [_] => []
  | _ :: j :: q => ancestors (j :: q) ++ [j :: q]

/-- Where the walk goes when it leaves a rule without entering it: the next
    sibling if there is one, else the next sibling of the parent, and so on
    upward; `none` when no level has a next sibling. -/
def spec_next_up (rules : List Rule) : RulePtr → Option RulePtr
  | [] => none
  | i :: q =>
    match rule_at rules ((i + 1) :: q) with
    | some _ => some ((i + 1) :: q)
    | none => spec_next_up rules q

/-- The stack that belongs to a rule pointer. -/
def spec_stack : Option RulePtr → List RulePtr
  | none => []
  | some p => ancestors p

/-- Two contexts agree on what the walk over the rules depends on. -/
def same_walk (a b : MailCtx) : Prop :=
  a.rule = b.rule ∧ a.stack = b.stack ∧ a.done = b.done ∧ a.matched = b.matched ∧
  a.dqueue = b.dqueue ∧ a.account = b.account

/-- A stop rule without clauses that nests a rule, followed by a sibling. -/
def rules5 : List Rule :=
  [.node { plain_rule none with stop := true } [.node (plain_rule none) []],
   .node (plain_rule none) []]

/-- The invariant of the walk: the stack is the ancestor chain of the current
    rule (empty when the rule pointer is `NULL`), and the rule pointer names a
    rule of the forest. -/
def walk_inv (W : World) (c : MailCtx) : Prop :=
  c.stack = spec_stack c.rule ∧ ∀ p, c.rule = some p → (rule_at W.rules p).isSome = true

/-- Four rules without clauses: a rule with two nested rules, then a sibling. -/
def rules7 : List Rule :=
  [.node (plain_rule none) [.node (plain_rule none) [], .node (plain_rule none) []],
   .node (plain_rule none) []]

/-- An action that rewrites the message in the privileged peer. -/
def action8 : Action :=
  { name := "rewrite", deliver := ⟨"rewrite", .DELIVER_WRBACK, some 2⟩, find_uid := false,
    users := none }

/-- A queued request for the given action, as `fill_delivery_queue` builds it. -/
def request0 (t : Action) (uid : Uid) : DeliverCtx :=
  { action := t, account := account0, rule := [0], mail := 1, uid := uid, tim := 0 }

/-- The disposition `mail_match` gives a message at the end of the ruleset,
    as the specification words it: drop when the configured default is drop,
    keep when it is keep or when none is configured. -/
def spec_default (d : Decision) : Decision :=
  if d = .DECISION_DROP then .DECISION_DROP else .DECISION_KEEP

/-- Does the template resolve to at least one configured action, for the
    message of the context. -/
def resolves (W : World) (mctx : MailCtx) (rs : Replstr) : Bool :=
  !(W.match_actions (W.replacestr rs mctx.mail.tags mctx.mail)).isEmpty

/-- A rule without clauses that nests a rule and names an action that does
    not exist. -/
def rule13n : Rule :=
  .node { plain_rule none with actions := [⟨some "nowhere"⟩] } [.node (plain_rule none) []]

/-- A rule without clauses and without nested rules whose second template
    names an action that does not exist. -/
def rule13 : Rule :=
  .node { plain_rule none with actions := [⟨some "inbox"⟩, ⟨some "nowhere"⟩, ⟨some "*"⟩] } []

/-- A rule without clauses, with a stop flag, a tag assignment and an action. -/
def rule17 : Rule :=
  .node { plain_rule none with
          stop := true, key := ⟨some "seen"⟩, value := ⟨some "yes"⟩,
          actions := [⟨some "inbox"⟩] } []
mutual
/-- The pointers to a rule and to the rules nested in it, in pre-order: the
    rule itself at `p`, then its children with everything below them. -/
def pre_rule (p : RulePtr) : Rule → List RulePtr
  | .node _ rs => p :: pre_list p 0 rs
/-- The pointers to the rules of a child list of `q`, numbered from `i`, each
    followed by everything below it. -/
def pre_list (q : RulePtr) (i : Nat) : List Rule → List RulePtr
  | [] => []
  | r :: rs => pre_rule (i :: q) r ++ pre_list q (i + 1) rs
end

/-- The rules that follow the rule at a pointer and everything nested in it. -/
def after_list (rules : List Rule) : RulePtr → List RulePtr
  | [] => []
  | i :: q =>
    match rule_list rules q with
    | some l => pre_list q (i + 1) (l.drop (i + 1)) ++ after_list rules q
    | none => []

/-- A rule with the clauses of `clauses1` that nests a delivering rule, then
    a stop rule, then a rule the walk does not reach. -/
def rules19 : List Rule :=
  [.node (plain_rule (some clauses1))
     [.node { plain_rule none with actions := [⟨some "inbox"⟩] } []],
   .node { plain_rule none with stop := true } [],
   .node (plain_rule none) []]

/-- A rule that nests, as its only child, a rule restricted to the account
    `work` (which itself nests a rule), followed by a sibling at top level. -/
def rules6n : List Rule :=
  [.node (plain_rule none)
     [.node { plain_rule (some clauses1) with accounts := some ["work"] }
        [.node (plain_rule none) []]],
   .node (plain_rule none) []]

/-! ## Theorems -/

theorem fill_users_eq (mctx : MailCtx) (r : RulePtr) (t : Action) (us : List Uid) :
    fill_users mctx r t us =
      { mctx with dqueue := mctx.dqueue ++ us.map fun u =>
          { action := t, account := mctx.account, rule := r, mail := mctx.mail.idx,
            uid := u, tim := 0 } } := by
  induction us generalizing mctx with
  | nil => simp [fill_users]
  | cons u us ih => simp [fill_users, ih]

theorem find_delivery_users_dqueue (W : World) (mctx : MailCtx) (q : List DeliverCtx)
    (t : Action) :
    find_delivery_users W { mctx with dqueue := q } t = find_delivery_users W mctx t := rfl

theorem find_delivery_users_ok (W : World) (mctx : MailCtx) (t : Action) (p : RulePtr)
    (r : Rule) (hp : mctx.rule = some p) (hr : rule_at W.rules p = some r) :
    ∃ us b, find_delivery_users W mctx t = .ok (us, b) := by
  unfold find_delivery_users deref_rule
  rw [hp]
  simp only [hr]
  split <;> simp
theorem fill_actions_eq (W : World) (r : RulePtr) (mctx : MailCtx) (p : RulePtr) (r0 : Rule)
    (hp : mctx.rule = some p) (hr : rule_at W.rules p = some r0) (ts : List Action)
    (q : List DeliverCtx) :
    fill_actions W r ts { mctx with dqueue := q } =
      .ok { mctx with dqueue := q ++ ts.flatMap fun t =>
        (resolved_users W mctx t).map fun u =>
          { action := t, account := mctx.account, rule := r, mail := mctx.mail.idx,
            uid := u, tim := 0 } } := by
  induction ts generalizing q with
  | nil => simp [fill_actions]
  | cons t ts ih =>
    obtain ⟨us, b, hus⟩ := find_delivery_users_ok W mctx t p r0 hp hr
    simp only [fill_actions, find_delivery_users_dqueue, hus, fill_users_eq, List.flatMap_cons,
      resolved_users]
    rw [ih]
    simp [List.append_assoc, resolved_users]

theorem fill_templates_eq (W : World) (r : RulePtr) (mctx : MailCtx) (p : RulePtr) (r0 : Rule)
    (hp : mctx.rule = some p) (hr : rule_at W.rules p = some r0) (tpl : List Replstr)
    (hres : ∀ rs ∈ tpl, W.match_actions (W.replacestr rs mctx.mail.tags mctx.mail) ≠ [])
    (q : List DeliverCtx) :
    fill_templates W r tpl { mctx with dqueue := q } =
      .ok (0, { mctx with dqueue := q ++ spec_requests W mctx r tpl }) := by
  induction tpl generalizing q with
  | nil => simp [fill_templates, spec_requests]
  | cons rs rest ih =>
    have h1 := hres rs (by simp)
    have h2 : ∀ rs ∈ rest, W.match_actions (W.replacestr rs mctx.mail.tags mctx.mail) ≠ [] :=
      fun x hx => hres x (by simp [hx])
    simp only [fill_templates, List.isEmpty_eq_true, h1, if_false]
    rw [fill_actions_eq W r mctx p r0 hp hr]
    simp only []
    rw [ih h2]
    simp [spec_requests, List.append_assoc]

theorem tailq_next_rule_ok (W : World) (p : RulePtr) (r : Rule)
    (h : rule_at W.rules p = some r) :
    ∃ i q, p = i :: q ∧
      (tailq_next_rule W p = .ok none ∧ rule_at W.rules ((i + 1) :: q) = none ∨
       tailq_next_rule W p = .ok (some ((i + 1) :: q)) ∧
        (rule_at W.rules ((i + 1) :: q)).isSome = true) := by
  cases p with
  | nil => simp [rule_at] at h
  | cons i q =>
    refine ⟨i, q, rfl, ?_⟩
    unfold tailq_next_rule
    simp only [h]
    cases h2 : rule_at W.rules ((i + 1) :: q) with
    | none => simp
    | some r2 => simp

theorem pop_stack_some (W : World) (p : RulePtr) (st : List RulePtr) :
    pop_stack W (some p) st = .ok (some p, st.reverse) := by
  cases st <;> simp [pop_stack]

theorem pop_stack_ok (W : World) (st : List RulePtr)
    (hst : ∀ q ∈ st, (rule_at W.rules q).isSome = true) (rule : Option RulePtr) :
    ∃ r1 st1, pop_stack W rule st = .ok (r1, st1) ∧ st1.length ≤ st.length ∧
      (∀ q ∈ st1, q ∈ st) ∧
      (r1 = rule ∨ ∃ j q, r1 = some ((j + 1) :: q)) := by
  induction st generalizing rule with
  | nil => exact ⟨rule, [], by simp [pop_stack]⟩
  | cons top rest ih =>
    cases rule with
    | some p =>
      exact ⟨some p, (top :: rest).reverse, by simp [pop_stack], by simp,
        fun x hx => by simpa [or_comm] using hx, Or.inl rfl⟩
    | none =>
      have htop := hst top (by simp)
      obtain ⟨r, hr⟩ := Option.isSome_iff_exists.mp htop
      obtain ⟨i, q, hpq, hn⟩ := tailq_next_rule_ok W top r hr
      have hrest : ∀ q ∈ rest, (rule_at W.rules q).isSome = true :=
        fun x hx => hst x (by simp [hx])
      rcases hn with ⟨hn, _⟩ | ⟨hn, _⟩
      · obtain ⟨r1, st1, h1, h2, h3, h4⟩ := ih hrest none
        refine ⟨r1, st1, by simp [pop_stack, hn, h1], by simp; omega,
          fun x hx => by simp [h3 x hx], h4⟩
      · obtain ⟨r1, st1, h1, h2, h3, h4⟩ := ih hrest (some ((i + 1) :: q))
        refine ⟨r1, st1, by simp [pop_stack, hn, h1], by simp; omega,
          fun x hx => by simp [h3 x hx], ?_⟩
        rcases h4 with h4 | h4
        · exact Or.inr ⟨i, q, h4⟩
        · exact Or.inr h4

/-- Shape of what label `next_rule` returns on a context whose pointers name
    rules: only the rule pointer and the stack change. -/
theorem next_rule_ok (W : World) (c : MailCtx) (error : Status) (ev : List Event)
    (p : RulePtr) (r : Rule) (hp : c.rule = some p) (hr : rule_at W.rules p = some r)
    (hst : ∀ q ∈ c.stack, (rule_at W.rules q).isSome = true) :
    ∃ nxt r1 st1, tailq_next_rule W p = .ok nxt ∧
      pop_stack W nxt c.stack.reverse = .ok (r1, st1) ∧
      next_rule W c error ev = .ok ⟨error, { c with rule := r1, stack := st1 }, ev⟩ ∧
      st1.length ≤ c.stack.length ∧ (∀ q ∈ st1, q ∈ c.stack) ∧
      (r1 = none ∨ ∃ j q, r1 = some ((j + 1) :: q)) := by
  obtain ⟨i, q, hpq, hn⟩ := tailq_next_rule_ok W p r hr
  have hst2 : ∀ q ∈ c.stack.reverse, (rule_at W.rules q).isSome = true :=
    fun x hx => hst x (by simpa using hx)
  rcases hn with ⟨hn, _⟩ | ⟨hn, _⟩
  · obtain ⟨r1, st1, h1, h2, h3, h4⟩ := pop_stack_ok W c.stack.reverse hst2 none
    refine ⟨none, r1, st1, hn, h1, by simp [next_rule, hp, hn, h1], by simpa using h2,
      fun x hx => by simpa using h3 x hx, ?_⟩
    rcases h4 with h4 | h4
    · exact Or.inl h4
    · exact Or.inr h4
  · obtain ⟨r1, st1, h1, h2, h3, h4⟩ :=
      pop_stack_ok W c.stack.reverse hst2 (some ((i + 1) :: q))
    refine ⟨some ((i + 1) :: q), r1, st1, hn, h1, by simp [next_rule, hp, hn, h1],
      by simpa using h2, fun x hx => by simpa using h3 x hx, ?_⟩
    rcases h4 with h4 | h4
    · exact Or.inr ⟨i, q, h4⟩
    · exact Or.inr h4
theorem fill_templates_ok (W : World) (r : RulePtr) (mctx : MailCtx) (p : RulePtr) (r0 : Rule)
    (hp : mctx.rule = some p) (hr : rule_at W.rules p = some r0) (tpl : List Replstr)
    (q : List DeliverCtx) :
    ∃ rc q1, fill_templates W r tpl { mctx with dqueue := q } =
      .ok (rc, { mctx with dqueue := q1 }) := by
  induction tpl generalizing q with
  | nil => exact ⟨0, q, by simp [fill_templates]⟩
  | cons rs rest ih =>
    by_cases h : W.match_actions (W.replacestr rs mctx.mail.tags mctx.mail) = []
    · exact ⟨1, q, by simp [fill_templates, h]⟩
    · simp only [fill_templates, List.isEmpty_eq_true, h, if_false]
      rw [fill_actions_eq W r mctx p r0 hp hr]
      exact ih _

theorem fill_delivery_queue_ok (W : World) (mctx : MailCtx) (p : RulePtr) (r : Rule)
    (hp : mctx.rule = some p) (hr : rule_at W.rules p = some r) :
    ∃ rc q1, fill_delivery_queue W mctx p = .ok (rc, { mctx with dqueue := q1 }) := by
  unfold fill_delivery_queue deref_rule
  simp only [hr]
  exact fill_templates_ok W p mctx p r hp hr r.d.actions mctx.dqueue

theorem next_rule_frame (W : World) (c : MailCtx) (error : Status) (ev : List Event)
    (ret : Ret) (h : next_rule W c error ev = .ok ret) :
    ∃ p nxt r1 st1, c.rule = some p ∧ tailq_next_rule W p = .ok nxt ∧
      pop_stack W nxt c.stack.reverse = .ok (r1, st1) ∧
      ret = ⟨error, { c with rule := r1, stack := st1 }, ev⟩ := by
  unfold next_rule at h
  split at h
  · simp at h
  · rename_i p hp
    split at h
    · simp at h
    · rename_i nxt hn
      split at h
      · simp at h
      · rename_i r1 st1 hpop
        simp only [Except.ok.injEq] at h
        exact ⟨p, nxt, r1, st1, hp, hn, hpop, h.symm⟩

/-- What label `skip` returns, case by case: verdict false; verdict true with
    nested rules; verdict true without nested rules. -/
theorem skip_cases (W : World) (c : MailCtx) (ev : List Event) (p : RulePtr) (r : Rule)
    (hp : c.rule = some p) (hr : rule_at W.rules p = some r) (ret : Ret)
    (h : skip W c ev = .ok ret) :
    (c.result = false ∧ ∃ nxt r1 st1, tailq_next_rule W p = .ok nxt ∧
        pop_stack W nxt c.stack.reverse = .ok (r1, st1) ∧
        ret = ⟨.MAIL_CONTINUE, { c with rule := r1, stack := st1 }, ev⟩) ∨
    (c.result = true ∧ r.rules ≠ [] ∧
        ret = ⟨.MAIL_CONTINUE,
          { c with matched := true, done := c.done || r.d.stop, stack := c.stack ++ [p],
                   rule := some (0 :: p) }, ev⟩) ∨
    (c.result = true ∧ r.rules = [] ∧ ∃ q1,
        ret = ⟨.MAIL_ERROR,
          { c with matched := true, done := c.done || r.d.stop,
                   mail := tag_mail W r c.mail, dqueue := q1 }, ev⟩) ∨
    (c.result = true ∧ r.rules = [] ∧ ∃ st q1 nxt r1 st1, tailq_next_rule W p = .ok nxt ∧
        pop_stack W nxt c.stack.reverse = .ok (r1, st1) ∧
        (st = .MAIL_CONTINUE ∨ st = .MAIL_DELIVER) ∧
        ret = ⟨st,
          { c with matched := true, done := c.done || r.d.stop,
                   mail := tag_mail W r c.mail, dqueue := q1, rule := r1, stack := st1 },
          ev⟩) := by
  obtain ⟨acc, m, rule, stack, ei, res, matched, done, msgid, dq⟩ := c
  simp only at hp
  subst hp
  unfold skip at h
  cases res with
  | false =>
    simp only [Bool.not_false, if_true] at h
    obtain ⟨p1, nxt, r1, st1, h1, h2, h3, h4⟩ := next_rule_frame W _ _ ev ret h
    simp only [Option.some.injEq] at h1
    subst h1
    exact Or.inl ⟨rfl, nxt, r1, st1, h2, h3, h4⟩
  | true =>
    right
    simp only [Bool.not_true, deref_rule, hr, Bool.false_eq_true, if_false] at h
    by_cases hnest : r.rules = []
    · simp only [hnest, List.isEmpty_nil, Bool.not_true, Bool.false_eq_true, if_false] at h
      right
      by_cases hact : r.d.actions = []
      · simp only [hact, List.isEmpty_nil, Bool.not_true, Bool.false_eq_true, if_false] at h
        obtain ⟨p1, nxt, r1, st1, h1, h2, h3, h4⟩ := next_rule_frame W _ _ ev ret h
        right
        refine ⟨rfl, hnest, .MAIL_CONTINUE, dq, nxt, r1, st1, ?_, ?_, Or.inl rfl, ?_⟩
        · cases hs : r.d.stop <;> simp [hs] at h1 <;> subst h1 <;> exact h2
        · cases hs : r.d.stop <;> simp [hs] at h3 <;> exact h3
        · cases hs : r.d.stop <;> simp [hs] at h4 <;> simp [h4]
      · have hact2 : r.d.actions.isEmpty = false := by
          cases hx : r.d.actions with
          | nil => exact absurd hx hact
          | cons _ _ => rfl
        simp only [hact2, Bool.not_false, if_true] at h
        cases hs : r.d.stop
        · simp only [hs, Bool.false_eq_true, if_false, if_true] at h
          obtain ⟨rc, q1, hq⟩ := fill_delivery_queue_ok W
            ⟨acc, tag_mail W r m, some p, stack, ei, true, true, done, msgid, dq⟩ p r rfl hr
          rw [hq] at h
          simp only [] at h
          by_cases hrc : rc = 0
          · simp only [hrc, ne_eq, not_true_eq_false, if_false] at h
            obtain ⟨p1, nxt, r1, st1, h1, h2, h3, h4⟩ := next_rule_frame W _ _ ev ret h
            right
            simp only [Option.some.injEq] at h1
            subst h1
            exact ⟨rfl, hnest, .MAIL_DELIVER, q1, nxt, r1, st1, h2, h3, Or.inr rfl, by simp [h4]⟩
          · simp only [ne_eq, hrc, not_false_eq_true, if_true, Except.ok.injEq] at h
            left
            exact ⟨rfl, hnest, q1, by simp [← h]⟩
        · simp only [hs, Bool.false_eq_true, if_false, if_true] at h
          obtain ⟨rc, q1, hq⟩ := fill_delivery_queue_ok W
            ⟨acc, tag_mail W r m, some p, stack, ei, true, true, true, msgid, dq⟩ p r rfl hr
          rw [hq] at h
          simp only [] at h
          by_cases hrc : rc = 0
          · simp only [hrc, ne_eq, not_true_eq_false, if_false] at h
            obtain ⟨p1, nxt, r1, st1, h1, h2, h3, h4⟩ := next_rule_frame W _ _ ev ret h
            right
            simp only [Option.some.injEq] at h1
            subst h1
            exact ⟨rfl, hnest, .MAIL_DELIVER, q1, nxt, r1, st1, h2, h3, Or.inr rfl, by simp [h4]⟩
          · simp only [ne_eq, hrc, not_false_eq_true, if_true, Except.ok.injEq] at h
            left
            exact ⟨rfl, hnest, q1, by simp [← h]⟩
    · have hn2 : r.rules.isEmpty = false := by
        cases hx : r.rules with
        | nil => exact absurd hx hnest
        | cons _ _ => rfl
      simp only [hn2, Bool.not_false, if_true, Except.ok.injEq] at h
      left
      refine ⟨rfl, hnest, ?_⟩
      cases hs : r.d.stop <;> simp [hs] at h <;> simp [← h]
theorem codes_ne (W : World) :
    W.codes.MATCH_TRUE ≠ W.codes.MATCH_ERROR ∧ W.codes.MATCH_TRUE ≠ W.codes.MATCH_PARENT ∧
    W.codes.MATCH_FALSE ≠ W.codes.MATCH_ERROR ∧ W.codes.MATCH_FALSE ≠ W.codes.MATCH_PARENT ∧
    W.codes.MATCH_FALSE ≠ W.codes.MATCH_TRUE := by
  have h := W.codes.distinct
  simp only [List.nodup_cons, List.mem_cons, List.mem_singleton, not_or, List.not_mem_nil,
    not_false_eq_true, List.nodup_nil, and_true] at h
  obtain ⟨⟨h1, h2, h3⟩, ⟨h4, h5⟩, h6⟩ := h
  exact ⟨h4, h5, h2, h3, h1⟩

theorem adjust_sync_table (ei : Expritem) (b acc : Bool) :
    adjust_sync ei b acc = spec_table ei.inverted ei.op b acc := by
  obtain ⟨m, op, inv⟩ := ei
  cases op <;> cases inv <;> cases b <;> cases acc <;> rfl

theorem adjust_reply_table (ei : Expritem) (b acc : Bool) :
    adjust_reply ei b acc = spec_table ei.inverted ei.op b acc := by
  obtain ⟨m, op, inv⟩ := ei
  cases op <;> cases inv <;> cases b <;> cases acc <;> rfl

theorem skip_total (W : World) (c : MailCtx) (ev : List Event) (p : RulePtr) (r : Rule)
    (hp : c.rule = some p) (hr : rule_at W.rules p = some r)
    (hst : ∀ q ∈ c.stack, (rule_at W.rules q).isSome = true) :
    ∃ ret, skip W c ev = .ok ret := by
  obtain ⟨acc, m, rule, stack, ei, res, matched, done, msgid, dq⟩ := c
  simp only at hp hst
  subst hp
  unfold skip
  cases res with
  | false =>
    simp only [Bool.not_false, if_true]
    obtain ⟨nxt, r1, st1, _, _, h, _⟩ := next_rule_ok W
      ⟨acc, m, some p, stack, ei, false, matched, done, msgid, dq⟩ .MAIL_CONTINUE ev p r rfl hr hst
    exact ⟨_, h⟩
  | true =>
    simp only [Bool.not_true, deref_rule, hr, Bool.false_eq_true, if_false]
    by_cases hnest : r.rules.isEmpty = true
    · simp only [hnest, Bool.not_true, Bool.false_eq_true, if_false]
      by_cases hact : r.d.actions.isEmpty = true
      · simp only [hact, Bool.not_true, Bool.false_eq_true, if_false]
        cases hs : r.d.stop
        · obtain ⟨nxt, r1, st1, _, _, h, _⟩ := next_rule_ok W
            ⟨acc, tag_mail W r m, some p, stack, ei, true, true, done, msgid, dq⟩
            .MAIL_CONTINUE ev p r rfl hr hst
          exact ⟨_, by simpa using h⟩
        · obtain ⟨nxt, r1, st1, _, _, h, _⟩ := next_rule_ok W
            ⟨acc, tag_mail W r m, some p, stack, ei, true, true, true, msgid, dq⟩
            .MAIL_CONTINUE ev p r rfl hr hst
          exact ⟨_, by simpa using h⟩
      · simp only [hact, Bool.not_false, if_true]
        cases hs : r.d.stop
        · simp only [Bool.false_eq_true, if_false]
          obtain ⟨rc, q1, hq⟩ := fill_delivery_queue_ok W
            ⟨acc, tag_mail W r m, some p, stack, ei, true, true, done, msgid, dq⟩ p r rfl hr
          rw [hq]
          simp only []
          by_cases hrc : rc = 0
          · obtain ⟨nxt, r1, st1, _, _, h, _⟩ := next_rule_ok W
              ⟨acc, tag_mail W r m, some p, stack, ei, true, true, done, msgid, q1⟩
              .MAIL_DELIVER ev p r rfl hr hst
            exact ⟨_, by simpa [hrc] using h⟩
          · simp only [ne_eq, hrc, not_false_eq_true, if_true]
            exact ⟨_, rfl⟩
        · simp only [if_true]
          obtain ⟨rc, q1, hq⟩ := fill_delivery_queue_ok W
            ⟨acc, tag_mail W r m, some p, stack, ei, true, true, true, msgid, dq⟩ p r rfl hr
          rw [hq]
          simp only []
          by_cases hrc : rc = 0
          · obtain ⟨nxt, r1, st1, _, _, h, _⟩ := next_rule_ok W
              ⟨acc, tag_mail W r m, some p, stack, ei, true, true, true, msgid, q1⟩
              .MAIL_DELIVER ev p r rfl hr hst
            exact ⟨_, by simpa [hrc] using h⟩
          · simp only [ne_eq, hrc, not_false_eq_true, if_true]
            exact ⟨_, rfl⟩
    · simp only [hnest, Bool.not_false, if_true]
      exact ⟨_, rfl⟩

/-- With no pending id, no stop seen and a clause in progress, `mail_match`
    goes straight to the clause. -/
theorem mail_match_check (W : World) (c : MailCtx) (msg : Option Msg) (mb : Msgbuf)
    (p : RulePtr) (i : Nat) (hid : c.msgid = 0) (hdone : c.done = false)
    (hp : c.rule = some p) (hei : c.expritem = some i) :
    mail_match W c msg mb = check_expritem W { c with mail := set_wrapped c.mail ' ' } := by
  unfold mail_match
  simp [hid, hdone, hp, hei]

theorem mail_match_start (W : World) (c : MailCtx) (msg : Option Msg) (mb : Msgbuf)
    (p : RulePtr) (hid : c.msgid = 0) (hdone : c.done = false)
    (hp : c.rule = some p) (hei : c.expritem = none) :
    mail_match W c msg mb = start_expr W { c with mail := set_wrapped c.mail ' ' } := by
  unfold mail_match
  simp [hid, hdone, hp, hei]

/-- A clause whose predicate answers true or false: the accumulator is
    adjusted and control passes to label `next_expritem`. -/
theorem check_expritem_sync (W : World) (c : MailCtx) (p : RulePtr) (r : Rule)
    (cl : List Expritem) (i : Nat) (ei : Expritem) (b : Bool)
    (hp : c.rule = some p) (hr : rule_at W.rules p = some r) (hcl : r.d.expr = some cl)
    (hei : c.expritem = some i) (hi : cl[i]? = some ei)
    (hret : (W.match_fn c ei).ret = code W b) :
    check_expritem W c =
      next_expritem W
        { c with msgid := (W.match_fn c ei).msgid,
                 mail := { c.mail with tags := (W.match_fn c ei).tags },
                 result := adjust_sync ei b c.result }
        [Event.matched p i (code W b)] := by
  obtain ⟨h1, h2, h3, h4, h5⟩ := codes_ne W
  unfold check_expritem deref_expritem deref_rule
  simp only [hp, hr, hei, hcl, hi, hret]
  cases b
  · simp [code, h3, h4, h5]
  · simp [code, h1, h2]

theorem next_expritem_more (W : World) (c : MailCtx) (ev : List Event) (p : RulePtr)
    (r : Rule) (cl : List Expritem) (i : Nat)
    (hp : c.rule = some p) (hr : rule_at W.rules p = some r) (hcl : r.d.expr = some cl)
    (hei : c.expritem = some i) (hi : i + 1 < cl.length) :
    next_expritem W c ev = .ok ⟨.MAIL_CONTINUE, { c with expritem := some (i + 1) }, ev⟩ := by
  unfold next_expritem tailq_next_expritem deref_rule
  have h1 : cl[i]? = some (cl[i]) := List.getElem?_eq_getElem (by omega)
  have h2 : cl[i + 1]? = some (cl[i + 1]) := List.getElem?_eq_getElem hi
  simp [hp, hr, hcl, hei, h1, h2]

theorem next_expritem_last (W : World) (c : MailCtx) (ev : List Event) (p : RulePtr)
    (r : Rule) (cl : List Expritem) (i : Nat)
    (hp : c.rule = some p) (hr : rule_at W.rules p = some r) (hcl : r.d.expr = some cl)
    (hei : c.expritem = some i) (hi : i + 1 = cl.length) :
    next_expritem W c ev = skip W { c with expritem := none } ev := by
  unfold next_expritem tailq_next_expritem deref_rule
  have h1 : cl[i]? = some (cl[i]) := List.getElem?_eq_getElem (by omega)
  have h2 : cl[i + 1]? = none := List.getElem?_eq_none (by omega)
  simp [hp, hr, hcl, hei, h1, h2]
/-- Label `skip` on a context whose pointers name rules: it returns, passes
    the events through, keeps the verdict, and sets the matched flag exactly
    when the verdict is true. -/
theorem skip_summary (W : World) (c : MailCtx) (ev : List Event) (p : RulePtr) (r : Rule)
    (hp : c.rule = some p) (hr : rule_at W.rules p = some r)
    (hst : ∀ q ∈ c.stack, (rule_at W.rules q).isSome = true) :
    ∃ ret, skip W c ev = .ok ret ∧ ret.events = ev ∧ ret.mctx.result = c.result ∧
      ret.mctx.matched = (c.matched || c.result) ∧ ret.mctx.msgid = c.msgid ∧
      ret.mctx.expritem = c.expritem := by
  obtain ⟨ret, hret⟩ := skip_total W c ev p r hp hr hst
  refine ⟨ret, hret, ?_⟩
  rcases skip_cases W c ev p r hp hr ret hret with
    ⟨h0, _, _, _, _, _, h⟩ | ⟨h0, _, h⟩ | ⟨h0, _, _, h⟩ | ⟨h0, _, _, _, _, _, _, _, _, _, h⟩ <;>
    subst h <;> simp [h0]

theorem start_expr_first (W : World) (c : MailCtx) (p : RulePtr) (r : Rule)
    (cl : List Expritem) (hp : c.rule = some p) (hr : rule_at W.rules p = some r)
    (hacc : account_excluded W r c.account = false) (hcl : r.d.expr = some cl)
    (hne : cl ≠ []) :
    start_expr W c = check_expritem W { c with result := false, expritem := some 0 } := by
  unfold start_expr deref_rule
  simp only [hp, hr, hacc, hcl]
  cases cl with
  | nil => exact absurd rfl hne
  | cons a l => simp

theorem spec_fold_cons (acc : Bool) (ei : Expritem) (cl : List Expritem) (b : Bool)
    (outs : List Bool) :
    spec_fold acc (ei :: cl) (b :: outs) =
      spec_fold (spec_table ei.inverted ei.op b acc) cl outs := by
  simp [spec_fold]

/-- One call on a clause that is not the last, the predicate answering true
    or false: the accumulator is adjusted and the clause pointer advances. -/
theorem mail_match_sync_more (W : World) (c : MailCtx) (msg : Option Msg) (mb : Msgbuf)
    (p : RulePtr) (r : Rule) (cl : List Expritem) (i : Nat) (ei : Expritem) (b : Bool)
    (hid : c.msgid = 0) (hdone : c.done = false) (hp : c.rule = some p)
    (hr : rule_at W.rules p = some r) (hcl : r.d.expr = some cl)
    (hei : c.expritem = some i) (hget : cl[i]? = some ei) (hi : i + 1 < cl.length)
    (hret : (W.match_fn { c with mail := set_wrapped c.mail ' ' } ei).ret = code W b) :
    mail_match W c msg mb =
      .ok ⟨.MAIL_CONTINUE,
        { c with mail := { set_wrapped c.mail ' ' with
                   tags := (W.match_fn { c with mail := set_wrapped c.mail ' ' } ei).tags },
                 msgid := (W.match_fn { c with mail := set_wrapped c.mail ' ' } ei).msgid,
                 result := adjust_sync ei b c.result, expritem := some (i + 1) },
        [Event.matched p i (code W b)]⟩ := by
  rw [mail_match_check W c msg mb p i hid hdone hp hei]
  obtain ⟨acc, m, rule, stack, ei0, res, matched, done, msgid, dq⟩ := c
  simp only at hp hei hret ⊢
  subst hp hei
  rw [check_expritem_sync W ⟨acc, set_wrapped m ' ', some p, stack, some i, res, matched, done,
    msgid, dq⟩ p r cl i ei b rfl hr hcl rfl hget hret]
  exact next_expritem_more W _ _ p r cl i rfl hr hcl rfl hi

/-- One call on the last clause, the predicate answering true or false: the
    accumulator is adjusted and control passes to label `skip`. -/
theorem mail_match_sync_last (W : World) (c : MailCtx) (msg : Option Msg) (mb : Msgbuf)
    (p : RulePtr) (r : Rule) (cl : List Expritem) (i : Nat) (ei : Expritem) (b : Bool)
    (hid : c.msgid = 0) (hdone : c.done = false) (hp : c.rule = some p)
    (hr : rule_at W.rules p = some r) (hcl : r.d.expr = some cl)
    (hei : c.expritem = some i) (hget : cl[i]? = some ei) (hi : i + 1 = cl.length)
    (hret : (W.match_fn { c with mail := set_wrapped c.mail ' ' } ei).ret = code W b) :
    mail_match W c msg mb =
      skip W
        { c with mail := { set_wrapped c.mail ' ' with
                   tags := (W.match_fn { c with mail := set_wrapped c.mail ' ' } ei).tags },
                 msgid := (W.match_fn { c with mail := set_wrapped c.mail ' ' } ei).msgid,
                 result := adjust_sync ei b c.result, expritem := none }
        [Event.matched p i (code W b)] := by
  rw [mail_match_check W c msg mb p i hid hdone hp hei]
  obtain ⟨acc, m, rule, stack, ei0, res, matched, done, msgid, dq⟩ := c
  simp only at hp hei hret ⊢
  subst hp hei
  rw [check_expritem_sync W ⟨acc, set_wrapped m ' ', some p, stack, some i, res, matched, done,
    msgid, dq⟩ p r cl i ei b rfl hr hcl rfl hget hret]
  exact next_expritem_last W _ _ p r cl i rfl hr hcl rfl hi

/-- Starting a rule that passes its account filter and has clauses is the
    same call as continuing at its first clause with the accumulator false. -/
theorem mail_match_enter (W : World) (c : MailCtx) (msg : Option Msg) (mb : Msgbuf)
    (p : RulePtr) (r : Rule) (cl : List Expritem)
    (hid : c.msgid = 0) (hdone : c.done = false) (hp : c.rule = some p)
    (hr : rule_at W.rules p = some r) (hacc : account_excluded W r c.account = false)
    (hcl : r.d.expr = some cl) (hne : cl ≠ []) (hei : c.expritem = none) :
    mail_match W c msg mb =
      mail_match W { c with result := false, expritem := some 0 } msg mb := by
  rw [mail_match_start W c msg mb p hid hdone hp hei,
    mail_match_check W { c with result := false, expritem := some 0 } msg mb p 0 hid hdone hp rfl]
  exact start_expr_first W { c with mail := set_wrapped c.mail ' ' } p r cl hp hr hacc hcl hne

theorem match_run_clauses (W : World) (mb : Msgbuf) (p : RulePtr) (r : Rule)
    (cl : List Expritem) (hr : rule_at W.rules p = some r) (hcl : r.d.expr = some cl)
    (hsync : ∀ ei ∈ cl, ∀ x : MailCtx, x.msgid = 0 →
      (W.match_fn x ei).msgid = 0 ∧
        ((W.match_fn x ei).ret = W.codes.MATCH_TRUE ∨
         (W.match_fn x ei).ret = W.codes.MATCH_FALSE)) :
    ∀ (k i : Nat) (c : MailCtx), i + k + 1 = cl.length → c.msgid = 0 → c.done = false →
      c.rule = some p → c.expritem = some i →
      (∀ q ∈ c.stack, (rule_at W.rules q).isSome = true) →
      ∃ pre last outs, match_run W mb (k + 1) c = .ok (pre ++ [last]) ∧
        outs.length = k + 1 ∧
        (pre ++ [last]).map (fun ret => ret.events) =
          List.zipWith (fun j o => [Event.matched p j (code W o)]) (List.range' i (k + 1)) outs ∧
        (∀ ret ∈ pre, ret.status = .MAIL_CONTINUE ∧ ret.mctx.rule = some p) ∧
        last.mctx.result = spec_fold c.result (cl.drop i) outs ∧
        last.mctx.matched = (c.matched || spec_fold c.result (cl.drop i) outs) := by
  intro k
  induction k with
  | zero =>
    intro i c hik hid hdone hp hei hst
    have hilt : i < cl.length := by omega
    have hget : cl[i]? = some (cl[i]) := List.getElem?_eq_getElem hilt
    obtain ⟨hm, hb⟩ := hsync cl[i] (List.getElem_mem hilt)
      { c with mail := set_wrapped c.mail ' ' } hid
    have hb2 : ∃ b, (W.match_fn { c with mail := set_wrapped c.mail ' ' } cl[i]).ret = code W b := by
      rcases hb with hb | hb
      · exact ⟨true, by simp [code, hb]⟩
      · exact ⟨false, by simp [code, hb]⟩
    obtain ⟨b, hb3⟩ := hb2
    have h1 := mail_match_sync_last W c none mb p r cl i cl[i] b hid hdone hp hr hcl hei hget
      (by omega) hb3
    obtain ⟨ret, hs, he, hres, hmat, _, _⟩ := skip_summary W
      { c with mail := { set_wrapped c.mail ' ' with
                   tags := (W.match_fn { c with mail := set_wrapped c.mail ' ' } cl[i]).tags },
               msgid := (W.match_fn { c with mail := set_wrapped c.mail ' ' } cl[i]).msgid,
               result := adjust_sync cl[i] b c.result, expritem := none }
      [Event.matched p i (code W b)] p r hp hr hst
    have hdrop : cl.drop i = [cl[i]] := by
      rw [List.drop_eq_getElem_cons hilt, List.drop_eq_nil_of_le (by omega)]
    refine ⟨[], ret, [b], ?_, rfl, ?_, by simp, ?_, ?_⟩
    · simp only [match_run, h1]
      rw [hs]
      rfl
    · simp [he, List.range']
    · rw [hres, hdrop]
      simp [spec_fold, adjust_sync_table]
    · rw [hmat, hdrop]
      simp [spec_fold, adjust_sync_table]
  | succ k ih =>
    intro i c hik hid hdone hp hei hst
    have hilt : i < cl.length := by omega
    have hget : cl[i]? = some (cl[i]) := List.getElem?_eq_getElem hilt
    obtain ⟨hm, hb⟩ := hsync cl[i] (List.getElem_mem hilt)
      { c with mail := set_wrapped c.mail ' ' } hid
    have hb2 : ∃ b, (W.match_fn { c with mail := set_wrapped c.mail ' ' } cl[i]).ret = code W b := by
      rcases hb with hb | hb
      · exact ⟨true, by simp [code, hb]⟩
      · exact ⟨false, by simp [code, hb]⟩
    obtain ⟨b, hb3⟩ := hb2
    have h1 := mail_match_sync_more W c none mb p r cl i cl[i] b hid hdone hp hr hcl hei hget
      (by omega) hb3
    obtain ⟨pre, last, outs, hrun, hlen, hev, hpre, hres, hmat⟩ := ih (i + 1)
      { c with mail := { set_wrapped c.mail ' ' with
                   tags := (W.match_fn { c with mail := set_wrapped c.mail ' ' } cl[i]).tags },
               msgid := (W.match_fn { c with mail := set_wrapped c.mail ' ' } cl[i]).msgid,
               result := adjust_sync cl[i] b c.result, expritem := some (i + 1) }
      (by omega) hm hdone hp rfl hst
    have hdrop : cl.drop i = cl[i] :: cl.drop (i + 1) := List.drop_eq_getElem_cons hilt
    refine ⟨(⟨.MAIL_CONTINUE,
        { c with mail := { set_wrapped c.mail ' ' with
                   tags := (W.match_fn { c with mail := set_wrapped c.mail ' ' } cl[i]).tags },
                 msgid := (W.match_fn { c with mail := set_wrapped c.mail ' ' } cl[i]).msgid,
                 result := adjust_sync cl[i] b c.result, expritem := some (i + 1) },
        [Event.matched p i (code W b)]⟩ : Ret) :: pre, last, b :: outs, ?_, by simp [hlen],
      ?_, ?_, ?_, ?_⟩
    · rw [match_run, h1]
      simp only []
      rw [hrun]
      rfl
    · rw [List.cons_append, List.map_cons, hev]
      simp [List.range']
    · intro ret hret
      rcases List.mem_cons.mp hret with h | h
      · subst h
        exact ⟨rfl, hp⟩
      · exact hpre ret h
    · rw [hres, hdrop, spec_fold_cons, adjust_sync_table]
    · rw [hmat, hdrop, spec_fold_cons, adjust_sync_table]
theorem pop_stack_world (W : World) (f : MailCtx → Expritem → MatchOut)
    (rule : Option RulePtr) (st : List RulePtr) :
    pop_stack { W with match_fn := f } rule st = pop_stack W rule st := by
  induction st generalizing rule with
  | nil => rfl
  | cons top rest ih =>
    cases rule with
    | some p => rfl
    | none =>
      simp only [pop_stack]
      have h : tailq_next_rule { W with match_fn := f } top = tailq_next_rule W top := rfl
      rw [h]
      cases tailq_next_rule W top with
      | error e => rfl
      | ok nxt => exact ih nxt

theorem fill_actions_world (W : World) (f : MailCtx → Expritem → MatchOut) (r : RulePtr)
    (ts : List Action) (mctx : MailCtx) :
    fill_actions { W with match_fn := f } r ts mctx = fill_actions W r ts mctx := by
  induction ts generalizing mctx with
  | nil => rfl
  | cons t ts ih =>
    simp only [fill_actions]
    have h : find_delivery_users { W with match_fn := f } mctx t =
        find_delivery_users W mctx t := rfl
    rw [h]
    cases find_delivery_users W mctx t with
    | error e => rfl
    | ok x => exact ih _

theorem fill_templates_world (W : World) (f : MailCtx → Expritem → MatchOut) (r : RulePtr)
    (tpl : List Replstr) (mctx : MailCtx) :
    fill_templates { W with match_fn := f } r tpl mctx = fill_templates W r tpl mctx := by
  induction tpl generalizing mctx with
  | nil => rfl
  | cons rs rest ih =>
    simp only [fill_templates, fill_actions_world]
    split
    · rfl
    · cases fill_actions W r (W.match_actions (W.replacestr rs mctx.mail.tags mctx.mail)) mctx with
      | error e => rfl
      | ok x => exact ih _

theorem fill_delivery_queue_world (W : World) (f : MailCtx → Expritem → MatchOut)
    (mctx : MailCtx) (r : RulePtr) :
    fill_delivery_queue { W with match_fn := f } mctx r = fill_delivery_queue W mctx r := by
  unfold fill_delivery_queue
  have h : deref_rule { W with match_fn := f } (some r) = deref_rule W (some r) := rfl
  rw [h]
  cases deref_rule W (some r) with
  | error e => rfl
  | ok rule => exact fill_templates_world W f r _ mctx

/-- Label `next_rule` does not depend on the predicates, and hands the events
    it was given through. -/
theorem next_rule_world (W : World) (f : MailCtx → Expritem → MatchOut) (c : MailCtx)
    (error : Status) (ev ev2 : List Event) :
    next_rule { W with match_fn := f } c error ev2 =
      (next_rule W c error ev).map fun r => { r with events := ev2 } := by
  unfold next_rule
  cases c.rule with
  | none => rfl
  | some p =>
    simp only []
    have h : tailq_next_rule { W with match_fn := f } p = tailq_next_rule W p := rfl
    rw [h]
    cases tailq_next_rule W p with
    | error e => rfl
    | ok nxt =>
      simp only [pop_stack_world]
      cases pop_stack W nxt c.stack.reverse with
      | error e => rfl
      | ok x => rfl

theorem skip_world (W : World) (f : MailCtx → Expritem → MatchOut) (c : MailCtx)
    (ev ev2 : List Event) :
    skip { W with match_fn := f } c ev2 =
      (skip W c ev).map fun r => { r with events := ev2 } := by
  unfold skip
  split
  · exact next_rule_world W f c _ ev ev2
  · have h : deref_rule { W with match_fn := f } c.rule = deref_rule W c.rule := rfl
    simp only [h]
    cases c.rule with
    | none => rfl
    | some p =>
      cases deref_rule W (some p) with
      | error e => rfl
      | ok r =>
        simp only []
        split
        · rfl
        · have ht : ∀ m, tag_mail { W with match_fn := f } r m = tag_mail W r m := fun _ => rfl
          simp only [ht, fill_delivery_queue_world]
          split
          · cases fill_delivery_queue W _ p with
            | error e => rfl
            | ok x =>
              obtain ⟨rc, m1⟩ := x
              simp only []
              split
              · rfl
              · exact next_rule_world W f _ _ ev ev2
          · exact next_rule_world W f _ _ ev ev2

theorem next_expritem_world (W : World) (f : MailCtx → Expritem → MatchOut) (c : MailCtx)
    (ev ev2 : List Event) :
    next_expritem { W with match_fn := f } c ev2 =
      (next_expritem W c ev).map fun r => { r with events := ev2 } := by
  unfold next_expritem
  have h : tailq_next_expritem { W with match_fn := f } c = tailq_next_expritem W c := rfl
  rw [h]
  cases tailq_next_expritem W c with
  | error e => rfl
  | ok nxt =>
    simp only []
    split
    · rfl
    · exact skip_world W f _ ev ev2
theorem deref_rule_some (W : World) (o : Option RulePtr) (r : Rule)
    (h : deref_rule W o = .ok r) : ∃ p, o = some p ∧ rule_at W.rules p = some r := by
  unfold deref_rule at h
  cases o with
  | none => simp at h
  | some p =>
    refine ⟨p, rfl, ?_⟩
    simp only [] at h
    cases hr : rule_at W.rules p with
    | none => simp [hr] at h
    | some r2 =>
      simp only [hr, Except.ok.injEq] at h
      rw [h]

theorem skip_status (W : World) (c : MailCtx) (ev : List Event) (ret : Ret)
    (h : skip W c ev = .ok ret) :
    ret.status = .MAIL_CONTINUE ∨ ret.status = .MAIL_DELIVER ∨ ret.status = .MAIL_ERROR := by
  cases hres : c.result with
  | false =>
    unfold skip at h
    simp only [hres, Bool.not_false, if_true] at h
    obtain ⟨_, _, _, _, _, _, _, h4⟩ := next_rule_frame W c _ ev ret h
    subst h4
    exact Or.inl rfl
  | true =>
    cases hd : deref_rule W c.rule with
    | error e =>
      unfold skip at h
      simp only [hres, Bool.not_true, Bool.false_eq_true, if_false, hd] at h
      split at h <;> simp_all
    | ok r =>
      obtain ⟨p, hp, hr⟩ := deref_rule_some W c.rule r hd
      rcases skip_cases W c ev p r hp hr ret h with
        ⟨h0, _, _, _, _, _, h⟩ | ⟨h0, _, h⟩ | ⟨h0, _, _, h⟩ |
        ⟨h0, _, st, _, _, _, _, _, _, hst, h⟩ <;> subst h
      · exact Or.inl rfl
      · exact Or.inl rfl
      · exact Or.inr (Or.inr rfl)
      · rcases hst with hst | hst
        · exact Or.inl hst
        · exact Or.inr (Or.inl hst)

theorem next_expritem_status (W : World) (c : MailCtx) (ev : List Event) (ret : Ret)
    (h : next_expritem W c ev = .ok ret) :
    ret.status = .MAIL_CONTINUE ∨ ret.status = .MAIL_DELIVER ∨ ret.status = .MAIL_ERROR := by
  unfold next_expritem at h
  split at h
  · simp at h
  · simp only [] at h
    split at h
    · simp only [Except.ok.injEq] at h
      subst h
      exact Or.inl rfl
    · exact skip_status W _ ev ret h

/-- A `check_expritem` that returns blocked: the predicate asked for
    privilege; only the outstanding id and the tags have changed. -/
theorem check_expritem_blocked (W : World) (c : MailCtx) (ret : Ret)
    (h : check_expritem W c = .ok ret) (hb : ret.status = .MAIL_BLOCKED) :
    ∃ p i ei, c.rule = some p ∧ c.expritem = some i ∧ deref_expritem W c = .ok ei ∧
      (W.match_fn c ei).ret = W.codes.MATCH_PARENT ∧
      ret = ⟨.MAIL_BLOCKED,
        { c with msgid := (W.match_fn c ei).msgid,
                 mail := { c.mail with tags := (W.match_fn c ei).tags } },
        [Event.matched p i (W.match_fn c ei).ret]⟩ := by
  unfold check_expritem at h
  split at h
  · rename_i ei p i hd hp hi
    simp only [] at h
    refine ⟨p, i, ei, hp, hi, hd, ?_⟩
    split at h
    · simp only [Except.ok.injEq] at h
      subst h
      simp at hb
    · split at h
      · rename_i hpar
        simp only [Except.ok.injEq] at h
        exact ⟨hpar, h.symm⟩
      · split at h
        · have := next_expritem_status W _ _ ret h
          simp [hb] at this
        · split at h
          · have := next_expritem_status W _ _ ret h
            simp [hb] at this
          · have := next_expritem_status W _ _ ret h
            simp [hb] at this
  · simp at h
theorem deref_expritem_some (W : World) (c : MailCtx) (ei : Expritem)
    (h : deref_expritem W c = .ok ei) :
    ∃ p r cl i, c.rule = some p ∧ rule_at W.rules p = some r ∧ r.d.expr = some cl ∧
      c.expritem = some i ∧ cl[i]? = some ei := by
  unfold deref_expritem at h
  split at h
  · rename_i r i hd hi
    obtain ⟨p, hp, hr⟩ := deref_rule_some W c.rule r hd
    split at h
    · rename_i l hl
      split at h
      · rename_i ei2 hget
        simp only [Except.ok.injEq] at h
        subst h
        exact ⟨p, r, l, i, hp, hr, hl, hi, hget⟩
      · simp at h
    · simp at h
  · simp at h

/-- A call that starts with no pending id and returns blocked has reached a
    clause whose predicate asked for privilege; the same call under other
    predicates reaches the same clause in the same context. -/
theorem mail_match_blocked (W : World) (c : MailCtx) (msg : Option Msg) (mb : Msgbuf)
    (r1 : Ret) (hid : c.msgid = 0) (h : mail_match W c msg mb = .ok r1)
    (hb : r1.status = .MAIL_BLOCKED) :
    ∃ c0, c0.msgid = 0 ∧ c0.mail.wrapped = ' ' ∧ check_expritem W c0 = .ok r1 ∧
      c0.rule = c.rule ∧ c0.stack = c.stack ∧
      (∀ i, c.expritem = some i → c0.expritem = some i ∧ c0.result = c.result) ∧
      (c.expritem = none → c0.expritem = some 0 ∧ c0.result = false) ∧
      ∀ f, mail_match { W with match_fn := f } c msg mb =
        check_expritem { W with match_fn := f } c0 := by
  obtain ⟨acc, m, rule, stack, ei, res, matched, done, msgid, dq⟩ := c
  simp only at hid
  subst hid
  unfold mail_match at h
  simp only [ne_eq, not_true_eq_false, if_false] at h
  cases done with
  | true =>
    simp only [if_true, Except.ok.injEq] at h
    subst h
    simp at hb
  | false =>
    simp only [Bool.false_eq_true, if_false] at h
    cases rule with
    | none =>
      simp only [Except.ok.injEq] at h
      subst h
      simp at hb
    | some p =>
      cases ei with
      | some i =>
        simp only [] at h
        refine ⟨_, rfl, rfl, h, rfl, rfl, fun j hj => ⟨hj, rfl⟩, fun hn => by simp at hn,
          fun f => ?_⟩
        unfold mail_match
        simp
      | none =>
        simp only [] at h
        unfold start_expr at h
        split at h
        · simp at h
        · rename_i r hd
          simp only [] at h
          split at h
          · have := skip_status W _ _ r1 h
            simp [hb] at this
          · rename_i hacc
            split at h
            · have := skip_status W _ _ r1 h
              simp [hb] at this
            · have := skip_status W _ _ r1 h
              simp [hb] at this
            · rename_i a l hcl
              refine ⟨_, rfl, rfl, h, rfl, rfl, fun j hj => by simp at hj,
                fun _ => ⟨rfl, rfl⟩, fun f => ?_⟩
              unfold mail_match
              simp only [ne_eq, not_true_eq_false, if_false, Bool.false_eq_true]
              unfold start_expr
              have hd2 : deref_rule { W with match_fn := f }
                  (some p) = .ok r := hd
              have hacc2 : account_excluded { W with match_fn := f } r acc =
                  account_excluded W r acc := rfl
              simp only [hd2, hacc2, hacc, hcl]
              simp
/-- Label `next_expritem` on a context whose clause pointer and stack are
    well formed: it returns, keeps the accumulated result and the events. -/
theorem next_expritem_total (W : World) (c : MailCtx) (ev : List Event) (ei : Expritem)
    (hd : deref_expritem W c = .ok ei)
    (hst : ∀ q ∈ c.stack, (rule_at W.rules q).isSome = true) :
    ∃ ret, next_expritem W c ev = .ok ret ∧ ret.mctx.result = c.result ∧ ret.events = ev := by
  obtain ⟨p, r, cl, i, hp, hr, hcl, hi, hget⟩ := deref_expritem_some W c ei hd
  have hilt : i < cl.length := by
    by_contra hcon
    rw [List.getElem?_eq_none (by omega)] at hget
    simp at hget
  by_cases hlast : i + 1 < cl.length
  · exact ⟨_, next_expritem_more W c ev p r cl i hp hr hcl hi hlast, rfl, rfl⟩
  · rw [next_expritem_last W c ev p r cl i hp hr hcl hi (by omega)]
    obtain ⟨ret, h1, h2, h3, _⟩ := skip_summary W { c with expritem := none } ev p r hp hr hst
    exact ⟨ret, h1, h3, h2⟩

/-- One call on a clause whose predicate answers true or false. -/
theorem mail_match_sync_total (W : World) (c : MailCtx) (msg : Option Msg) (mb : Msgbuf)
    (ei : Expritem) (b : Bool) (hid : c.msgid = 0) (hdone : c.done = false)
    (hd : deref_expritem W c = .ok ei)
    (hst : ∀ q ∈ c.stack, (rule_at W.rules q).isSome = true)
    (hret : (W.match_fn { c with mail := set_wrapped c.mail ' ' } ei).ret = code W b) :
    ∃ ret, mail_match W c msg mb = .ok ret ∧
      ret.mctx.result = adjust_sync ei b c.result := by
  obtain ⟨p, r, cl, i, hp, hr, hcl, hi, hget⟩ := deref_expritem_some W c ei hd
  have hilt : i < cl.length := by
    by_contra hcon
    rw [List.getElem?_eq_none (by omega)] at hget
    simp at hget
  by_cases hlast : i + 1 < cl.length
  · exact ⟨_, mail_match_sync_more W c msg mb p r cl i ei b hid hdone hp hr hcl hi hget hlast
      hret, rfl⟩
  · rw [mail_match_sync_last W c msg mb p r cl i ei b hid hdone hp hr hcl hi hget (by omega) hret]
    obtain ⟨ret, h1, _, h3, _⟩ := skip_summary W
      { c with
        mail := { set_wrapped c.mail ' ' with
          tags := (W.match_fn { c with mail := set_wrapped c.mail ' ' } ei).tags },
        msgid := (W.match_fn { c with mail := set_wrapped c.mail ' ' } ei).msgid,
        result := adjust_sync ei b c.result, expritem := none }
      [Event.matched p i (code W b)] p r hp hr hst
    exact ⟨ret, h1, h3⟩

/-- A reply with the outstanding id, of type `MSG_DONE`, carrying a definite
    outcome, with or without a tag payload. -/
theorem mail_match_reply_any (W : World) (c : MailCtx) (msg : Msg) (mb : Msgbuf)
    (ei : Expritem) (b : Bool) (hpend : c.msgid ≠ 0) (hmsg : msg.id = c.msgid)
    (htype : msg.type = .MSG_DONE) (herr : msg.error = code W b)
    (hei : deref_expritem W c = .ok ei) :
    ∃ m, mail_match W c (some msg) mb =
      next_expritem W { c with mail := m, msgid := 0, result := adjust_reply ei b c.result } [] := by
  obtain ⟨h1, h2, h3, h4, h5⟩ := codes_ne W
  obtain ⟨buf, len⟩ := mb
  unfold mail_match
  simp only [hpend, ne_eq, not_false_eq_true, if_true, hmsg, not_true_eq_false, if_false]
  unfold resume_match
  have hcase : (buf = none ∨ len = 0) ∨ ∃ t, buf = some t ∧ len ≠ 0 := by
    cases buf with
    | none => exact Or.inl (Or.inl rfl)
    | some t =>
      by_cases hl : len = 0
      · exact Or.inl (Or.inr hl)
      · exact Or.inr ⟨t, rfl, hl⟩
  rcases hcase with hn | ⟨t, rfl, hl⟩
  · refine ⟨set_wrapped c.mail ' ', ?_⟩
    have hei2 : deref_expritem W { c with mail := set_wrapped c.mail ' ', msgid := 0 } =
        .ok ei := hei
    have hcase2 : buf = none ∨ ∃ t, buf = some t ∧ len = 0 := by
      rcases hn with hn | hn
      · exact Or.inl hn
      · cases buf with
        | none => exact Or.inl rfl
        | some t => exact Or.inr ⟨t, rfl, hn⟩
    rcases hcase2 with rfl | ⟨t, rfl, rfl⟩
    · simp only [htype, ne_eq, not_true_eq_false, if_false, herr, hei2]
      cases b
      · simp [code, h3, h5]
      · simp [code, h1]
    · simp only [htype, ne_eq, not_true_eq_false, if_false, herr, hei2]
      cases b
      · simp [code, h3, h5]
      · simp [code, h1]
  · refine ⟨{ set_wrapped c.mail ' ' with tags := W.update_tags t }, ?_⟩
    have hei2 : deref_expritem W
        { c with mail := { set_wrapped c.mail ' ' with tags := W.update_tags t }, msgid := 0 } =
        .ok ei := hei
    simp only [htype, ne_eq, not_true_eq_false, if_false, herr, hl, not_false_eq_true, if_true,
      hei2]
    cases b
    · simp [code, h3, h5]
    · simp [code, h1]

theorem mail_match_reply_total (W : World) (c : MailCtx) (msg : Msg) (mb : Msgbuf)
    (ei : Expritem) (b : Bool) (hpend : c.msgid ≠ 0) (hmsg : msg.id = c.msgid)
    (htype : msg.type = .MSG_DONE) (herr : msg.error = code W b)
    (hd : deref_expritem W c = .ok ei)
    (hst : ∀ q ∈ c.stack, (rule_at W.rules q).isSome = true) :
    ∃ ret, mail_match W c (some msg) mb = .ok ret ∧
      ret.mctx.result = adjust_reply ei b c.result := by
  obtain ⟨m, hm⟩ := mail_match_reply_any W c msg mb ei b hpend hmsg htype herr hd
  obtain ⟨ret, h1, h2, _⟩ := next_expritem_total W
    { c with mail := m, msgid := 0, result := adjust_reply ei b c.result } [] ei hd hst
  exact ⟨ret, by rw [hm, h1], h2⟩
theorem tailq_next_rule_valid (W : World) (p : RulePtr) (nxt : Option RulePtr)
    (h : tailq_next_rule W p = .ok nxt) : ∃ r, rule_at W.rules p = some r := by
  unfold tailq_next_rule at h
  split at h
  · rename_i i q r hr
    exact ⟨r, hr⟩
  · simp at h

theorem skip_rule_valid (W : World) (c : MailCtx) (ev : List Event) (ret : Ret)
    (h : skip W c ev = .ok ret) : ∃ p r, c.rule = some p ∧ rule_at W.rules p = some r := by
  cases hres : c.result with
  | false =>
    unfold skip at h
    simp only [hres, Bool.not_false, if_true] at h
    obtain ⟨p, nxt, _, _, hp, hn, _, _⟩ := next_rule_frame W c _ ev ret h
    obtain ⟨r, hr⟩ := tailq_next_rule_valid W p nxt hn
    exact ⟨p, r, hp, hr⟩
  | true =>
    cases hd : deref_rule W c.rule with
    | error e =>
      unfold skip at h
      simp only [hres, Bool.not_true, Bool.false_eq_true, if_false, hd] at h
      split at h <;> simp_all
    | ok r =>
      obtain ⟨p, hp, hr⟩ := deref_rule_some W c.rule r hd
      exact ⟨p, r, hp, hr⟩

theorem same_walk_refl (c : MailCtx) : same_walk c c :=
  ⟨rfl, rfl, rfl, rfl, rfl, rfl⟩

/-- Label `next_expritem` either returns with the walk untouched or returns
    what label `skip` returns on a context with the same walk. -/
theorem next_expritem_via_skip (W : World) (c : MailCtx) (ev : List Event) (ret : Ret)
    (c0 : MailCtx) (h : next_expritem W c ev = .ok ret) (hw : same_walk c c0) :
    same_walk ret.mctx c0 ∨ ∃ c1 ev1, same_walk c1 c0 ∧ skip W c1 ev1 = .ok ret := by
  unfold next_expritem at h
  split at h
  · simp at h
  · simp only [] at h
    split at h
    · simp only [Except.ok.injEq] at h
      subst h
      exact Or.inl hw
    · exact Or.inr ⟨_, ev, by exact hw, h⟩

theorem check_expritem_via_skip (W : World) (c : MailCtx) (ret : Ret) (c0 : MailCtx)
    (h : check_expritem W c = .ok ret) (hw : same_walk c c0) :
    same_walk ret.mctx c0 ∨ ∃ c1 ev1, same_walk c1 c0 ∧ skip W c1 ev1 = .ok ret := by
  unfold check_expritem at h
  split at h
  · simp only [] at h
    split at h
    · simp only [Except.ok.injEq] at h
      subst h
      exact Or.inl hw
    · split at h
      · simp only [Except.ok.injEq] at h
        subst h
        exact Or.inl hw
      · split at h
        · exact next_expritem_via_skip W _ _ ret c0 h hw
        · split at h
          · exact next_expritem_via_skip W _ _ ret c0 h hw
          · exact next_expritem_via_skip W _ _ ret c0 h hw
  · simp at h

theorem start_expr_via_skip (W : World) (c : MailCtx) (ret : Ret) (c0 : MailCtx)
    (h : start_expr W c = .ok ret) (hw : same_walk c c0) :
    same_walk ret.mctx c0 ∨ ∃ c1 ev1, same_walk c1 c0 ∧ skip W c1 ev1 = .ok ret := by
  unfold start_expr at h
  split at h
  · simp at h
  · split at h
    · exact Or.inr ⟨_, [], by exact hw, h⟩
    · split at h
      · exact Or.inr ⟨_, [], by exact hw, h⟩
      · exact Or.inr ⟨_, [], by exact hw, h⟩
      · exact check_expritem_via_skip W _ ret c0 h hw

theorem resume_match_via_skip (W : World) (c : MailCtx) (msg : Msg) (mb : Msgbuf) (ret : Ret)
    (c0 : MailCtx) (h : resume_match W c msg mb = .ok ret) (hw : same_walk c c0) :
    same_walk ret.mctx c0 ∨ ∃ c1 ev1, same_walk c1 c0 ∧ skip W c1 ev1 = .ok ret := by
  obtain ⟨buf, len⟩ := mb
  unfold resume_match at h
  simp only [] at h
  split at h
  · simp at h
  · cases buf with
    | none =>
      simp only [] at h
      split at h
      · simp only [Except.ok.injEq] at h
        subst h
        exact Or.inl hw
      · split at h
        · split at h
          · simp at h
          · exact next_expritem_via_skip W _ _ ret c0 h hw
        · split at h
          · split at h
            · simp at h
            · exact next_expritem_via_skip W _ _ ret c0 h hw
          · simp at h
    | some t =>
      simp only [] at h
      by_cases hl : len = 0
      · simp only [hl, ne_eq, not_true_eq_false, if_false] at h
        split at h
        · simp only [Except.ok.injEq] at h
          subst h
          exact Or.inl hw
        · split at h
          · split at h
            · simp at h
            · exact next_expritem_via_skip W _ _ ret c0 h hw
          · split at h
            · split at h
              · simp at h
              · exact next_expritem_via_skip W _ _ ret c0 h hw
            · simp at h
      · simp only [hl, ne_eq, not_false_eq_true, if_true] at h
        split at h
        · simp only [Except.ok.injEq] at h
          subst h
          exact Or.inl hw
        · split at h
          · split at h
            · simp at h
            · exact next_expritem_via_skip W _ _ ret c0 h hw
          · split at h
            · split at h
              · simp at h
              · exact next_expritem_via_skip W _ _ ret c0 h hw
            · simp at h

/-- Every `mail_match` call either returns with the walk untouched or returns
    what label `skip` returns on a context with the same walk. -/
theorem mail_match_via_skip (W : World) (c : MailCtx) (msg : Option Msg) (mb : Msgbuf)
    (ret : Ret) (h : mail_match W c msg mb = .ok ret) :
    same_walk ret.mctx c ∨ ∃ c1 ev1, same_walk c1 c ∧ skip W c1 ev1 = .ok ret := by
  have hw : same_walk { c with mail := set_wrapped c.mail ' ' } c := same_walk_refl c
  unfold mail_match at h
  simp only [] at h
  split at h
  · split at h
    · simp only [Except.ok.injEq] at h
      subst h
      exact Or.inl hw
    · split at h
      · simp only [Except.ok.injEq] at h
        subst h
        exact Or.inl hw
      · exact resume_match_via_skip W _ _ mb ret c h hw
  · split at h
    · simp only [Except.ok.injEq] at h
      subst h
      exact Or.inl hw
    · split at h
      · simp only [Except.ok.injEq] at h
        subst h
        exact Or.inl hw
      · split at h
        · exact start_expr_via_skip W _ ret c h hw
        · exact check_expritem_via_skip W _ ret c h hw

theorem start_action_frame (W : World) (c : MailCtx) (d : DeliverCtx) (rc : Nat)
    (c1 : MailCtx) (d1 : DeliverCtx) (ev : List Event)
    (h : start_action W c d = .ok (rc, c1, d1, ev)) :
    c1.rule = c.rule ∧ c1.stack = c.stack ∧ c1.done = c.done ∧ c1.matched = c.matched ∧
    c1.expritem = c.expritem ∧ c1.result = c.result ∧ c1.account = c.account ∧
    c1.dqueue = c.dqueue := by
  unfold start_action at h
  simp only [] at h
  split at h
  · simp only [Except.ok.injEq, Prod.mk.injEq] at h
    obtain ⟨_, h2, _, _⟩ := h
    subst h2
    exact ⟨rfl, rfl, rfl, rfl, rfl, rfl, rfl, rfl⟩
  · split at h
    · split at h
      · simp only [Except.ok.injEq, Prod.mk.injEq] at h
        obtain ⟨_, h2, _, _⟩ := h
        subst h2
        exact ⟨rfl, rfl, rfl, rfl, rfl, rfl, rfl, rfl⟩
      · simp only [Except.ok.injEq, Prod.mk.injEq] at h
        obtain ⟨_, h2, _, _⟩ := h
        subst h2
        exact ⟨rfl, rfl, rfl, rfl, rfl, rfl, rfl, rfl⟩
    · split at h
      · simp at h
      · simp only [Except.ok.injEq, Prod.mk.injEq] at h
        obtain ⟨_, h2, _, _⟩ := h
        subst h2
        exact ⟨rfl, rfl, rfl, rfl, rfl, rfl, rfl, rfl⟩

/-- `mail_deliver` leaves the walk over the rules alone: it changes only the
    message, the outstanding id and the delivery queue. -/
theorem mail_deliver_frame (W : World) (c : MailCtx) (msg : Option Msg) (mb : Msgbuf)
    (ret : Ret) (h : mail_deliver W c msg mb = .ok ret) :
    ret.mctx.rule = c.rule ∧ ret.mctx.stack = c.stack ∧ ret.mctx.done = c.done ∧
    ret.mctx.matched = c.matched ∧ ret.mctx.expritem = c.expritem ∧
    ret.mctx.result = c.result ∧ ret.mctx.account = c.account := by
  unfold mail_deliver at h
  simp only [] at h
  split at h
  · split at h
    · simp only [Except.ok.injEq] at h
      subst h
      exact ⟨rfl, rfl, rfl, rfl, rfl, rfl, rfl⟩
    · split at h
      · simp only [Except.ok.injEq] at h
        subst h
        exact ⟨rfl, rfl, rfl, rfl, rfl, rfl, rfl⟩
      · split at h
        · simp at h
        · split at h
          · simp only [Except.ok.injEq] at h
            subst h
            exact ⟨rfl, rfl, rfl, rfl, rfl, rfl, rfl⟩
          · simp only [Except.ok.injEq] at h
            subst h
            exact ⟨rfl, rfl, rfl, rfl, rfl, rfl, rfl⟩
  · split at h
    · simp only [Except.ok.injEq] at h
      subst h
      exact ⟨rfl, rfl, rfl, rfl, rfl, rfl, rfl⟩
    · split at h
      · simp at h
      · rename_i rc c1 d1 ev hs
        obtain ⟨h1, h2, h3, h4, h5, h6, h7, _⟩ := start_action_frame W _ _ rc c1 d1 ev hs
        split at h
        · simp only [Except.ok.injEq] at h
          subst h
          exact ⟨h1, h2, h3, h4, h5, h6, h7⟩
        · split at h
          · simp only [Except.ok.injEq] at h
            subst h
            exact ⟨h1, h2, h3, h4, h5, h6, h7⟩
          · simp only [Except.ok.injEq] at h
            subst h
            exact ⟨h1, h2, h3, h4, h5, h6, h7⟩

/-- The stop flag of the context, once set, stays set in `mail_match`. -/
theorem mail_match_done_stays (W : World) (c : MailCtx) (msg : Option Msg) (mb : Msgbuf)
    (ret : Ret) (h : mail_match W c msg mb = .ok ret) (hd : c.done = true) :
    ret.mctx.done = true := by
  rcases mail_match_via_skip W c msg mb ret h with hw | ⟨c1, ev1, hw, hs⟩
  · rw [hw.2.2.1, hd]
  · obtain ⟨p, r, hp, hr⟩ := skip_rule_valid W c1 ev1 ret hs
    have hd1 : c1.done = true := by rw [hw.2.2.1, hd]
    rcases skip_cases W c1 ev1 p r hp hr ret hs with
      ⟨_, _, _, _, _, _, h⟩ | ⟨_, _, h⟩ | ⟨_, _, _, h⟩ | ⟨_, _, _, _, _, _, _, _, _, _, h⟩ <;>
      subst h <;> simp [hd1]

theorem reaches_done_stays (W : World) (c d : MailCtx) (h : Reaches W c d)
    (hd : c.done = true) : d.done = true := by
  induction h with
  | refl => exact hd
  | match_step d msg mb ret _ hm ih => exact mail_match_done_stays W d msg mb ret hm ih
  | deliver_step d msg mb ret _ hm ih =>
    rw [(mail_deliver_frame W d msg mb ret hm).2.2.1]
    exact ih

theorem rule_list_of_rule_at (rules : List Rule) (p : RulePtr) (r : Rule)
    (h : rule_at rules p = some r) : rule_list rules p = some r.rules := by
  cases p with
  | nil => simp [rule_at] at h
  | cons i q =>
    simp only [rule_at] at h
    simp only [rule_list]
    cases hl : rule_list rules q with
    | none => simp [hl] at h
    | some l =>
      simp only [hl] at h
      simp [h]

theorem rule_at_parent (rules : List Rule) (i j : Nat) (q : RulePtr)
    (h : (rule_at rules (i :: j :: q)).isSome = true) :
    (rule_at rules (j :: q)).isSome = true := by
  simp only [rule_at, rule_list] at h ⊢
  cases hl : rule_list rules q with
  | none => simp [hl] at h
  | some l =>
    simp only [hl] at h ⊢
    cases hj : l[j]? with
    | none => simp [hj] at h
    | some r => simp

theorem rule_at_first_child (rules : List Rule) (p : RulePtr) (r : Rule)
    (h : rule_at rules p = some r) (hne : r.rules ≠ []) :
    (rule_at rules (0 :: p)).isSome = true := by
  simp only [rule_at, rule_list_of_rule_at rules p r h]
  cases hr : r.rules with
  | nil => exact absurd hr hne
  | cons a l => simp

theorem ancestors_cons_cons (i j : Nat) (q : RulePtr) :
    ancestors (i :: j :: q) = ancestors (j :: q) ++ [j :: q] := rfl

theorem ancestors_length (p : RulePtr) : (ancestors p).length = p.length - 1 := by
  induction p with
  | nil => rfl
  | cons i q ih =>
    cases q with
    | nil => rfl
    | cons j q2 =>
      rw [ancestors_cons_cons, List.length_append, ih]
      simp

theorem ancestors_suffix (p a : RulePtr) (h : a ∈ ancestors p) :
    a <:+ p ∧ a.length < p.length := by
  induction p with
  | nil => simp [ancestors] at h
  | cons i q ih =>
    cases q with
    | nil => simp [ancestors] at h
    | cons j q2 =>
      rw [ancestors_cons_cons, List.mem_append, List.mem_singleton] at h
      rcases h with h | h
      · obtain ⟨h1, h2⟩ := ih h
        exact ⟨h1.trans (List.suffix_cons i _), by simp at h2 ⊢; omega⟩
      · subst h
        exact ⟨List.suffix_cons i _, by simp⟩

theorem spec_next_up_shape (rules : List Rule) (p p2 : RulePtr)
    (h : spec_next_up rules p = some p2) :
    (rule_at rules p2).isSome = true ∧ ∃ j q, p2 = (j + 1) :: q ∧ (j :: q) <:+ p := by
  induction p with
  | nil => simp [spec_next_up] at h
  | cons i q ih =>
    simp only [spec_next_up] at h
    cases hn : rule_at rules ((i + 1) :: q) with
    | some r =>
      simp only [hn, Option.some.injEq] at h
      subst h
      exact ⟨by simp [hn], i, q, rfl, List.suffix_refl _⟩
    | none =>
      simp only [hn] at h
      obtain ⟨h1, j, q2, h2, h3⟩ := ih h
      exact ⟨h1, j, q2, h2, h3.trans (List.suffix_cons i q)⟩

/-- The loop that climbs the stack computes the next rule upward, and leaves
    the ancestor chain of that rule on the stack. -/
theorem pop_stack_ancestors (W : World) (p : RulePtr) (nxt : Option RulePtr)
    (hv : (rule_at W.rules p).isSome = true) (hn : tailq_next_rule W p = .ok nxt) :
    pop_stack W nxt (ancestors p).reverse =
      .ok (spec_next_up W.rules p, spec_stack (spec_next_up W.rules p)) := by
  induction p generalizing nxt with
  | nil => simp [rule_at] at hv
  | cons i q ih =>
    obtain ⟨r, hr⟩ := Option.isSome_iff_exists.mp hv
    obtain ⟨i2, q2, hpq, hcase⟩ := tailq_next_rule_ok W (i :: q) r hr
    simp only [List.cons.injEq] at hpq
    obtain ⟨hi, hq⟩ := hpq
    subst hi hq
    rcases hcase with ⟨h1, h2⟩ | ⟨h1, h2⟩
    · rw [h1] at hn
      simp only [Except.ok.injEq] at hn
      subst hn
      cases q with
      | nil => simp [ancestors, pop_stack, spec_next_up, h2, spec_stack]
      | cons j q3 =>
        have hpar := rule_at_parent W.rules i j q3 hv
        obtain ⟨rp, hrp⟩ := Option.isSome_iff_exists.mp hpar
        obtain ⟨j2, q4, hpq2, hcase2⟩ := tailq_next_rule_ok W (j :: q3) rp hrp
        have key : ∀ n2, tailq_next_rule W (j :: q3) = .ok n2 →
            pop_stack W none (ancestors (i :: j :: q3)).reverse =
              .ok (spec_next_up W.rules (i :: j :: q3),
                spec_stack (spec_next_up W.rules (i :: j :: q3))) := by
          intro n2 hn2
          rw [ancestors_cons_cons, List.reverse_append, List.reverse_singleton,
            List.singleton_append]
          simp only [pop_stack, hn2]
          rw [ih n2 hpar hn2]
          simp [spec_next_up, h2]
        rcases hcase2 with ⟨h3, _⟩ | ⟨h3, _⟩
        · exact key _ h3
        · exact key _ h3
    · rw [h1] at hn
      simp only [Except.ok.injEq] at hn
      subst hn
      obtain ⟨r2, hr2⟩ := Option.isSome_iff_exists.mp h2
      rw [pop_stack_some, List.reverse_reverse]
      simp only [spec_next_up, hr2, spec_stack]
      cases q with
      | nil => rfl
      | cons j q3 => rfl

/-- What one pass through label `skip` does to the rule pointer and the
    stack, on a context whose stack is the ancestor chain of its rule: nothing
    (an action expansion failed), descend to the first child, or go to the
    next rule upward. -/
theorem skip_walk (W : World) (c : MailCtx) (ev : List Event) (p : RulePtr) (r : Rule)
    (ret : Ret) (hp : c.rule = some p) (hr : rule_at W.rules p = some r)
    (hstk : c.stack = ancestors p) (h : skip W c ev = .ok ret) :
    (ret.mctx.rule = some p ∧ ret.mctx.stack = c.stack) ∨
    (ret.mctx.rule = some (0 :: p) ∧ ret.mctx.stack = c.stack ++ [p] ∧
      (rule_at W.rules (0 :: p)).isSome = true) ∨
    (ret.mctx.rule = spec_next_up W.rules p ∧
      ret.mctx.stack = spec_stack (spec_next_up W.rules p)) := by
  have hv : (rule_at W.rules p).isSome = true := by simp [hr]
  rcases skip_cases W c ev p r hp hr ret h with
    ⟨_, nxt, r1, st1, h1, h2, h⟩ | ⟨_, hne, h⟩ | ⟨_, _, _, h⟩ |
    ⟨_, _, _, _, nxt, r1, st1, h1, h2, _, h⟩
  · subst h
    rw [hstk, pop_stack_ancestors W p nxt hv h1] at h2
    simp only [Except.ok.injEq, Prod.mk.injEq] at h2
    exact Or.inr (Or.inr ⟨h2.1.symm, h2.2.symm⟩)
  · subst h
    exact Or.inr (Or.inl ⟨rfl, rfl, rule_at_first_child W.rules p r hr hne⟩)
  · subst h
    exact Or.inl ⟨hp, rfl⟩
  · subst h
    rw [hstk, pop_stack_ancestors W p nxt hv h1] at h2
    simp only [Except.ok.injEq, Prod.mk.injEq] at h2
    exact Or.inr (Or.inr ⟨h2.1.symm, h2.2.symm⟩)

/-- What one `mail_match` call does to the rule pointer and the stack. -/
theorem mail_match_walk (W : World) (c : MailCtx) (msg : Option Msg) (mb : Msgbuf)
    (ret : Ret) (hinv : walk_inv W c) (h : mail_match W c msg mb = .ok ret) :
    (ret.mctx.rule = c.rule ∧ ret.mctx.stack = c.stack) ∨
    ∃ p, c.rule = some p ∧
      ((ret.mctx.rule = some (0 :: p) ∧ ret.mctx.stack = c.stack ++ [p] ∧
          (rule_at W.rules (0 :: p)).isSome = true) ∨
       (ret.mctx.rule = spec_next_up W.rules p ∧
          ret.mctx.stack = spec_stack (spec_next_up W.rules p))) := by
  rcases mail_match_via_skip W c msg mb ret h with hw | ⟨c1, ev1, hw, hs⟩
  · exact Or.inl ⟨hw.1, hw.2.1⟩
  · obtain ⟨p, r, hp, hr⟩ := skip_rule_valid W c1 ev1 ret hs
    have hpc : c.rule = some p := by rw [← hw.1, hp]
    have hstk : c1.stack = ancestors p := by
      rw [hw.2.1, hinv.1, hpc]
      rfl
    rcases skip_walk W c1 ev1 p r ret hp hr hstk hs with ⟨h1, h2⟩ | ⟨h1, h2, h3⟩ | ⟨h1, h2⟩
    · exact Or.inl ⟨by rw [h1, hpc], by rw [h2, hw.2.1]⟩
    · exact Or.inr ⟨p, hpc, Or.inl ⟨h1, by rw [h2, hw.2.1], h3⟩⟩
    · exact Or.inr ⟨p, hpc, Or.inr ⟨h1, h2⟩⟩

theorem mail_match_walk_inv (W : World) (c : MailCtx) (msg : Option Msg) (mb : Msgbuf)
    (ret : Ret) (hinv : walk_inv W c) (h : mail_match W c msg mb = .ok ret) :
    walk_inv W ret.mctx := by
  rcases mail_match_walk W c msg mb ret hinv h with ⟨h1, h2⟩ | ⟨p, hp, ⟨h1, h2, h3⟩ | ⟨h1, h2⟩⟩
  · exact ⟨by rw [h1, h2]; exact hinv.1, fun q hq => hinv.2 q (by rw [← h1, hq])⟩
  · refine ⟨?_, fun q hq => ?_⟩
    · rw [h1, h2, hinv.1, hp]
      have hv := hinv.2 p hp
      cases p with
      | nil => simp [rule_at] at hv
      | cons i q => rfl
    · rw [h1] at hq
      cases hq
      exact h3
  · refine ⟨by rw [h1, h2], fun q hq => ?_⟩
    rw [h1] at hq
    exact (spec_next_up_shape W.rules p q hq).1

theorem reaches_walk_inv (W : World) (c d : MailCtx) (h : Reaches W c d)
    (hinv : walk_inv W c) : walk_inv W d := by
  induction h with
  | refl => exact hinv
  | match_step d msg mb ret _ hm ih => exact mail_match_walk_inv W d msg mb ret ih hm
  | deliver_step d msg mb ret _ hm ih =>
    obtain ⟨h1, h2, _⟩ := mail_deliver_frame W d msg mb ret hm
    exact ⟨by rw [h1, h2]; exact ih.1, fun q hq => ih.2 q (by rw [← h1, hq])⟩

theorem walk_inv_first (W : World) (c : MailCtx) (hs : c.stack = [])
    (hr : c.rule = first_rule W.rules) : walk_inv W c := by
  refine ⟨?_, fun p hp => ?_⟩
  · rw [hs, hr]
    unfold first_rule
    cases W.rules <;> rfl
  · rw [hr] at hp
    unfold first_rule at hp
    cases hw : W.rules with
    | nil => simp [hw] at hp
    | cons a l =>
      simp only [hw, Option.some.injEq] at hp
      subst hp
      simp [rule_at, rule_list]

/-- The head request is an in-process action that succeeds: it is executed,
    dequeued, and the call returns `MAIL_CONTINUE`. -/
theorem mail_deliver_inchild (W : World) (c : MailCtx) (msg : Option Msg) (mb : Msgbuf)
    (d : DeliverCtx) (rest : List DeliverCtx) (hid : c.msgid = 0) (hq : c.dqueue = d :: rest)
    (hfn : d.action.deliver.deliver.isSome = true)
    (hty : d.action.deliver.type = .DELIVER_INCHILD)
    (hok : ∀ m, (W.deliver_fn { d with tim := W.get_time } d.action m).1 = .DELIVER_SUCCESS) :
    ∃ m, mail_deliver W c msg mb =
      .ok ⟨.MAIL_CONTINUE, { c with mail := m, dqueue := rest },
        [Event.delivered { d with tim := W.get_time }]⟩ := by
  unfold mail_deliver
  simp only [hid, ne_eq, not_true_eq_false, if_false, hq]
  unfold start_action
  have hfn2 : d.action.deliver.deliver.isNone = false := by
    cases hx : d.action.deliver.deliver with
    | none => simp [hx] at hfn
    | some _ => rfl
  simp only [hfn2, Bool.false_eq_true, if_false, hty, if_true, hok, ne_eq, not_true_eq_false]
  simp only [ACTION_DONE, ACTION_ERROR, ACTION_PARENT, zero_ne_one, OfNat.zero_ne_ofNat,
    if_false]
  exact ⟨_, rfl⟩

/-- The head request has no delivery function: it is dequeued at once. -/
theorem mail_deliver_null (W : World) (c : MailCtx) (msg : Option Msg) (mb : Msgbuf)
    (d : DeliverCtx) (rest : List DeliverCtx) (hid : c.msgid = 0) (hq : c.dqueue = d :: rest)
    (hfn : d.action.deliver.deliver = none) :
    mail_deliver W c msg mb =
      .ok ⟨.MAIL_CONTINUE,
        { c with mail := set_wrapped c.mail (Char.ofNat 10), dqueue := rest }, []⟩ := by
  unfold mail_deliver
  simp only [hid, ne_eq, not_true_eq_false, if_false, hq]
  unfold start_action
  simp [hfn, ACTION_ERROR, ACTION_PARENT]

/-- The matching reply arrives without error, and the rewritten payload, if
    the action hands one back, is received: the head is dequeued. -/
theorem mail_deliver_reply (W : World) (c : MailCtx) (msg : Msg) (mb : Msgbuf)
    (d : DeliverCtx) (rest : List DeliverCtx) (hid : c.msgid ≠ 0) (hq : c.dqueue = d :: rest)
    (hmsg : msg.id = c.msgid) (herr : msg.error = 0)
    (hrecv : d.action.deliver.type = .DELIVER_WRBACK → ∀ m, (W.mail_receive m msg).1 = 0) :
    ∃ m, mail_deliver W c (some msg) mb =
      .ok ⟨.MAIL_CONTINUE, { c with mail := m, msgid := 0, dqueue := rest }, []⟩ := by
  unfold mail_deliver
  simp only [hid, ne_eq, not_false_eq_true, if_true, hmsg, not_true_eq_false, if_false, hq]
  unfold finish_action
  simp only [herr, ne_eq, not_true_eq_false, if_false]
  by_cases hty : d.action.deliver.type = .DELIVER_WRBACK
  · simp only [hty, not_true_eq_false, if_false, hrecv hty, ACTION_DONE, ACTION_ERROR,
      zero_ne_one]
    exact ⟨_, rfl⟩
  · simp only [hty, not_false_eq_true, if_true, ACTION_DONE, ACTION_ERROR, zero_ne_one,
      if_false]
    exact ⟨_, rfl⟩

theorem deliver_run_inchild (W : World) (mb : Msgbuf) (q : List DeliverCtx) :
    ∀ c : MailCtx, c.msgid = 0 → c.dqueue = q →
      (∀ d ∈ q, d.action.deliver.deliver.isSome = true ∧
        d.action.deliver.type = .DELIVER_INCHILD ∧
        ∀ m, (W.deliver_fn { d with tim := W.get_time } d.action m).1 = .DELIVER_SUCCESS) →
      ∃ rets last, deliver_run W mb (q.length + 1) c = .ok (rets ++ [last]) ∧
        rets.map (fun r => r.events) =
          q.map (fun d => [Event.delivered { d with tim := W.get_time }]) ∧
        rets.map (fun r => r.mctx.dqueue) = q.tails.tail ∧
        (∀ r ∈ rets, r.status = .MAIL_CONTINUE) ∧
        last.status = .MAIL_MATCH ∧ last.mctx.dqueue = [] ∧ last.events = [] := by
  induction q with
  | nil =>
    intro c hid hq _
    refine ⟨[], ⟨.MAIL_MATCH, { c with mail := set_wrapped c.mail (Char.ofNat 10) }, []⟩,
      ?_, rfl, rfl, by simp, rfl, hq, rfl⟩
    simp [deliver_run, mail_deliver, hid, hq]
  | cons d rest ih =>
    intro c hid hq hall
    obtain ⟨h1, h2, h3⟩ := hall d (by simp)
    obtain ⟨m, hm⟩ := mail_deliver_inchild W c none mb d rest hid hq h1 h2 h3
    obtain ⟨rets, last, hr, hev, hqs, hst, hl1, hl2, hl3⟩ :=
      ih { c with mail := m, dqueue := rest } hid rfl (fun x hx => hall x (by simp [hx]))
    refine ⟨(⟨.MAIL_CONTINUE, { c with mail := m, dqueue := rest },
        [Event.delivered { d with tim := W.get_time }]⟩ : Ret) :: rets, last,
      ?_, ?_, ?_, ?_, hl1, hl2, hl3⟩
    · rw [List.length_cons, deliver_run, hm]
      simp only []
      rw [hr]
      rfl
    · simp [hev]
    · have ht : rest.tails = rest :: rest.tails.tail := by cases rest <;> simp [List.tails]
      rw [List.map_cons, hqs, List.tails, List.tail_cons, ← ht]
    · intro r hr2
      rcases List.mem_cons.mp hr2 with h | h
      · subst h
        rfl
      · exact hst r h

/-- While an id is pending, a call with no reply or with a reply of another
    id returns blocked and touches nothing but the wrap convention. -/
theorem mail_match_pending_blocked (W : World) (c : MailCtx) (msg : Option Msg) (mb : Msgbuf)
    (hpend : c.msgid ≠ 0) (hmsg : ∀ m, msg = some m → m.id ≠ c.msgid) :
    mail_match W c msg mb =
      .ok ⟨.MAIL_BLOCKED, { c with mail := set_wrapped c.mail ' ' }, []⟩ := by
  unfold mail_match
  simp only [hpend, ne_eq, not_false_eq_true, if_true]
  cases msg with
  | none => rfl
  | some m => simp [hmsg m rfl]

theorem mail_deliver_pending_blocked (W : World) (c : MailCtx) (msg : Option Msg)
    (mb : Msgbuf) (hpend : c.msgid ≠ 0) (hmsg : ∀ m, msg = some m → m.id ≠ c.msgid) :
    mail_deliver W c msg mb =
      .ok ⟨.MAIL_BLOCKED, { c with mail := set_wrapped c.mail (Char.ofNat 10) }, []⟩ := by
  unfold mail_deliver
  simp only [hpend, ne_eq, not_false_eq_true, if_true]
  cases msg with
  | none => rfl
  | some m => simp [hmsg m rfl]
/-- Label `skip` hands the events through and leaves the outstanding id, the
    accumulated result, the clause pointer and the account alone. -/
theorem skip_keeps (W : World) (c : MailCtx) (ev : List Event) (ret : Ret)
    (h : skip W c ev = .ok ret) :
    ret.events = ev ∧ ret.mctx.msgid = c.msgid ∧ ret.mctx.result = c.result ∧
    ret.mctx.expritem = c.expritem ∧ ret.mctx.account = c.account := by
  obtain ⟨p, r, hp, hr⟩ := skip_rule_valid W c ev ret h
  rcases skip_cases W c ev p r hp hr ret h with
    ⟨h0, _, _, _, _, _, h⟩ | ⟨h0, _, h⟩ | ⟨h0, _, _, h⟩ | ⟨h0, _, _, _, _, _, _, _, _, _, h⟩ <;>
    subst h <;> exact ⟨rfl, rfl, rfl, rfl, rfl⟩

theorem next_expritem_keeps (W : World) (c : MailCtx) (ev : List Event) (ret : Ret)
    (h : next_expritem W c ev = .ok ret) :
    ret.events = ev ∧ ret.mctx.msgid = c.msgid ∧ ret.mctx.result = c.result ∧
    ret.mctx.account = c.account := by
  unfold next_expritem at h
  split at h
  · simp at h
  · simp only [] at h
    split at h
    · simp only [Except.ok.injEq] at h
      subst h
      exact ⟨rfl, rfl, rfl, rfl⟩
    · obtain ⟨h1, h2, h3, _, h5⟩ := skip_keeps W _ ev ret h
      exact ⟨h1, h2, h3, h5⟩

theorem resume_match_keeps (W : World) (c : MailCtx) (msg : Msg) (mb : Msgbuf) (ret : Ret)
    (h : resume_match W c msg mb = .ok ret) : ret.events = [] ∧ ret.mctx.msgid = 0 := by
  obtain ⟨buf, len⟩ := mb
  have hcase : buf = none ∨ (∃ t, buf = some t ∧ len = 0) ∨ ∃ t, buf = some t ∧ len ≠ 0 := by
    cases buf with
    | none => exact Or.inl rfl
    | some t =>
      by_cases hl : len = 0
      · exact Or.inr (Or.inl ⟨t, rfl, hl⟩)
      · exact Or.inr (Or.inr ⟨t, rfl, hl⟩)
  unfold resume_match at h
  simp only [] at h
  split at h
  · simp at h
  · rcases hcase with rfl | ⟨t, rfl, rfl⟩ | ⟨t, rfl, hl⟩
    · simp only [] at h
      split at h
      · simp only [Except.ok.injEq] at h
        subst h
        exact ⟨rfl, rfl⟩
      · split at h
        · split at h
          · simp at h
          · obtain ⟨h1, h2, _⟩ := next_expritem_keeps W _ _ ret h
            exact ⟨h1, h2⟩
        · split at h
          · split at h
            · simp at h
            · obtain ⟨h1, h2, _⟩ := next_expritem_keeps W _ _ ret h
              exact ⟨h1, h2⟩
          · simp at h
    · simp only [ne_eq, not_true_eq_false, if_false] at h
      split at h
      · simp only [Except.ok.injEq] at h
        subst h
        exact ⟨rfl, rfl⟩
      · split at h
        · split at h
          · simp at h
          · obtain ⟨h1, h2, _⟩ := next_expritem_keeps W _ _ ret h
            exact ⟨h1, h2⟩
        · split at h
          · split at h
            · simp at h
            · obtain ⟨h1, h2, _⟩ := next_expritem_keeps W _ _ ret h
              exact ⟨h1, h2⟩
          · simp at h
    · simp only [ne_eq, hl, not_false_eq_true, if_true] at h
      split at h
      · simp only [Except.ok.injEq] at h
        subst h
        exact ⟨rfl, rfl⟩
      · split at h
        · split at h
          · simp at h
          · obtain ⟨h1, h2, _⟩ := next_expritem_keeps W _ _ ret h
            exact ⟨h1, h2⟩
        · split at h
          · split at h
            · simp at h
            · obtain ⟨h1, h2, _⟩ := next_expritem_keeps W _ _ ret h
              exact ⟨h1, h2⟩
          · simp at h

/-- While an id is pending, `mail_match` makes no external call: it returns
    blocked with the id still pending, or consumes the matching reply and
    clears the id. -/
theorem mail_match_pending (W : World) (c : MailCtx) (msg : Option Msg) (mb : Msgbuf)
    (ret : Ret) (hpend : c.msgid ≠ 0) (h : mail_match W c msg mb = .ok ret) :
    ret.events = [] ∧
    ((ret.status = .MAIL_BLOCKED ∧ ret.mctx.msgid = c.msgid ∧
        ∀ m, msg = some m → m.id ≠ c.msgid) ∨
     (∃ m, msg = some m ∧ m.id = c.msgid ∧ ret.mctx.msgid = 0)) := by
  by_cases hm : ∀ m, msg = some m → m.id ≠ c.msgid
  · rw [mail_match_pending_blocked W c msg mb hpend hm] at h
    simp only [Except.ok.injEq] at h
    subst h
    exact ⟨rfl, Or.inl ⟨rfl, rfl, hm⟩⟩
  · push_neg at hm
    obtain ⟨m, h1, h2⟩ := hm
    subst h1
    unfold mail_match at h
    simp only [hpend, ne_eq, not_false_eq_true, if_true, h2, not_true_eq_false, if_false] at h
    obtain ⟨h3, h4⟩ := resume_match_keeps W _ m mb ret h
    exact ⟨h3, Or.inr ⟨m, rfl, h2, h4⟩⟩

theorem mail_deliver_pending (W : World) (c : MailCtx) (msg : Option Msg) (mb : Msgbuf)
    (ret : Ret) (hpend : c.msgid ≠ 0) (h : mail_deliver W c msg mb = .ok ret) :
    ret.events = [] ∧
    ((ret.status = .MAIL_BLOCKED ∧ ret.mctx.msgid = c.msgid ∧
        ∀ m, msg = some m → m.id ≠ c.msgid) ∨
     (∃ m, msg = some m ∧ m.id = c.msgid ∧ ret.mctx.msgid = 0)) := by
  by_cases hm : ∀ m, msg = some m → m.id ≠ c.msgid
  · rw [mail_deliver_pending_blocked W c msg mb hpend hm] at h
    simp only [Except.ok.injEq] at h
    subst h
    exact ⟨rfl, Or.inl ⟨rfl, rfl, hm⟩⟩
  · push_neg at hm
    obtain ⟨m, h1, h2⟩ := hm
    subst h1
    unfold mail_deliver at h
    simp only [hpend, ne_eq, not_false_eq_true, if_true, h2, not_true_eq_false, if_false] at h
    split at h
    · simp at h
    · split at h
      · simp only [Except.ok.injEq] at h
        subst h
        exact ⟨rfl, Or.inr ⟨m, rfl, h2, rfl⟩⟩
      · simp only [Except.ok.injEq] at h
        subst h
        exact ⟨rfl, Or.inr ⟨m, rfl, h2, rfl⟩⟩

theorem start_action_sent (W : World) (c : MailCtx) (d : DeliverCtx) (rc : Nat)
    (c1 : MailCtx) (d1 : DeliverCtx) (ev : List Event)
    (h : start_action W c d = .ok (rc, c1, d1, ev)) (m : Msg) (b : Msgbuf)
    (hs : Event.sent m b ∈ ev) :
    rc = ACTION_PARENT ∧ c1.msgid = m.id ∧ ev = [Event.sent m b] := by
  unfold start_action at h
  simp only [] at h
  split at h
  · simp only [Except.ok.injEq, Prod.mk.injEq] at h
    obtain ⟨_, _, _, h4⟩ := h
    subst h4
    simp at hs
  · split at h
    · split at h
      · simp only [Except.ok.injEq, Prod.mk.injEq] at h
        obtain ⟨_, _, _, h4⟩ := h
        subst h4
        simp at hs
      · simp only [Except.ok.injEq, Prod.mk.injEq] at h
        obtain ⟨_, _, _, h4⟩ := h
        subst h4
        simp at hs
    · split at h
      · simp at h
      · simp only [Except.ok.injEq, Prod.mk.injEq] at h
        obtain ⟨h1, h2, _, h4⟩ := h
        subst h1 h2 h4
        simp only [List.mem_singleton, Event.sent.injEq] at hs
        obtain ⟨h5, h6⟩ := hs
        subst h5 h6
        exact ⟨rfl, rfl, rfl⟩

/-- When `mail_deliver` sends a request, it records the id of that request as
    outstanding and returns blocked. -/
theorem mail_deliver_sent (W : World) (c : MailCtx) (msg : Option Msg) (mb : Msgbuf)
    (ret : Ret) (h : mail_deliver W c msg mb = .ok ret) (m : Msg) (b : Msgbuf)
    (hs : Event.sent m b ∈ ret.events) :
    ret.status = .MAIL_BLOCKED ∧ ret.mctx.msgid = m.id ∧ ret.events = [Event.sent m b] := by
  by_cases hpend : c.msgid = 0
  · unfold mail_deliver at h
    simp only [hpend, ne_eq, not_true_eq_false, if_false] at h
    split at h
    · simp only [Except.ok.injEq] at h
      subst h
      simp at hs
    · split at h
      · simp at h
      · rename_i rc c1 d1 ev hst
        have key : Event.sent m b ∈ ev →
            rc = ACTION_PARENT ∧ c1.msgid = m.id ∧ ev = [Event.sent m b] :=
          start_action_sent W _ _ rc c1 d1 ev hst m b
        split at h
        · rename_i herr
          simp only [Except.ok.injEq] at h
          subst h
          obtain ⟨k1, _, _⟩ := key hs
          rw [k1] at herr
          simp [ACTION_PARENT, ACTION_ERROR] at herr
        · split at h
          · simp only [Except.ok.injEq] at h
            subst h
            obtain ⟨_, k2, k3⟩ := key hs
            exact ⟨rfl, k2, k3⟩
          · rename_i hpar
            simp only [Except.ok.injEq] at h
            subst h
            obtain ⟨k1, _, _⟩ := key hs
            exact absurd k1 hpar
  · rw [(mail_deliver_pending W c msg mb ret hpend h).1] at hs
    simp at hs
theorem skip_false (W : World) (c : MailCtx) (ev : List Event) (h : c.result = false) :
    skip W c ev = next_rule W c .MAIL_CONTINUE ev := by
  unfold skip
  simp [h]

/-- Verdict true on a rule with nested rules: push the rule, descend. -/
theorem skip_nested (W : World) (c : MailCtx) (ev : List Event) (p : RulePtr) (r : Rule)
    (hres : c.result = true) (hp : c.rule = some p) (hr : rule_at W.rules p = some r)
    (hn : r.rules ≠ []) :
    skip W c ev =
      .ok ⟨.MAIL_CONTINUE,
        { c with matched := true, done := c.done || r.d.stop, stack := c.stack ++ [p],
                 rule := some (0 :: p) }, ev⟩ := by
  have hn2 : r.rules.isEmpty = false := by
    cases hx : r.rules with
    | nil => exact absurd hx hn
    | cons _ _ => rfl
  unfold skip
  simp only [hres, Bool.not_true, Bool.false_eq_true, if_false, hp, deref_rule, hr, hn2,
    Bool.not_false, if_true]
  cases hs : r.d.stop <;> simp

/-- Verdict true on a rule without nested rules and without actions: tag,
    then move on. -/
theorem skip_leaf_plain (W : World) (c : MailCtx) (ev : List Event) (p : RulePtr) (r : Rule)
    (hres : c.result = true) (hp : c.rule = some p) (hr : rule_at W.rules p = some r)
    (hn : r.rules = []) (ha : r.d.actions = []) :
    skip W c ev =
      next_rule W
        { c with matched := true, done := c.done || r.d.stop, mail := tag_mail W r c.mail }
        .MAIL_CONTINUE ev := by
  unfold skip
  simp only [hres, Bool.not_true, Bool.false_eq_true, if_false, hp, deref_rule, hr, hn, ha,
    List.isEmpty_nil]
  cases hs : r.d.stop <;> simp

/-- Verdict true on a rule without nested rules whose actions expand: tag,
    fill the queue, report a delivery and move on. -/
theorem skip_leaf_deliver (W : World) (c : MailCtx) (ev : List Event) (p : RulePtr) (r : Rule)
    (c3 : MailCtx) (hres : c.result = true) (hp : c.rule = some p)
    (hr : rule_at W.rules p = some r) (hn : r.rules = []) (ha : r.d.actions ≠ [])
    (hfill : fill_delivery_queue W
      { c with matched := true, done := c.done || r.d.stop, mail := tag_mail W r c.mail } p =
        .ok (0, c3)) :
    skip W c ev = next_rule W c3 .MAIL_DELIVER ev := by
  have ha2 : r.d.actions.isEmpty = false := by
    cases hx : r.d.actions with
    | nil => exact absurd hx ha
    | cons _ _ => rfl
  unfold skip
  simp only [hres, Bool.not_true, Bool.false_eq_true, if_false, hp, deref_rule, hr, hn, ha2,
    List.isEmpty_nil, Bool.not_false, if_true]
  cases hs : r.d.stop
  · simp only [hs, Bool.or_false] at hfill
    simp only [Bool.false_eq_true, if_false]
    rw [hp, hres] at hfill
    rw [hfill]
    simp
  · simp only [hs, Bool.or_true] at hfill
    simp only [if_true]
    rw [hp, hres] at hfill
    rw [hfill]
    simp

/-- Verdict true on a rule without nested rules one of whose templates
    matches no action: the call reports an error. -/
theorem skip_leaf_error (W : World) (c : MailCtx) (ev : List Event) (p : RulePtr) (r : Rule)
    (c3 : MailCtx) (rc : Nat) (hres : c.result = true) (hp : c.rule = some p)
    (hr : rule_at W.rules p = some r) (hn : r.rules = []) (ha : r.d.actions ≠ [])
    (hfill : fill_delivery_queue W
      { c with matched := true, done := c.done || r.d.stop, mail := tag_mail W r c.mail } p =
        .ok (rc, c3)) (hrc : rc ≠ 0) :
    skip W c ev = .ok ⟨.MAIL_ERROR, c3, ev⟩ := by
  have ha2 : r.d.actions.isEmpty = false := by
    cases hx : r.d.actions with
    | nil => exact absurd hx ha
    | cons _ _ => rfl
  unfold skip
  simp only [hres, Bool.not_true, Bool.false_eq_true, if_false, hp, deref_rule, hr, hn, ha2,
    List.isEmpty_nil, Bool.not_false, if_true]
  cases hs : r.d.stop
  · simp only [hs, Bool.or_false] at hfill
    simp only [Bool.false_eq_true, if_false]
    rw [hp, hres] at hfill
    rw [hfill]
    simp [hrc]
  · simp only [hs, Bool.or_true] at hfill
    simp only [if_true]
    rw [hp, hres] at hfill
    rw [hfill]
    simp [hrc]

/-- The loop over the templates stops at the first template that matches no
    action: it returns 1, having enqueued the requests of the templates before
    that one and nothing else. -/
theorem fill_templates_fail (W : World) (r : RulePtr) (mctx : MailCtx) (p : RulePtr) (r0 : Rule)
    (hp : mctx.rule = some p) (hr : rule_at W.rules p = some r0) (tpl : List Replstr)
    (hbad : ∃ rs ∈ tpl, resolves W mctx rs = false) (q : List DeliverCtx) :
    fill_templates W r tpl { mctx with dqueue := q } =
      .ok (1, { mctx with
        dqueue := q ++ spec_requests W mctx r (tpl.takeWhile (resolves W mctx)) }) := by
  induction tpl generalizing q with
  | nil => simp at hbad
  | cons rs rest ih =>
    by_cases h : resolves W mctx rs = true
    · have hbad2 : ∃ x ∈ rest, resolves W mctx x = false := by
        obtain ⟨x, hx, hx2⟩ := hbad
        rcases List.mem_cons.mp hx with h3 | h3
        · subst h3
          rw [h] at hx2
          cases hx2
        · exact ⟨x, h3, hx2⟩
      have h1 : (W.match_actions (W.replacestr rs mctx.mail.tags mctx.mail)).isEmpty = false := by
        simpa [resolves] using h
      simp only [fill_templates, h1, Bool.false_eq_true, if_false]
      rw [fill_actions_eq W r mctx p r0 hp hr]
      simp only []
      rw [ih hbad2]
      simp [List.takeWhile, h, spec_requests, List.append_assoc]
    · have h1 : (W.match_actions (W.replacestr rs mctx.mail.tags mctx.mail)).isEmpty = true := by
        simpa [resolves] using h
      simp only [fill_templates, h1, if_true]
      simp [List.takeWhile, h, spec_requests]

/-- Starting a rule that passes its account filter and has no clauses goes to
    label `skip` with the verdict true, without any predicate. -/
theorem mail_match_match_all (W : World) (c : MailCtx) (msg : Option Msg) (mb : Msgbuf)
    (p : RulePtr) (r : Rule) (hid : c.msgid = 0) (hdone : c.done = false)
    (hp : c.rule = some p) (hei : c.expritem = none) (hr : rule_at W.rules p = some r)
    (hacc : account_excluded W r c.account = false)
    (hcl : r.d.expr = none ∨ r.d.expr = some []) :
    mail_match W c msg mb =
      skip W { c with mail := set_wrapped c.mail ' ', result := true } [] := by
  rw [mail_match_start W c msg mb p hid hdone hp hei]
  unfold start_expr deref_rule
  simp only [hp, hr, hacc, Bool.false_eq_true, if_false]
  rcases hcl with h | h <;> simp [h]


theorem deliver_run_empty (W : World) (mb : Msgbuf) (n : Nat) (c : MailCtx)
    (hid : c.msgid = 0) (hq : c.dqueue = []) :
    deliver_run W mb n c =
      .ok (List.replicate n
        ⟨.MAIL_MATCH, { c with mail := set_wrapped c.mail (Char.ofNat 10) }, []⟩) := by
  induction n generalizing c with
  | zero => rfl
  | succ n ih =>
    have h1 : mail_deliver W c none mb =
        .ok ⟨.MAIL_MATCH, { c with mail := set_wrapped c.mail (Char.ofNat 10) }, []⟩ := by
      unfold mail_deliver
      simp [hid, hq]
    rw [deliver_run, h1]
    simp only []
    rw [ih { c with mail := set_wrapped c.mail (Char.ofNat 10) } hid hq]
    rfl

theorem deliver_run_pending (W : World) (mb : Msgbuf) (n : Nat) (c : MailCtx)
    (hid : c.msgid ≠ 0) :
    deliver_run W mb n c =
      .ok (List.replicate n
        ⟨.MAIL_BLOCKED, { c with mail := set_wrapped c.mail (Char.ofNat 10) }, []⟩) := by
  induction n generalizing c with
  | zero => rfl
  | succ n ih =>
    rw [deliver_run, mail_deliver_pending_blocked W c none mb hid (fun m hm => by cases hm)]
    simp only []
    rw [ih { c with mail := set_wrapped c.mail (Char.ofNat 10) } hid]
    rfl

/-- Label `next_rule` carries the matched flag through. -/
theorem next_rule_matched (W : World) (c : MailCtx) (b : Bool) (error : Status)
    (ev : List Event) :
    next_rule W { c with matched := b } error ev =
      (next_rule W c error ev).map fun r => { r with mctx := { r.mctx with matched := b } } := by
  unfold next_rule
  cases c.rule with
  | none => rfl
  | some p =>
    simp only []
    cases tailq_next_rule W p with
    | error e => rfl
    | ok nxt =>
      simp only []
      cases pop_stack W nxt c.stack.reverse with
      | error e => rfl
      | ok x => rfl

theorem map_forget_matched (x : Except Abort Ret) (b : Bool) :
    (x.map fun r => ({ r with mctx := { r.mctx with matched := b } } : Ret)).map
        (fun r => (r.status, ({ r.mctx with matched := false } : MailCtx), r.events)) =
      x.map fun r => (r.status, ({ r.mctx with matched := false } : MailCtx), r.events) := by
  cases x <;> rfl

/-- Label `skip` does not read the matched flag: it only sets it. -/
theorem skip_matched (W : World) (c : MailCtx) (b : Bool) (ev : List Event) :
    (skip W { c with matched := b } ev).map
        (fun r => (r.status, ({ r.mctx with matched := false } : MailCtx), r.events)) =
      (skip W c ev).map
        (fun r => (r.status, ({ r.mctx with matched := false } : MailCtx), r.events)) := by
  rcases Bool.eq_false_or_eq_true c.result with hres | hres
  · have h : skip W { c with matched := b } ev = skip W c ev := by
      unfold skip
      simp only [hres, Bool.not_true, Bool.false_eq_true, if_false]
    rw [h]
  · rw [skip_false W c ev hres, skip_false W { c with matched := b } ev hres,
      next_rule_matched, map_forget_matched]

theorem next_expritem_matched (W : World) (c : MailCtx) (b : Bool) (ev : List Event) :
    (next_expritem W { c with matched := b } ev).map
        (fun r => (r.status, ({ r.mctx with matched := false } : MailCtx), r.events)) =
      (next_expritem W c ev).map
        (fun r => (r.status, ({ r.mctx with matched := false } : MailCtx), r.events)) := by
  unfold next_expritem
  have h : tailq_next_expritem W { c with matched := b } = tailq_next_expritem W c := rfl
  rw [h]
  cases tailq_next_expritem W c with
  | error e => rfl
  | ok nxt =>
    simp only []
    split
    · rfl
    · exact skip_matched W { c with expritem := nxt } b ev

theorem check_expritem_matched (W : World) (c : MailCtx) (b : Bool)
    (hpred : ∀ x ei v, W.match_fn { x with matched := v } ei = W.match_fn x ei) :
    (check_expritem W { c with matched := b }).map
        (fun r => (r.status, ({ r.mctx with matched := false } : MailCtx), r.events)) =
      (check_expritem W c).map
        (fun r => (r.status, ({ r.mctx with matched := false } : MailCtx), r.events)) := by
  obtain ⟨acc, m, rule, stack, ei0, res, matched, done, msgid, dq⟩ := c
  unfold check_expritem
  have hd : deref_expritem W ⟨acc, m, rule, stack, ei0, res, b, done, msgid, dq⟩ =
      deref_expritem W ⟨acc, m, rule, stack, ei0, res, matched, done, msgid, dq⟩ := rfl
  simp only [hd]
  cases hde : deref_expritem W ⟨acc, m, rule, stack, ei0, res, matched, done, msgid, dq⟩ with
  | error e => rfl
  | ok ei =>
    cases rule with
    | none => rfl
    | some p =>
      cases ei0 with
      | none => rfl
      | some i =>
        have hp := hpred ⟨acc, m, some p, stack, some i, res, matched, done, msgid, dq⟩ ei b
        simp only [] at hp
        simp only [hp]
        by_cases h1 : (W.match_fn ⟨acc, m, some p, stack, some i, res, matched, done, msgid,
            dq⟩ ei).ret = W.codes.MATCH_ERROR
        · simp only [h1, if_true]
          rfl
        · simp only [h1, if_false]
          by_cases h2 : (W.match_fn ⟨acc, m, some p, stack, some i, res, matched, done, msgid,
              dq⟩ ei).ret = W.codes.MATCH_PARENT
          · simp only [h2, if_true]
            rfl
          · simp only [h2, if_false]
            by_cases h3 : (W.match_fn ⟨acc, m, some p, stack, some i, res, matched, done,
                msgid, dq⟩ ei).ret = W.codes.MATCH_TRUE
            · simp only [h3, if_true]
              exact next_expritem_matched W
                ⟨acc, { m with tags := (W.match_fn ⟨acc, m, some p, stack, some i, res,
                    matched, done, msgid, dq⟩ ei).tags }, some p, stack, some i,
                  adjust_sync ei true res, matched, done,
                  (W.match_fn ⟨acc, m, some p, stack, some i, res, matched, done, msgid,
                    dq⟩ ei).msgid, dq⟩ b _
            · simp only [h3, if_false]
              by_cases h4 : (W.match_fn ⟨acc, m, some p, stack, some i, res, matched, done,
                  msgid, dq⟩ ei).ret = W.codes.MATCH_FALSE
              · simp only [h4, if_true]
                exact next_expritem_matched W
                  ⟨acc, { m with tags := (W.match_fn ⟨acc, m, some p, stack, some i, res,
                      matched, done, msgid, dq⟩ ei).tags }, some p, stack, some i,
                    adjust_sync ei false res, matched, done,
                    (W.match_fn ⟨acc, m, some p, stack, some i, res, matched, done, msgid,
                      dq⟩ ei).msgid, dq⟩ b _
              · simp only [h4, if_false]
                exact next_expritem_matched W
                  ⟨acc, { m with tags := (W.match_fn ⟨acc, m, some p, stack, some i, res,
                      matched, done, msgid, dq⟩ ei).tags }, some p, stack, some i,
                    res, matched, done,
                    (W.match_fn ⟨acc, m, some p, stack, some i, res, matched, done, msgid,
                      dq⟩ ei).msgid, dq⟩ b _

theorem start_expr_matched (W : World) (c : MailCtx) (b : Bool)
    (hpred : ∀ x ei v, W.match_fn { x with matched := v } ei = W.match_fn x ei) :
    (start_expr W { c with matched := b }).map
        (fun r => (r.status, ({ r.mctx with matched := false } : MailCtx), r.events)) =
      (start_expr W c).map
        (fun r => (r.status, ({ r.mctx with matched := false } : MailCtx), r.events)) := by
  unfold start_expr
  have hd : deref_rule W ({ c with matched := b } : MailCtx).rule = deref_rule W c.rule := rfl
  rw [hd]
  cases deref_rule W c.rule with
  | error e => rfl
  | ok r =>
    simp only []
    split
    · exact skip_matched W { c with result := false } b []
    · split
      · exact skip_matched W { c with result := true } b []
      · exact skip_matched W { c with result := true } b []
      · exact check_expritem_matched W { c with result := false, expritem := some 0 } b hpred

theorem resume_match_matched (W : World) (c : MailCtx) (b : Bool) (msg : Msg) (mb : Msgbuf) :
    (resume_match W { c with matched := b } msg mb).map
        (fun r => (r.status, ({ r.mctx with matched := false } : MailCtx), r.events)) =
      (resume_match W c msg mb).map
        (fun r => (r.status, ({ r.mctx with matched := false } : MailCtx), r.events)) := by
  obtain ⟨buf, len⟩ := mb
  have key : ∀ x : MailCtx,
      (resume_match W { x with matched := b } msg ⟨none, len⟩).map
        (fun r => (r.status, ({ r.mctx with matched := false } : MailCtx), r.events)) =
      (resume_match W x msg ⟨none, len⟩).map
        (fun r => (r.status, ({ r.mctx with matched := false } : MailCtx), r.events)) := by
    intro x
    unfold resume_match
    simp only []
    split
    · rfl
    · split
      · rfl
      · split
        · have hd : deref_expritem W { x with matched := b, msgid := 0 } =
              deref_expritem W { x with msgid := 0 } := rfl
          rw [hd]
          cases hde : deref_expritem W { x with msgid := 0 } with
          | error e => rfl
          | ok ei =>
            exact next_expritem_matched W
              { x with msgid := 0, result := adjust_reply ei true x.result } b []
        · split
          · have hd : deref_expritem W { x with matched := b, msgid := 0 } =
                deref_expritem W { x with msgid := 0 } := rfl
            rw [hd]
            cases hde : deref_expritem W { x with msgid := 0 } with
            | error e => rfl
            | ok ei =>
              exact next_expritem_matched W
                { x with msgid := 0, result := adjust_reply ei false x.result } b []
          · rfl
  have hcase : buf = none ∨ (∃ t, buf = some t ∧ len = 0) ∨ ∃ t, buf = some t ∧ len ≠ 0 := by
    cases buf with
    | none => exact Or.inl rfl
    | some t =>
      by_cases hl : len = 0
      · exact Or.inr (Or.inl ⟨t, rfl, hl⟩)
      · exact Or.inr (Or.inr ⟨t, rfl, hl⟩)
  rcases hcase with rfl | ⟨t, rfl, rfl⟩ | ⟨t, rfl, hl⟩
  · exact key c
  · have h1 : ∀ x : MailCtx, resume_match W x msg ⟨some t, 0⟩ =
        resume_match W x msg ⟨none, 0⟩ := by
      intro x
      unfold resume_match
      simp
    rw [h1, h1]
    exact key c
  · have h1 : ∀ x : MailCtx, resume_match W x msg ⟨some t, len⟩ =
        resume_match W { x with mail := { x.mail with tags := W.update_tags t } } msg
          ⟨none, len⟩ := by
      intro x
      unfold resume_match
      simp [hl]
    rw [h1, h1]
    exact key { c with mail := { c.mail with tags := W.update_tags t } }

/-- `mail_match` does not read the matched flag: when the predicates do not
    read it either, two calls on contexts that differ only in that flag return
    the same status, make the same external calls and leave contexts that
    differ at most in that flag. -/
theorem mail_match_matched (W : World) (c : MailCtx) (b : Bool) (msg : Option Msg)
    (mb : Msgbuf)
    (hpred : ∀ x ei v, W.match_fn { x with matched := v } ei = W.match_fn x ei) :
    (mail_match W { c with matched := b } msg mb).map
        (fun r => (r.status, ({ r.mctx with matched := false } : MailCtx), r.events)) =
      (mail_match W c msg mb).map
        (fun r => (r.status, ({ r.mctx with matched := false } : MailCtx), r.events)) := by
  unfold mail_match
  simp only []
  split
  · split
    · rfl
    · split
      · rfl
      · exact resume_match_matched W { c with mail := set_wrapped c.mail ' ' } b _ mb
  · split
    · rfl
    · split
      · rfl
      · split
        · exact start_expr_matched W { c with mail := set_wrapped c.mail ' ' } b hpred
        · exact check_expritem_matched W { c with mail := set_wrapped c.mail ' ' } b hpred

theorem pre_rule_eq (p : RulePtr) (r : Rule) :
    pre_rule p r = p :: pre_list p 0 r.rules := by
  cases r with
  | node d rs => rw [pre_rule]; rfl

theorem pre_list_cons (q : RulePtr) (i : Nat) (r : Rule) (rs : List Rule) :
    pre_list q i (r :: rs) = pre_rule (i :: q) r ++ pre_list q (i + 1) rs := by
  rw [pre_list]

theorem pre_list_nil (q : RulePtr) (i : Nat) : pre_list q i [] = [] := by
  rw [pre_list]

mutual
theorem pre_rule_suffix : ∀ (r : Rule) (p x : RulePtr), x ∈ pre_rule p r → p <:+ x
  | .node d rs, p, x, h => by
    rw [pre_rule_eq] at h
    rcases List.mem_cons.1 h with h | h
    · subst h
      exact List.suffix_refl _
    · obtain ⟨j, _, hj⟩ := pre_list_suffix rs p 0 x h
      exact (List.suffix_cons j p).trans hj
theorem pre_list_suffix : ∀ (rs : List Rule) (q : RulePtr) (i : Nat) (x : RulePtr),
    x ∈ pre_list q i rs → ∃ j, i ≤ j ∧ (j :: q) <:+ x
  | [], q, i, x, h => by
    rw [pre_list_nil] at h
    cases h
  | r :: rs, q, i, x, h => by
    rw [pre_list_cons] at h
    rcases List.mem_append.1 h with h | h
    · exact ⟨i, le_refl _, pre_rule_suffix r (i :: q) x h⟩
    · obtain ⟨j, hj, hs⟩ := pre_list_suffix rs q (i + 1) x h
      exact ⟨j, by omega, hs⟩
end

theorem suffix_same_length (a b x : RulePtr) (ha : a <:+ x) (hb : b <:+ x)
    (hl : a.length = b.length) : a = b := by
  rcases List.suffix_or_suffix_of_suffix ha hb with h | h
  · exact List.IsSuffix.eq_of_length h hl
  · exact (List.IsSuffix.eq_of_length h hl.symm).symm

mutual
theorem pre_rule_nodup : ∀ (r : Rule) (p : RulePtr), (pre_rule p r).Nodup
  | .node d rs, p => by
    rw [pre_rule_eq]
    refine List.nodup_cons.2 ⟨fun h => ?_, pre_list_nodup rs p 0⟩
    obtain ⟨j, _, hj⟩ := pre_list_suffix rs p 0 p h
    have := hj.length_le
    simp at this
theorem pre_list_nodup : ∀ (rs : List Rule) (q : RulePtr) (i : Nat), (pre_list q i rs).Nodup
  | [], q, i => by
    rw [pre_list_nil]
    exact List.nodup_nil
  | r :: rs, q, i => by
    rw [pre_list_cons]
    refine List.nodup_append.2 ⟨pre_rule_nodup r (i :: q), pre_list_nodup rs q (i + 1), ?_⟩
    intro x h1 h2
    have h3 := pre_rule_suffix r (i :: q) x h1
    obtain ⟨j, hj, h4⟩ := pre_list_suffix rs q (i + 1) x h2
    have h5 := suffix_same_length (i :: q) (j :: q) x h3 h4 (by simp)
    simp only [List.cons.injEq, and_true] at h5
    omega
end

theorem rule_at_cons (rules : List Rule) (i : Nat) (q : RulePtr) (r : Rule)
    (h : rule_at rules (i :: q) = some r) :
    ∃ l, rule_list rules q = some l ∧ l[i]? = some r := by
  simp only [rule_at] at h
  cases hl : rule_list rules q with
  | none => simp [hl] at h
  | some l =>
    simp only [hl] at h
    exact ⟨l, rfl, h⟩

theorem rule_list_parent (rules : List Rule) (j : Nat) (q : RulePtr) (l : List Rule)
    (h : rule_list rules (j :: q) = some l) :
    ∃ rq, rule_at rules (j :: q) = some rq ∧ rq.rules = l := by
  simp only [rule_list] at h
  simp only [rule_at]
  cases hl2 : rule_list rules q with
  | none => simp [hl2] at h
  | some l2 =>
    simp only [hl2] at h ⊢
    cases hj : l2[j]? with
    | none => simp [hj] at h
    | some rq =>
      simp only [hj, Option.some.injEq] at h
      exact ⟨rq, rfl, h⟩

theorem after_list_no_next (rules : List Rule) (p : RulePtr) :
    ∀ (r : Rule), rule_at rules p = some r → spec_next_up rules p = none →
      after_list rules p = [] := by
  induction p with
  | nil => intro r h; simp [rule_at] at h
  | cons i q ih =>
    intro r h hn
    obtain ⟨l, hl, hi⟩ := rule_at_cons rules i q r h
    simp only [spec_next_up] at hn
    cases hnx : rule_at rules ((i + 1) :: q) with
    | some r2 => simp [hnx] at hn
    | none =>
      simp only [hnx] at hn
      have hdrop : l.drop (i + 1) = [] := by
        simp only [rule_at, hl] at hnx
        have : l.length ≤ i + 1 := by
          rcases Nat.lt_or_ge (i + 1) l.length with h1 | h1
          · rw [List.getElem?_eq_getElem h1] at hnx
            cases hnx
          · exact h1
        exact List.drop_eq_nil_of_le this
      cases q with
      | nil =>
        simp only [rule_list, Option.some.injEq] at hl
        subst hl
        simp [after_list, rule_list, hdrop, pre_list_nil]
      | cons j q2 =>
        obtain ⟨rq, hrq, _⟩ := rule_list_parent rules j q2 l hl
        simp only [after_list, hl, hdrop, pre_list_nil, List.nil_append]
        have := ih rq hrq hn
        simpa [after_list] using this

/-- Label `next_rule` on a context whose stack is the ancestor chain of its
    rule: the rule pointer goes to the next rule upward. -/
theorem next_rule_walk (W : World) (c : MailCtx) (st : Status) (ev : List Event)
    (p : RulePtr) (r : Rule) (hp : c.rule = some p) (hr : rule_at W.rules p = some r)
    (hstk : c.stack = ancestors p) :
    next_rule W c st ev =
      .ok ⟨st,
        { c with
          rule := spec_next_up W.rules p,
          stack := spec_stack (spec_next_up W.rules p) },
        ev⟩ := by
  obtain ⟨i, q, hpq, hn⟩ := tailq_next_rule_ok W p r hr
  have hv : (rule_at W.rules p).isSome = true := by simp [hr]
  rcases hn with ⟨hn, _⟩ | ⟨hn, _⟩
  · have hpop := pop_stack_ancestors W p _ hv hn
    unfold next_rule
    simp only [hp, hn, hstk, hpop]
  · have hpop := pop_stack_ancestors W p _ hv hn
    unfold next_rule
    simp only [hp, hn, hstk, hpop]

/-- Starting a rule whose account list excludes the account goes to label
    `skip` with the verdict false. -/
theorem mail_match_excluded (W : World) (c : MailCtx) (msg : Option Msg) (mb : Msgbuf)
    (p : RulePtr) (r : Rule) (hid : c.msgid = 0) (hdone : c.done = false)
    (hp : c.rule = some p) (hei : c.expritem = none) (hr : rule_at W.rules p = some r)
    (hacc : account_excluded W r c.account = true) :
    mail_match W c msg mb =
      skip W { c with mail := set_wrapped c.mail ' ', result := false } [] := by
  rw [mail_match_start W c msg mb p hid hdone hp hei]
  unfold start_expr deref_rule
  simp only [hp, hr, hacc, if_true]

/-- A call that starts a rule without clauses which passes its account filter
    sets the matched flag. -/
theorem mail_match_sets_matched_all (W : World) (c : MailCtx) (msg : Option Msg)
    (mb : Msgbuf) (p : RulePtr) (r : Rule) (hid : c.msgid = 0) (hdone : c.done = false)
    (hp : c.rule = some p) (hei : c.expritem = none) (hr : rule_at W.rules p = some r)
    (hacc : account_excluded W r c.account = false)
    (hcl : r.d.expr = none ∨ r.d.expr = some [])
    (hst : ∀ q ∈ c.stack, (rule_at W.rules q).isSome = true) :
    ∃ ret, mail_match W c msg mb = .ok ret ∧ ret.mctx.result = true ∧
      ret.mctx.matched = true := by
  rw [mail_match_match_all W c msg mb p r hid hdone hp hei hr hacc hcl]
  obtain ⟨ret, h1, _, h3, h4, _⟩ :=
    skip_summary W { c with mail := set_wrapped c.mail ' ', result := true } [] p r hp hr hst
  refine ⟨ret, h1, h3, ?_⟩
  rw [h4]
  simp

/-- A call on the last clause of a rule, the predicate answering true or
    false at once, sets the matched flag when the verdict is true and leaves
    it alone when the verdict is false. -/
theorem mail_match_sets_matched_last (W : World) (c : MailCtx) (msg : Option Msg)
    (mb : Msgbuf) (p : RulePtr) (r : Rule) (cl : List Expritem) (i : Nat) (ei : Expritem)
    (b : Bool) (hid : c.msgid = 0) (hdone : c.done = false) (hp : c.rule = some p)
    (hr : rule_at W.rules p = some r) (hcl : r.d.expr = some cl)
    (hei : c.expritem = some i) (hget : cl[i]? = some ei) (hi : i + 1 = cl.length)
    (hret : (W.match_fn { c with mail := set_wrapped c.mail ' ' } ei).ret = code W b)
    (hst : ∀ q ∈ c.stack, (rule_at W.rules q).isSome = true) :
    ∃ ret, mail_match W c msg mb = .ok ret ∧
      ret.mctx.result = adjust_sync ei b c.result ∧
      ret.mctx.matched = (c.matched || adjust_sync ei b c.result) := by
  rw [mail_match_sync_last W c msg mb p r cl i ei b hid hdone hp hr hcl hei hget hi hret]
  obtain ⟨ret, h1, _, h3, h4, _⟩ :=
    skip_summary W
      { c with mail := { set_wrapped c.mail ' ' with
                 tags := (W.match_fn { c with mail := set_wrapped c.mail ' ' } ei).tags },
               msgid := (W.match_fn { c with mail := set_wrapped c.mail ' ' } ei).msgid,
               result := adjust_sync ei b c.result, expritem := none }
      [Event.matched p i (code W b)] p r hp hr hst
  exact ⟨ret, h1, h3, h4⟩

/-- A call changes the matched flag only by setting it, and only with the
    verdict true. -/
theorem mail_match_matched_only (W : World) (c : MailCtx) (msg : Option Msg) (mb : Msgbuf)
    (ret : Ret) (h : mail_match W c msg mb = .ok ret) :
    ret.mctx.matched = c.matched ∨ (ret.mctx.result = true ∧ ret.mctx.matched = true) := by
  rcases mail_match_via_skip W c msg mb ret h with hw | ⟨c1, ev1, hw, hs⟩
  · exact Or.inl hw.2.2.2.1
  · obtain ⟨p, r, hp, hr⟩ := skip_rule_valid W c1 ev1 ret hs
    rcases skip_cases W c1 ev1 p r hp hr ret hs with
      ⟨h0, _, _, _, _, _, e⟩ | ⟨h0, _, e⟩ | ⟨h0, _, _, e⟩ |
      ⟨h0, _, _, _, _, _, _, _, _, _, e⟩
    · subst e
      exact Or.inl hw.2.2.2.1
    · subst e
      exact Or.inr ⟨h0, rfl⟩
    · subst e
      exact Or.inr ⟨h0, rfl⟩
    · subst e
      exact Or.inr ⟨h0, rfl⟩

/-- A call that is handed the reply for the last clause of a rule sets the
    matched flag when the verdict is true and leaves it alone when the verdict
    is false. -/
theorem mail_match_sets_matched_reply (W : World) (c : MailCtx) (msg : Msg) (mb : Msgbuf)
    (p : RulePtr) (r : Rule) (cl : List Expritem) (i : Nat) (ei : Expritem) (b : Bool)
    (hpend : c.msgid ≠ 0) (hmsg : msg.id = c.msgid) (htype : msg.type = .MSG_DONE)
    (herr : msg.error = code W b) (hp : c.rule = some p)
    (hr : rule_at W.rules p = some r) (hcl : r.d.expr = some cl)
    (hei : c.expritem = some i) (hget : cl[i]? = some ei) (hi : i + 1 = cl.length)
    (hst : ∀ q ∈ c.stack, (rule_at W.rules q).isSome = true) :
    ∃ ret, mail_match W c (some msg) mb = .ok ret ∧
      ret.mctx.result = adjust_reply ei b c.result ∧
      ret.mctx.matched = (c.matched || adjust_reply ei b c.result) := by
  have hde : deref_expritem W c = .ok ei := by
    unfold deref_expritem deref_rule
    simp [hp, hr, hcl, hei, hget]
  obtain ⟨m, hm⟩ := mail_match_reply_any W c msg mb ei b hpend hmsg htype herr hde
  rw [hm, next_expritem_last W _ [] p r cl i (by exact hp) hr hcl (by exact hei) hi]
  obtain ⟨ret, h1, _, h3, h4, _⟩ :=
    skip_summary W
      { c with mail := m, msgid := 0, result := adjust_reply ei b c.result, expritem := none }
      [] p r hp hr hst
  exact ⟨ret, h1, h3, h4⟩

/-- C1. For a rule that passes its account filter and has a non-empty clause
    list whose predicates each answer true or false synchronously, as many
    successive `mail_match` calls as there are clauses invoke the predicates
    of the clauses exactly once each, in list order, whatever the accumulated
    result is; every call but the last returns `MAIL_CONTINUE` on the same
    rule; and the verdict the last call acts on (the accumulated result, which
    sets the matched flag when true) is the left fold of the clause table over
    the outcomes starting from false. -/
theorem C1_clauses_each_once_verdict_is_fold (W : World) (mb : Msgbuf) (c : MailCtx)
    (p : RulePtr) (r : Rule) (cl : List Expritem)
    (hid : c.msgid = 0) (hdone : c.done = false) (hp : c.rule = some p)
    (hei : c.expritem = none) (hr : rule_at W.rules p = some r)
    (hacc : account_excluded W r c.account = false) (hcl : r.d.expr = some cl)
    (hne : cl ≠ []) (hst : ∀ q ∈ c.stack, (rule_at W.rules q).isSome = true)
    (hsync : ∀ ei ∈ cl, ∀ x : MailCtx, x.msgid = 0 →
      (W.match_fn x ei).msgid = 0 ∧
        ((W.match_fn x ei).ret = W.codes.MATCH_TRUE ∨
         (W.match_fn x ei).ret = W.codes.MATCH_FALSE)) :
    ∃ pre last outs, match_run W mb cl.length c = .ok (pre ++ [last]) ∧
      outs.length = cl.length ∧
      (pre ++ [last]).map (fun ret => ret.events) =
        List.zipWith (fun j o => [Event.matched p j (code W o)]) (List.range cl.length) outs ∧
      (∀ ret ∈ pre, ret.status = .MAIL_CONTINUE ∧ ret.mctx.rule = some p) ∧
      last.mctx.result = spec_fold false cl outs ∧
      last.mctx.matched = (c.matched || spec_fold false cl outs) := by
  obtain ⟨k, hk⟩ : ∃ k, cl.length = k + 1 := by
    cases cl with
    | nil => exact absurd rfl hne
    | cons a l => exact ⟨l.length, rfl⟩
  obtain ⟨pre, last, outs, hrun, hlen, hev, hpre, hres, hmat⟩ :=
    match_run_clauses W mb p r cl hr hcl hsync k 0
      { c with result := false, expritem := some 0 } (by omega) hid hdone hp rfl hst
  refine ⟨pre, last, outs, ?_, by omega, ?_, hpre, by simpa using hres, by simpa using hmat⟩
  · rw [hk, match_run, mail_match_enter W c none mb p r cl hid hdone hp hr hacc hcl hne hei]
    rw [match_run] at hrun
    exact hrun
  · rw [hk, List.range_eq_range']
    exact hev

theorem C1_witness :
    (∃ pre last outs,
      match_run (world0 [.node (plain_rule (some clauses1)) []] []) ⟨none, 0⟩
          clauses1.length ctx0 = .ok (pre ++ [last]) ∧
      outs.length = clauses1.length ∧
      (pre ++ [last]).map (fun ret => ret.events) =
        List.zipWith
          (fun j o =>
            [Event.matched [0] j (code (world0 [.node (plain_rule (some clauses1)) []] []) o)])
          (List.range clauses1.length) outs ∧
      (∀ ret ∈ pre, ret.status = .MAIL_CONTINUE ∧ ret.mctx.rule = some [0]) ∧
      last.mctx.result = spec_fold false clauses1 outs ∧
      last.mctx.matched = (ctx0.matched || spec_fold false clauses1 outs)) ∧
    (match_run (world0 [.node (plain_rule (some clauses1)) []] []) ⟨none, 0⟩ 3 ctx0).map
        (fun rets => rets.map fun ret => (ret.status, ret.events, ret.mctx.result)) =
      .ok [(.MAIL_CONTINUE, [Event.matched [0] 0 1], false),
           (.MAIL_CONTINUE, [Event.matched [0] 1 0], false),
           (.MAIL_CONTINUE, [Event.matched [0] 2 1], true)] :=
  ⟨C1_clauses_each_once_verdict_is_fold (world0 [.node (plain_rule (some clauses1)) []] [])
      ⟨none, 0⟩ ctx0 [0] (.node (plain_rule (some clauses1)) []) clauses1 rfl rfl rfl rfl rfl rfl
      rfl (by decide) (by decide)
      (by
        intro ei hei x hx
        simp only [clauses1, List.mem_cons, List.mem_singleton, List.not_mem_nil, or_false] at hei
        rcases hei with h | h | h <;> subst h <;> simp [world0, codes0, hx]),
    rfl⟩

theorem except_map_map_events (x : Except Abort Ret) (ev : List Event) :
    (x.map fun r => ({ r with events := ev } : Ret)).map (fun r => (r.status, r.mctx)) =
      x.map fun r => (r.status, r.mctx) := by
  cases x <;> rfl

/-- A reply with the outstanding id, of type `MSG_DONE`, carrying a definite
    outcome and no tag payload: the accumulator is adjusted for the clause in
    the context and control passes to label `next_expritem`. -/
theorem mail_match_reply (W : World) (c : MailCtx) (msg : Msg) (mb : Msgbuf) (ei : Expritem)
    (b : Bool) (hpend : c.msgid ≠ 0) (hmsg : msg.id = c.msgid) (htype : msg.type = .MSG_DONE)
    (herr : msg.error = code W b) (hnotag : mb.buf = none ∨ mb.len = 0)
    (hei : deref_expritem W c = .ok ei) :
    mail_match W c (some msg) mb =
      next_expritem W
        { c with mail := set_wrapped c.mail ' ', msgid := 0,
                 result := adjust_reply ei b c.result } [] := by
  obtain ⟨h1, h2, h3, h4, h5⟩ := codes_ne W
  have hei2 : deref_expritem W { c with mail := set_wrapped c.mail ' ', msgid := 0 } = .ok ei :=
    hei
  have key : ∀ mb0 : Msgbuf, mb0.buf = none ∨ mb0.len = 0 →
      resume_match W { c with mail := set_wrapped c.mail ' ' } msg mb0 =
        next_expritem W
          { c with mail := set_wrapped c.mail ' ', msgid := 0,
                   result := adjust_reply ei b c.result } [] := by
    intro mb0 hn
    obtain ⟨buf, len⟩ := mb0
    simp only at hn
    have hcase : buf = none ∨ ∃ t, buf = some t ∧ len = 0 := by
      rcases hn with hn | hn
      · exact Or.inl hn
      · cases buf with
        | none => exact Or.inl rfl
        | some t => exact Or.inr ⟨t, rfl, hn⟩
    unfold resume_match
    rcases hcase with rfl | ⟨t, rfl, rfl⟩
    · simp only [htype, ne_eq, not_true_eq_false, if_false, herr, hei2]
      cases b
      · simp [code, h3, h5]
      · simp [code, h1]
    · simp only [htype, ne_eq, not_true_eq_false, if_false, herr, hei2]
      cases b
      · simp [code, h3, h5]
      · simp [code, h1]
  unfold mail_match
  simp only [hpend, ne_eq, not_false_eq_true, if_true, hmsg, not_true_eq_false, if_false]
  exact key mb hnotag

/-- C2. A `mail_match` call in which the predicate asks for privilege returns
    blocked with the clause pointer and the accumulated result as they were
    when the predicate was invoked (those of the context for a clause in
    progress, the first clause and false for a rule just entered) and with
    rule pointer and stack unchanged; the following call with the matching reply carrying outcome `R` and no tag
    payload returns the same status and leaves the same context (accumulated
    result, clause pointer, rule pointer, ancestor stack and all other fields)
    as the single call in which the predicate, leaving the same tags, answers
    `R` synchronously; an abort in one is the same abort in the other. -/
theorem C2_suspend_resume_same_as_synchronous (W : World)
    (f : MailCtx → Expritem → MatchOut) (c : MailCtx) (mb mb2 : Msgbuf) (msg : Msg)
    (R : Bool) (r1 : Ret)
    (hid : c.msgid = 0) (h1 : mail_match W c none mb = .ok r1)
    (hblk : r1.status = .MAIL_BLOCKED) (hpend : r1.mctx.msgid ≠ 0)
    (hmsg : msg.id = r1.mctx.msgid) (htype : msg.type = .MSG_DONE)
    (herr : msg.error = code W R) (hnotag : mb2.buf = none ∨ mb2.len = 0)
    (hf : ∀ x ei, (f x ei).ret = code W R ∧ (f x ei).msgid = 0 ∧
      (f x ei).tags = (W.match_fn x ei).tags) :
    (∀ i, c.expritem = some i →
      r1.mctx.expritem = c.expritem ∧ r1.mctx.result = c.result) ∧
    (c.expritem = none → r1.mctx.expritem = some 0 ∧ r1.mctx.result = false) ∧
    r1.mctx.rule = c.rule ∧ r1.mctx.stack = c.stack ∧
    (mail_match W r1.mctx (some msg) mb2).map (fun r => (r.status, r.mctx)) =
      (mail_match { W with match_fn := f } c none mb).map (fun r => (r.status, r.mctx)) := by
  obtain ⟨c0, h0id, h0w, hchk, h0r, h0s, hsame, hfresh, hreach⟩ :=
    mail_match_blocked W c none mb r1 hid h1 hblk
  obtain ⟨p, i, ei, hp, hi, hd, hpar, hr1⟩ := check_expritem_blocked W c0 r1 hchk hblk
  obtain ⟨p2, r, cl, i2, hp2, hr, hcl, hi2, hget⟩ := deref_expritem_some W c0 ei hd
  rw [hp] at hp2
  rw [hi] at hi2
  cases hp2
  cases hi2
  have hm : r1.mctx = { c0 with
      msgid := (W.match_fn c0 ei).msgid,
      mail := { c0.mail with tags := (W.match_fn c0 ei).tags } } := by
    rw [hr1]
  have hd2 : deref_expritem W r1.mctx = .ok ei := by
    rw [hm]
    exact hd
  have hL := mail_match_reply W r1.mctx msg mb2 ei R hpend hmsg htype herr hnotag hd2
  obtain ⟨hf1, hf2, hf3⟩ := hf c0 ei
  have hR := check_expritem_sync { W with match_fn := f } c0 p r cl i ei R hp hr hcl hi hget hf1
  have hctx : ({ r1.mctx with
        mail := set_wrapped r1.mctx.mail ' ',
        msgid := 0,
        result := adjust_reply ei R r1.mctx.result } : MailCtx) =
      { c0 with
        msgid := (f c0 ei).msgid,
        mail := { c0.mail with tags := (f c0 ei).tags },
        result := adjust_sync ei R c0.result } := by
    rw [hm, hf2, hf3, adjust_sync_table, adjust_reply_table]
    obtain ⟨acc, m, rule, stack, ei0, res, matched, done, msgid, dq⟩ := c0
    obtain ⟨idx, tags, dec, wr, body⟩ := m
    simp only at h0w
    subst h0w
    rfl
  refine ⟨fun j hj => ?_, fun hn => ?_, ?_, ?_, ?_⟩
  · obtain ⟨ha, hb⟩ := hsame j hj
    rw [hm, hj]
    exact ⟨ha, hb⟩
  · rw [hm]
    exact hfresh hn
  · rw [hm]
    exact h0r
  · rw [hm]
    exact h0s
  · rw [hL, hreach f, hR, hctx]
    rw [next_expritem_world W f _ [] _, except_map_map_events]
theorem C2_witness :
    mail_match (world0 [rule2] []) ctx0 none ⟨none, 0⟩ =
      .ok ⟨.MAIL_BLOCKED,
        { ctx0 with mail := set_wrapped mail0 ' ', expritem := some 0, msgid := 1 },
        [Event.matched [0] 0 3]⟩ ∧
    ((∀ i, ctx0.expritem = some i →
        some 0 = ctx0.expritem ∧ false = ctx0.result) ∧
      (ctx0.expritem = none → some 0 = some 0 ∧ false = false) ∧
      some [0] = ctx0.rule ∧ [] = ctx0.stack ∧
      (mail_match (world0 [rule2] [])
          { ctx0 with mail := set_wrapped mail0 ' ', expritem := some 0, msgid := 1 }
          (some reply2) ⟨none, 0⟩).map (fun r => (r.status, r.mctx)) =
        (mail_match
          { world0 [rule2] [] with
            match_fn := fun x ei => ⟨1, 0, ((world0 [rule2] []).match_fn x ei).tags⟩ }
          ctx0 none ⟨none, 0⟩).map (fun r => (r.status, r.mctx))) ∧
    (mail_match (world0 [rule2] [])
        { ctx0 with mail := set_wrapped mail0 ' ', expritem := some 0, msgid := 1 }
        (some reply2) ⟨none, 0⟩).map (fun r => (r.status, r.mctx.result, r.mctx.matched)) =
      .ok (.MAIL_CONTINUE, true, true) :=
  ⟨rfl,
    C2_suspend_resume_same_as_synchronous (world0 [rule2] [])
      (fun x ei => ⟨1, 0, ((world0 [rule2] []).match_fn x ei).tags⟩) ctx0 ⟨none, 0⟩ ⟨none, 0⟩
      reply2 true
      ⟨.MAIL_BLOCKED,
        { ctx0 with mail := set_wrapped mail0 ' ', expritem := some 0, msgid := 1 },
        [Event.matched [0] 0 3]⟩
      rfl rfl rfl (by decide) rfl rfl rfl (Or.inl rfl) (fun _ _ => ⟨rfl, rfl, rfl⟩),
    rfl⟩

/-- C3. For a matched rule each of whose action-name templates resolves to at
    least one configured action, `fill_delivery_queue` returns 0 and appends to
    the queue exactly one request per (action, identity) pair, ordered by
    template, then by action within the template, then by identity within the
    resolved set of the action; each request carries that action, that
    identity, the rule, the account and the message. -/
theorem C3_fill_delivery_queue_cross_product (W : World) (mctx : MailCtx) (r : RulePtr)
    (rule : Rule) (hrule : mctx.rule = some r) (hr : rule_at W.rules r = some rule)
    (hres : ∀ rs ∈ rule.d.actions,
      W.match_actions (W.replacestr rs mctx.mail.tags mctx.mail) ≠ []) :
    fill_delivery_queue W mctx r =
      .ok (0, { mctx with dqueue := mctx.dqueue ++ spec_requests W mctx r rule.d.actions }) := by
  unfold fill_delivery_queue deref_rule
  simp only [hr]
  exact fill_templates_eq W r mctx r rule hrule hr rule.d.actions hres mctx.dqueue

theorem C3_witness :
    ctx0.rule = some [0] ∧ rule_at (world0 [rule3] [action0, action1]).rules [0] = some rule3 ∧
    (∀ rs ∈ rule3.d.actions,
      (world0 [rule3] [action0, action1]).match_actions
        ((world0 [rule3] [action0, action1]).replacestr rs ctx0.mail.tags ctx0.mail) ≠ []) ∧
    fill_delivery_queue (world0 [rule3] [action0, action1]) ctx0 [0] =
      .ok (0, { ctx0 with dqueue := (ctx0.dqueue ++
        spec_requests (world0 [rule3] [action0, action1]) ctx0 [0] rule3.d.actions) }) ∧
    spec_requests (world0 [rule3] [action0, action1]) ctx0 [0] rule3.d.actions =
      [⟨action0, account0, [0], 1, 7, 0⟩, ⟨action1, account0, [0], 1, 8, 0⟩,
       ⟨action1, account0, [0], 1, 9, 0⟩, ⟨action0, account0, [0], 1, 7, 0⟩] :=
  ⟨rfl, rfl, by decide,
    C3_fill_delivery_queue_cross_product (world0 [rule3] [action0, action1]) ctx0 [0] rule3
      rfl rfl (by decide), by decide⟩



/-- C4 (as stated, refuted). A rule that derives identities from the message,
    a lookup that finds none, an action with the explicit set 7: the code
    returns the fallback identity, the first non-empty set in the stated order
    is the set of the action. -/
theorem C4_counterexample :
    find_delivery_users
        (world0 [.node { plain_rule none with find_uid := true } []] [action0]) ctx0 action0 =
      .ok ([1000], true) ∧
    spec_first_nonempty (world0 [.node { plain_rule none with find_uid := true } []] [action0])
        (.node { plain_rule none with find_uid := true } []) action0 ctx0.account ctx0.mail =
      [7] := by
  constructor
  · rfl
  · rfl

/-- C4 (amended). `find_delivery_users` returns the set of the first policy
    that is configured, in the order rule derive-from-message, rule explicit
    set, action derive-from-message, action explicit set, account
    derive-from-message, account explicit set: the looked-up set for a derive
    flag, the set itself for an explicit set; when that lookup yields no set,
    or no policy is configured, it returns the fallback identity alone. -/
theorem C4_first_configured_policy (W : World) (mctx : MailCtx) (t : Action) (p : RulePtr)
    (r : Rule) (hp : mctx.rule = some p) (hr : rule_at W.rules p = some r) :
    (find_delivery_users W mctx t).map Prod.fst =
      .ok (spec_first_configured W r t mctx.account mctx.mail) := by
  unfold find_delivery_users deref_rule
  rw [hp]
  simp only [hr, spec_first_configured, spec_policies]
  cases h1 : r.d.find_uid <;> cases h2 : r.d.users <;> cases h3 : t.find_uid <;>
    cases h4 : t.users <;> cases h5 : mctx.account.find_uid <;>
    cases h6 : mctx.account.users <;> cases h7 : W.find_users mctx.mail <;>
    simp [List.find?, Except.map]

theorem C4_witness :
    ctx0.rule = some [0] ∧
    rule_at (world0 [.node { plain_rule none with find_uid := true } []] [action0]).rules [0] =
      some (.node { plain_rule none with find_uid := true } []) ∧
    (find_delivery_users
        (world0 [.node { plain_rule none with find_uid := true } []] [action0]) ctx0
        action0).map Prod.fst =
      .ok (spec_first_configured
        (world0 [.node { plain_rule none with find_uid := true } []] [action0])
        (.node { plain_rule none with find_uid := true } []) action0 ctx0.account ctx0.mail) :=
  ⟨rfl, rfl, C4_first_configured_policy _ ctx0 action0 [0] _ rfl rfl⟩

/-- C5. Once a rule whose stop flag is set has matched (label `skip` of
    `mail_match` reached with the verdict true on that rule), then after any
    further driver calls every `mail_match` call made with no pending
    correlation id returns `MAIL_DONE`, invokes no predicate and changes nothing
    in the context but the wrap convention of the message: rule pointer,
    ancestor stack, tags, delivery queue and disposition stay as they are, so no
    sibling and no nested rule is visited. -/
theorem C5_stop_rule_halts_traversal (W : World) (c : MailCtx) (ev : List Event)
    (p : RulePtr) (r : Rule) (r0 : Ret) (d : MailCtx) (msg : Option Msg) (mb : Msgbuf)
    (hp : c.rule = some p) (hr : rule_at W.rules p = some r) (hstop : r.d.stop = true)
    (hres : c.result = true) (hskip : skip W c ev = .ok r0)
    (hreach : Reaches W r0.mctx d) (hid : d.msgid = 0) :
    r0.mctx.done = true ∧
    mail_match W d msg mb =
      .ok ⟨.MAIL_DONE, { d with mail := set_wrapped d.mail ' ' }, []⟩ := by
  have h0 : r0.mctx.done = true := by
    rcases skip_cases W c ev p r hp hr r0 hskip with
      ⟨h0, _⟩ | ⟨_, _, h⟩ | ⟨_, _, _, h⟩ | ⟨_, _, _, _, _, _, _, _, _, _, h⟩
    · rw [hres] at h0
      cases h0
    all_goals
      subst h
      simp [hstop]
  have hd := reaches_done_stays W r0.mctx d hreach h0
  refine ⟨h0, ?_⟩
  unfold mail_match
  simp [hid, hd]

theorem C5_witness :
    mail_match (world0 rules5 []) ctx0 none ⟨none, 0⟩ =
      skip (world0 rules5 []) { ctx0 with mail := set_wrapped mail0 ' ', result := true } [] ∧
    skip (world0 rules5 []) { ctx0 with mail := set_wrapped mail0 ' ', result := true } [] =
      .ok ⟨.MAIL_CONTINUE,
        { ctx0 with mail := set_wrapped mail0 ' ', result := true, matched := true,
                    done := true, stack := [[0]], rule := some [0, 0] }, []⟩ ∧
    (true = true ∧
      mail_match (world0 rules5 [])
          { ctx0 with mail := set_wrapped mail0 ' ', result := true, matched := true,
                      done := true, stack := [[0]], rule := some [0, 0] } none ⟨none, 0⟩ =
        .ok ⟨.MAIL_DONE,
          { ctx0 with mail := set_wrapped mail0 ' ', result := true, matched := true,
                      done := true, stack := [[0]], rule := some [0, 0] }, []⟩) :=
  ⟨rfl, rfl,
    C5_stop_rule_halts_traversal (world0 rules5 [])
      { ctx0 with mail := set_wrapped mail0 ' ', result := true } [] [0]
      (.node { plain_rule none with stop := true } [.node (plain_rule none) []])
      ⟨.MAIL_CONTINUE,
        { ctx0 with mail := set_wrapped mail0 ' ', result := true, matched := true,
                    done := true, stack := [[0]], rule := some [0, 0] }, []⟩
      { ctx0 with mail := set_wrapped mail0 ' ', result := true, matched := true,
                  done := true, stack := [[0]], rule := some [0, 0] }
      none ⟨none, 0⟩ rfl rfl rfl rfl rfl (Reaches.refl _) rfl⟩


theorem account_excluded_of_none (W : World) (r : Rule) (a : Account) (aa : List String)
    (haa : r.d.accounts = some aa) (hne : aa ≠ [])
    (hnone : ∀ an ∈ aa, W.name_match an a.name = false) :
    account_excluded W r a = true := by
  unfold account_excluded
  rw [haa]
  simp only [Bool.and_eq_true, Bool.not_eq_true', List.isEmpty_eq_false, List.any_eq_false]
  refine ⟨?_, fun x hx => by simp [hnone x hx]⟩
  cases aa with
  | nil => exact absurd rfl hne
  | cons a l => simp

/-- C6. For a rule with a non-empty account filter list none of whose entries
    matches the name of the current account, a `mail_match` call that starts
    the rule (no clause in progress, no pending id) on a context whose stack
    is the ancestor chain of the rule gives the verdict false: it invokes no
    predicate, leaves the matched flag, the stop flag, the tags and the
    delivery queue as they were, does not descend into the nested rules, and
    moves on to the next rule: the next sibling when there is one, else the
    next sibling of the nearest ancestor that has one, with the ancestor chain
    of that rule as stack, and the null pointer with an empty stack when no
    level has a next sibling. -/
theorem C6_account_filter_skips_rule (W : World) (c : MailCtx) (msg : Option Msg)
    (mb : Msgbuf) (p : RulePtr) (r : Rule) (aa : List String)
    (hid : c.msgid = 0) (hdone : c.done = false) (hp : c.rule = some p)
    (hei : c.expritem = none) (hr : rule_at W.rules p = some r)
    (haa : r.d.accounts = some aa) (hne : aa ≠ [])
    (hnone : ∀ an ∈ aa, W.name_match an c.account.name = false)
    (hinv : walk_inv W c) :
    mail_match W c msg mb =
      .ok ⟨.MAIL_CONTINUE,
        { c with
          mail := set_wrapped c.mail ' ',
          result := false,
          rule := spec_next_up W.rules p,
          stack := spec_stack (spec_next_up W.rules p) },
        []⟩ ∧
    (set_wrapped c.mail ' ').tags = c.mail.tags ∧
    spec_next_up W.rules p ≠ some (0 :: p) ∧
    (spec_stack (spec_next_up W.rules p)).length ≤ c.stack.length ∧
    (∀ i q, p = i :: q → (rule_at W.rules ((i + 1) :: q)).isSome = true →
      spec_next_up W.rules p = some ((i + 1) :: q) ∧
        spec_stack (spec_next_up W.rules p) = c.stack) ∧
    (∀ i q, p = i :: q → rule_at W.rules ((i + 1) :: q) = none →
      spec_next_up W.rules p = spec_next_up W.rules q) := by
  have hex := account_excluded_of_none W r c.account aa haa hne hnone
  have hstk : c.stack = ancestors p := by
    rw [hinv.1, hp]
    rfl
  refine ⟨?_, rfl, ?_, ?_, ?_, ?_⟩
  · rw [mail_match_excluded W c msg mb p r hid hdone hp hei hr hex,
      skip_false W _ [] rfl,
      next_rule_walk W _ .MAIL_CONTINUE [] p r (by exact hp) hr (by exact hstk)]
  · intro hcon
    obtain ⟨_, j, q, h2, _⟩ := spec_next_up_shape W.rules p (0 :: p) hcon
    simp at h2
  · rw [hstk, ancestors_length]
    cases hn : spec_next_up W.rules p with
    | none => simp [spec_stack]
    | some p2 =>
      obtain ⟨_, j, q, h2, h3⟩ := spec_next_up_shape W.rules p p2 hn
      simp only [spec_stack, ancestors_length]
      have := h3.length_le
      rw [h2]
      simp only [List.length_cons] at this ⊢
      omega
  · intro i q hpq hsome
    subst hpq
    obtain ⟨r2, hr2⟩ := Option.isSome_iff_exists.mp hsome
    have e : spec_next_up W.rules (i :: q) = some ((i + 1) :: q) := by
      simp [spec_next_up, hr2]
    refine ⟨e, ?_⟩
    rw [e, hstk]
    cases q with
    | nil => rfl
    | cons j q2 => rfl
  · intro i q hpq hnone2
    subst hpq
    simp [spec_next_up, hnone2]

theorem C6_witness :
    (∀ an ∈ ["work"], (world0 rules6n []).name_match an ctx0.account.name = false) ∧
    (mail_match (world0 rules6n []) { ctx0 with rule := some [0, 0], stack := [[0]] }
        none ⟨none, 0⟩ =
      .ok ⟨.MAIL_CONTINUE,
        { ctx0 with
          mail := set_wrapped mail0 ' ',
          result := false,
          rule := some [1],
          stack := [] },
        []⟩) ∧
    (mail_match (world0 rules6 []) ctx0 none ⟨none, 0⟩).map
        (fun r => (r.status, r.mctx.rule, r.mctx.stack, r.mctx.matched, r.events)) =
      .ok (.MAIL_CONTINUE, some [1], [], false, []) :=
  ⟨by decide,
    (C6_account_filter_skips_rule (world0 rules6n [])
      { ctx0 with rule := some [0, 0], stack := [[0]] } none ⟨none, 0⟩ [0, 0]
      (.node { plain_rule (some clauses1) with accounts := some ["work"] }
        [.node (plain_rule none) []])
      ["work"] rfl rfl rfl rfl rfl rfl (by decide) (by decide)
      ⟨rfl, fun q hq => by cases hq; rfl⟩).1,
    rfl⟩

/-- C7. In every state the driver reaches from the initial context (rule
    pointer at the first top-level rule, empty stack): the stack holds exactly
    the chain of ancestors of the current rule, outermost first, and is empty
    when the rule pointer is null; its depth is the nesting depth of the
    current rule; a `mail_match` call leaves rule and stack alone, or pushes
    the rule and descends to its first child, or moves to the next rule upward
    (the next sibling of the rule or, repeating upward, of the nearest
    ancestor that has one) with the ancestor chain of that rule as stack; and
    the new current rule is never one of the rules that were on the stack. -/
theorem C7_stack_is_ancestor_chain (W : World) (c0 c : MailCtx) (h0s : c0.stack = [])
    (h0r : c0.rule = first_rule W.rules) (hreach : Reaches W c0 c) :
    c.stack = spec_stack c.rule ∧
    (∀ p, c.rule = some p →
      (rule_at W.rules p).isSome = true ∧ c.stack = ancestors p ∧
      c.stack.length = p.length - 1) ∧
    (c.rule = none → c.stack = []) ∧
    (∀ msg mb ret, mail_match W c msg mb = .ok ret →
      (ret.mctx.rule = c.rule ∧ ret.mctx.stack = c.stack) ∨
      ∃ p, c.rule = some p ∧
        ((ret.mctx.rule = some (0 :: p) ∧ ret.mctx.stack = c.stack ++ [p]) ∨
         (ret.mctx.rule = spec_next_up W.rules p ∧
            ret.mctx.stack = spec_stack (spec_next_up W.rules p)))) ∧
    (∀ msg mb ret, mail_match W c msg mb = .ok ret →
      ∀ a ∈ c.stack, ret.mctx.rule ≠ some a) := by
  have hinv := reaches_walk_inv W c0 c hreach (walk_inv_first W c0 h0s h0r)
  refine ⟨hinv.1, fun p hp => ⟨hinv.2 p hp, ?_, ?_⟩, fun hn => ?_, fun msg mb ret h => ?_,
    fun msg mb ret h a ha hcon => ?_⟩
  · rw [hinv.1, hp]
    rfl
  · rw [hinv.1, hp]
    exact ancestors_length p
  · rw [hinv.1, hn]
    rfl
  · rcases mail_match_walk W c msg mb ret hinv h with h1 | ⟨p, hp, ⟨h1, h2, _⟩ | h1⟩
    · exact Or.inl h1
    · exact Or.inr ⟨p, hp, Or.inl ⟨h1, h2⟩⟩
    · exact Or.inr ⟨p, hp, Or.inr h1⟩
  · rw [hinv.1] at ha
    rcases mail_match_walk W c msg mb ret hinv h with ⟨h1, _⟩ | ⟨p, hp, ⟨h1, _, _⟩ | ⟨h1, _⟩⟩
    · rw [hcon] at h1
      rw [← h1] at ha
      have := (ancestors_suffix a a ha).2
      omega
    · rw [hp] at ha
      rw [hcon] at h1
      cases h1
      have := (ancestors_suffix p (0 :: p) ha).2
      simp at this
    · rw [hp] at ha
      rw [hcon] at h1
      obtain ⟨_, j, q, h2, h3⟩ := spec_next_up_shape W.rules p a h1.symm
      obtain ⟨h4, _⟩ := ancestors_suffix p a ha
      rw [h2] at h4
      rcases List.suffix_or_suffix_of_suffix h3 h4 with h5 | h5
      · have := List.IsSuffix.eq_of_length h5 (by simp)
        simp at this
      · have := List.IsSuffix.eq_of_length h5 (by simp)
        simp at this

theorem C7_witness :
    (match_run (world0 rules7 []) ⟨none, 0⟩ 4 ctx0).map
        (fun rets => rets.map fun ret => (ret.mctx.rule, ret.mctx.stack)) =
      .ok [(some [0, 0], [[0]]), (some [1, 0], [[0]]), (some [1], []), (none, [])] ∧
    ([[0]] = spec_stack (some [1, 0]) ∧
      (∀ p, some [1, 0] = some p →
        (rule_at (world0 rules7 []).rules p).isSome = true ∧ [[0]] = ancestors p ∧
        [[0]].length = p.length - 1) ∧
      (some [1, 0] = none → [[0]] = []) ∧
      (∀ msg mb ret,
        mail_match (world0 rules7 [])
            { ctx0 with mail := set_wrapped mail0 ' ', result := true, matched := true,
                        stack := [[0]], rule := some [1, 0] } msg mb = .ok ret →
        (ret.mctx.rule = some [1, 0] ∧ ret.mctx.stack = [[0]]) ∨
        ∃ p, some [1, 0] = some p ∧
          ((ret.mctx.rule = some (0 :: p) ∧ ret.mctx.stack = [[0]] ++ [p]) ∨
           (ret.mctx.rule = spec_next_up (world0 rules7 []).rules p ∧
              ret.mctx.stack = spec_stack (spec_next_up (world0 rules7 []).rules p)))) ∧
      (∀ msg mb ret,
        mail_match (world0 rules7 [])
            { ctx0 with mail := set_wrapped mail0 ' ', result := true, matched := true,
                        stack := [[0]], rule := some [1, 0] } msg mb = .ok ret →
        ∀ a ∈ [[0]], ret.mctx.rule ≠ some a)) :=
  ⟨rfl,
    C7_stack_is_ancestor_chain (world0 rules7 []) ctx0
      { ctx0 with mail := set_wrapped mail0 ' ', result := true, matched := true,
                  stack := [[0]], rule := some [1, 0] }
      rfl rfl
      (Reaches.match_step ctx0 _ none ⟨none, 0⟩
        ⟨.MAIL_CONTINUE,
          { ctx0 with mail := set_wrapped mail0 ' ', result := true, matched := true,
                      stack := [[0]], rule := some [1, 0] }, []⟩
        (Reaches.match_step ctx0 ctx0 none ⟨none, 0⟩
          ⟨.MAIL_CONTINUE,
            { ctx0 with mail := set_wrapped mail0 ' ', result := true, matched := true,
                        stack := [[0]], rule := some [0, 0] }, []⟩
          (Reaches.refl ctx0) rfl)
        rfl)⟩

/-- C8 (as stated, refuted). The head request rewrites the message in the
    privileged peer; the matching reply carries no error, but the rewritten
    payload cannot be received: `mail_deliver` returns `MAIL_ERROR` and leaves
    the head in the queue, where the claim has `MAIL_CONTINUE` and the head
    removed. -/
theorem C8_counterexample :
    (mail_deliver { world0 [] [] with mail_receive := fun m _ => (1, m) }
        { ctx0 with msgid := 1, dqueue := [request0 action8 0, request0 action0 7] }
        (some { reply2 with error := 0 }) ⟨none, 0⟩).map
        (fun r => (r.status, r.mctx.dqueue)) =
      .ok (.MAIL_ERROR, [request0 action8 0, request0 action0 7]) ∧
    (mail_deliver { world0 [] [] with mail_receive := fun m _ => (1, m) }
        { ctx0 with msgid := 1, dqueue := [request0 action8 0, request0 action0 7] }
        (some { reply2 with error := 0 }) ⟨none, 0⟩).map
        (fun r => (r.status, r.mctx.dqueue)) ≠
      .ok (.MAIL_CONTINUE, [request0 action0 7]) := by
  have h : (mail_deliver { world0 [] [] with mail_receive := fun m _ => (1, m) }
        { ctx0 with msgid := 1, dqueue := [request0 action8 0, request0 action0 7] }
        (some { reply2 with error := 0 }) ⟨none, 0⟩).map
        (fun r => (r.status, r.mctx.dqueue)) =
      .ok (.MAIL_ERROR, [request0 action8 0, request0 action0 7]) := rfl
  refine ⟨h, ?_⟩
  rw [h]
  intro hcon
  cases hcon

/-- C8 (amended). A `mail_deliver` call that completes the head request
    returns `MAIL_CONTINUE`, removes exactly the head of the delivery queue and
    leaves the remaining requests in their order; the head is completed by an
    in-process action that succeeds (first part), or by a matching reply that
    carries no error and, when the action rewrites the message, whose
    rewritten payload is received (second part).  Hence, for a queue of
    in-process requests that all succeed, as many calls as there are requests
    execute them in enqueue order, each removing the head, and the call after
    the last returns `MAIL_MATCH` with the queue empty (third part). -/
theorem C8_completed_head_is_dequeued_in_order (W : World) (c : MailCtx) (mb : Msgbuf)
    (d : DeliverCtx) (rest : List DeliverCtx) (hq : c.dqueue = d :: rest) :
    (∀ msg : Option Msg, c.msgid = 0 → d.action.deliver.deliver.isSome = true →
      d.action.deliver.type = .DELIVER_INCHILD →
      (∀ m, (W.deliver_fn { d with tim := W.get_time } d.action m).1 = .DELIVER_SUCCESS) →
      ∃ m, mail_deliver W c msg mb =
        .ok ⟨.MAIL_CONTINUE, { c with mail := m, dqueue := rest },
          [Event.delivered { d with tim := W.get_time }]⟩) ∧
    (∀ msg : Msg, c.msgid ≠ 0 → msg.id = c.msgid → msg.error = 0 →
      (d.action.deliver.type = .DELIVER_WRBACK → ∀ m, (W.mail_receive m msg).1 = 0) →
      ∃ m, mail_deliver W c (some msg) mb =
        .ok ⟨.MAIL_CONTINUE, { c with mail := m, msgid := 0, dqueue := rest }, []⟩) ∧
    (c.msgid = 0 →
      (∀ x ∈ c.dqueue, x.action.deliver.deliver.isSome = true ∧
        x.action.deliver.type = .DELIVER_INCHILD ∧
        ∀ m, (W.deliver_fn { x with tim := W.get_time } x.action m).1 = .DELIVER_SUCCESS) →
      ∃ rets last, deliver_run W mb (c.dqueue.length + 1) c = .ok (rets ++ [last]) ∧
        rets.map (fun r => r.events) =
          c.dqueue.map (fun x => [Event.delivered { x with tim := W.get_time }]) ∧
        rets.map (fun r => r.mctx.dqueue) = c.dqueue.tails.tail ∧
        (∀ r ∈ rets, r.status = .MAIL_CONTINUE) ∧
        last.status = .MAIL_MATCH ∧ last.mctx.dqueue = [] ∧ last.events = []) := by
  refine ⟨fun msg hid h1 h2 h3 => mail_deliver_inchild W c msg mb d rest hid hq h1 h2 h3,
    fun msg hid h1 h2 h3 => mail_deliver_reply W c msg mb d rest hid hq h1 h2 h3,
    fun hid hall => deliver_run_inchild W mb c.dqueue c hid rfl hall⟩

theorem C8_witness :
    (∃ rets last,
      deliver_run (world0 [] []) ⟨none, 0⟩ 3
          { ctx0 with dqueue := [request0 action0 7, request0 action0 8] } =
        .ok (rets ++ [last]) ∧
      rets.map (fun r => r.events) =
        [[Event.delivered (request0 action0 7)], [Event.delivered (request0 action0 8)]] ∧
      rets.map (fun r => r.mctx.dqueue) = [[request0 action0 8], []] ∧
      (∀ r ∈ rets, r.status = .MAIL_CONTINUE) ∧
      last.status = .MAIL_MATCH ∧ last.mctx.dqueue = [] ∧ last.events = []) ∧
    (∃ m, mail_deliver (world0 [] [])
        { ctx0 with msgid := 1, dqueue := [request0 action8 0, request0 action0 7] }
        (some { reply2 with error := 0 }) ⟨none, 0⟩ =
      .ok ⟨.MAIL_CONTINUE,
        { ctx0 with mail := m, msgid := 0, dqueue := [request0 action0 7] }, []⟩) :=
  ⟨(C8_completed_head_is_dequeued_in_order (world0 [] [])
      { ctx0 with dqueue := [request0 action0 7, request0 action0 8] } ⟨none, 0⟩
      (request0 action0 7) [request0 action0 8] rfl).2.2 rfl
      (by
        intro x hx
        simp only [List.mem_cons, List.mem_singleton, List.not_mem_nil, or_false] at hx
        rcases hx with h | h <;> subst h <;> exact ⟨rfl, rfl, fun _ => rfl⟩),
   (C8_completed_head_is_dequeued_in_order (world0 [] [])
      { ctx0 with msgid := 1, dqueue := [request0 action8 0, request0 action0 7] } ⟨none, 0⟩
      (request0 action8 0) [request0 action0 7] rfl).2.1 { reply2 with error := 0 }
      (by decide) rfl rfl (fun _ _ => rfl)⟩

/-- C9 (as stated, refuted). A rule whose only clause is inverted with operator
    AND, the predicate answering false, entered with the fresh accumulator:
    `mail_match` leaves the accumulated result false, not true. -/
theorem C9_counterexample :
    (mail_match (world0 [rule9] []) ctx0 none ⟨none, 0⟩).map (fun r => r.mctx.result) =
      .ok false ∧
    (mail_match (world0 [rule9] []) ctx0 none ⟨none, 0⟩).map (fun r => r.mctx.result) ≠
      .ok true := by
  constructor
  · rfl
  · intro h
    have h2 : (mail_match (world0 [rule9] []) ctx0 none ⟨none, 0⟩).map
        (fun r => r.mctx.result) = .ok false := rfl
    rw [h2] at h
    cases h

/-- C9 (amended). For a rule whose first clause is inverted with operator AND
    and whose predicate answers false, entered with the fresh accumulator,
    `mail_match` leaves the accumulated result false: the clause leaves the
    accumulator unchanged. -/
theorem C9_inverted_and_false_leaves_false (W : World) (c : MailCtx) (msg : Option Msg)
    (mb : Msgbuf) (p : RulePtr) (r : Rule) (ei : Expritem) (rest : List Expritem)
    (hid : c.msgid = 0) (hdone : c.done = false) (hp : c.rule = some p)
    (hei : c.expritem = none) (hr : rule_at W.rules p = some r)
    (hacc : account_excluded W r c.account = false) (hcl : r.d.expr = some (ei :: rest))
    (hinv : ei.inverted = true) (hop : ei.op = .OP_AND)
    (hst : ∀ q ∈ c.stack, (rule_at W.rules q).isSome = true)
    (hans : (W.match_fn
        { c with mail := set_wrapped c.mail ' ', result := false, expritem := some 0 } ei).ret =
      W.codes.MATCH_FALSE) :
    ∃ ret, mail_match W c msg mb = .ok ret ∧ ret.mctx.result = false := by
  rw [mail_match_enter W c msg mb p r (ei :: rest) hid hdone hp hr hacc hcl (by simp) hei]
  have hd : deref_expritem W { c with result := false, expritem := some 0 } = .ok ei := by
    unfold deref_expritem deref_rule
    simp [hp, hr, hcl]
  obtain ⟨ret, h1, h2⟩ := mail_match_sync_total W { c with result := false, expritem := some 0 }
    msg mb ei false hid hdone hd hst hans
  refine ⟨ret, h1, ?_⟩
  rw [h2]
  simp [adjust_sync, hinv, hop]

theorem C9_witness :
    ∃ ret, mail_match (world0 [rule9] []) ctx0 none ⟨none, 0⟩ = .ok ret ∧
      ret.mctx.result = false :=
  C9_inverted_and_false_leaves_false (world0 [rule9] []) ctx0 none ⟨none, 0⟩ [0] rule9
    ⟨0, .OP_AND, true⟩ [] rfl rfl rfl rfl rfl rfl rfl rfl rfl (by decide) rfl


/-- C10. The accumulator update `mail_match` performs for an inverted clause
    whose outcome is `R` equals the update it performs for a clause with the
    same operator, not inverted, whose outcome is not `R`, from the same
    accumulated result: on the synchronous path (first part) and on the path
    that resumes from a reply (second part). -/
theorem C10_inverted_outcome_is_flipped_outcome (W1 W2 : World) (c1 c2 : MailCtx)
    (e1 e2 : Expritem) (R : Bool)
    (hinv1 : e1.inverted = true) (hinv2 : e2.inverted = false) (hop : e1.op = e2.op)
    (hacc : c1.result = c2.result)
    (hd1 : deref_expritem W1 c1 = .ok e1) (hd2 : deref_expritem W2 c2 = .ok e2)
    (hst1 : ∀ q ∈ c1.stack, (rule_at W1.rules q).isSome = true)
    (hst2 : ∀ q ∈ c2.stack, (rule_at W2.rules q).isSome = true) :
    (∀ (m1 m2 : Option Msg) (b1 b2 : Msgbuf),
      c1.msgid = 0 → c1.done = false → c2.msgid = 0 → c2.done = false →
      (W1.match_fn { c1 with mail := set_wrapped c1.mail ' ' } e1).ret = code W1 R →
      (W2.match_fn { c2 with mail := set_wrapped c2.mail ' ' } e2).ret = code W2 (!R) →
      ∃ ret1 ret2, mail_match W1 c1 m1 b1 = .ok ret1 ∧ mail_match W2 c2 m2 b2 = .ok ret2 ∧
        ret1.mctx.result = ret2.mctx.result) ∧
    (∀ (m1 m2 : Msg) (b1 b2 : Msgbuf),
      c1.msgid ≠ 0 → m1.id = c1.msgid → m1.type = .MSG_DONE → m1.error = code W1 R →
      c2.msgid ≠ 0 → m2.id = c2.msgid → m2.type = .MSG_DONE → m2.error = code W2 (!R) →
      ∃ ret1 ret2, mail_match W1 c1 (some m1) b1 = .ok ret1 ∧
        mail_match W2 c2 (some m2) b2 = .ok ret2 ∧
        ret1.mctx.result = ret2.mctx.result) := by
  have htab : ∀ acc, spec_table e1.inverted e1.op R acc = spec_table e2.inverted e2.op (!R) acc := by
    intro acc
    rw [hinv1, hinv2, hop]
    cases e2.op <;> cases R <;> cases acc <;> rfl
  constructor
  · intro m1 m2 b1 b2 hid1 hdone1 hid2 hdone2 hr1 hr2
    obtain ⟨ret1, ha, hb⟩ := mail_match_sync_total W1 c1 m1 b1 e1 R hid1 hdone1 hd1 hst1 hr1
    obtain ⟨ret2, hc, hd⟩ := mail_match_sync_total W2 c2 m2 b2 e2 (!R) hid2 hdone2 hd2 hst2 hr2
    refine ⟨ret1, ret2, ha, hc, ?_⟩
    rw [hb, hd, adjust_sync_table, adjust_sync_table, htab, hacc]
  · intro m1 m2 b1 b2 hp1 hm1 ht1 he1 hp2 hm2 ht2 he2
    obtain ⟨ret1, ha, hb⟩ := mail_match_reply_total W1 c1 m1 b1 e1 R hp1 hm1 ht1 he1 hd1 hst1
    obtain ⟨ret2, hc, hd⟩ := mail_match_reply_total W2 c2 m2 b2 e2 (!R) hp2 hm2 ht2 he2 hd2 hst2
    refine ⟨ret1, ret2, ha, hc, ?_⟩
    rw [hb, hd, adjust_reply_table, adjust_reply_table, htab, hacc]

theorem C10_witness :
    (∃ ret1 ret2,
      mail_match (world0 [rule9] []) { ctx0 with expritem := some 0 } none ⟨none, 0⟩ = .ok ret1 ∧
      mail_match (world0 [rule10] []) { ctx0 with expritem := some 0 } none ⟨none, 0⟩ =
        .ok ret2 ∧
      ret1.mctx.result = ret2.mctx.result) ∧
    (∃ ret1 ret2,
      mail_match (world0 [rule10r] []) { ctx0 with expritem := some 0, msgid := 1 }
        (some reply2) ⟨none, 0⟩ = .ok ret1 ∧
      mail_match (world0 [rule2] []) { ctx0 with expritem := some 0, msgid := 1 }
        (some { reply2 with error := 0 }) ⟨none, 0⟩ = .ok ret2 ∧
      ret1.mctx.result = ret2.mctx.result) :=
  ⟨(C10_inverted_outcome_is_flipped_outcome (world0 [rule9] []) (world0 [rule10] [])
      { ctx0 with expritem := some 0 } { ctx0 with expritem := some 0 }
      ⟨0, .OP_AND, true⟩ ⟨1, .OP_AND, false⟩ false rfl rfl rfl rfl rfl rfl
      (by decide) (by decide)).1 none none ⟨none, 0⟩ ⟨none, 0⟩ rfl rfl rfl rfl rfl rfl,
   (C10_inverted_outcome_is_flipped_outcome (world0 [rule10r] []) (world0 [rule2] [])
      { ctx0 with expritem := some 0, msgid := 1 } { ctx0 with expritem := some 0, msgid := 1 }
      ⟨3, .OP_OR, true⟩ ⟨3, .OP_OR, false⟩ true rfl rfl rfl rfl rfl rfl
      (by decide) (by decide)).2 reply2 { reply2 with error := 0 } ⟨none, 0⟩ ⟨none, 0⟩
      (by decide) rfl rfl rfl (by decide) rfl rfl rfl⟩

/-- C11 (as stated, refuted). A context with outstanding id 1 handed a reply
    with id 2: `mail_match` and `mail_deliver` do not abort, they return
    `MAIL_BLOCKED` to the driver with the id still pending. -/
theorem C11_counterexample :
    mail_match (world0 [rule2] []) { ctx0 with expritem := some 0, msgid := 1 }
        (some { reply2 with id := 2 }) ⟨none, 0⟩ =
      .ok ⟨.MAIL_BLOCKED,
        { ctx0 with mail := set_wrapped mail0 ' ', expritem := some 0, msgid := 1 }, []⟩ ∧
    mail_deliver (world0 [rule2] [])
        { ctx0 with msgid := 1, dqueue := [request0 action1 8] }
        (some { reply2 with id := 2 }) ⟨none, 0⟩ =
      .ok ⟨.MAIL_BLOCKED,
        { ctx0 with mail := set_wrapped mail0 (Char.ofNat 10), msgid := 1,
                    dqueue := [request0 action1 8] }, []⟩ ∧
    ¬ ∃ s, mail_match (world0 [rule2] []) { ctx0 with expritem := some 0, msgid := 1 }
        (some { reply2 with id := 2 }) ⟨none, 0⟩ = .error (.fatalx s) := by
  refine ⟨rfl, rfl, ?_⟩
  rintro ⟨s, hs⟩
  have h : mail_match (world0 [rule2] []) { ctx0 with expritem := some 0, msgid := 1 }
        (some { reply2 with id := 2 }) ⟨none, 0⟩ =
      .ok ⟨.MAIL_BLOCKED,
        { ctx0 with mail := set_wrapped mail0 ' ', expritem := some 0, msgid := 1 }, []⟩ := rfl
  rw [h] at hs
  cases hs

/-- C11 (amended). For every context with a non-zero outstanding correlation
    id, a `mail_match` or `mail_deliver` call that is handed a reply whose id
    differs from the outstanding id returns `MAIL_BLOCKED` to the driver: it
    does not abort, makes no external call, and leaves the context as it was
    but for the wrap convention, the id still pending.  The violation that is
    fatal in `mail_match` is a reply with the outstanding id whose type is not
    `MSG_DONE`. -/
theorem C11_mismatched_reply_returns_blocked (W : World) (c : MailCtx) (msg : Msg)
    (mb : Msgbuf) (hpend : c.msgid ≠ 0) :
    (msg.id ≠ c.msgid →
      mail_match W c (some msg) mb =
        .ok ⟨.MAIL_BLOCKED, { c with mail := set_wrapped c.mail ' ' }, []⟩ ∧
      mail_deliver W c (some msg) mb =
        .ok ⟨.MAIL_BLOCKED, { c with mail := set_wrapped c.mail (Char.ofNat 10) }, []⟩) ∧
    (msg.id = c.msgid → msg.type ≠ .MSG_DONE →
      mail_match W c (some msg) mb = .error (.fatalx "child: unexpected message")) := by
  constructor
  · intro hne
    exact ⟨mail_match_pending_blocked W c (some msg) mb hpend
        (fun m hm => by cases hm; exact hne),
      mail_deliver_pending_blocked W c (some msg) mb hpend
        (fun m hm => by cases hm; exact hne)⟩
  · intro heq hty
    unfold mail_match
    simp only [hpend, ne_eq, not_false_eq_true, if_true, heq, not_true_eq_false, if_false]
    unfold resume_match
    simp [hty]

theorem C11_witness :
    (mail_match (world0 [rule2] []) { ctx0 with expritem := some 0, msgid := 1 }
        (some { reply2 with id := 2 }) ⟨none, 0⟩ =
      .ok ⟨.MAIL_BLOCKED,
        { ctx0 with mail := set_wrapped mail0 ' ', expritem := some 0, msgid := 1 }, []⟩ ∧
     mail_deliver (world0 [rule2] []) { ctx0 with expritem := some 0, msgid := 1 }
        (some { reply2 with id := 2 }) ⟨none, 0⟩ =
      .ok ⟨.MAIL_BLOCKED,
        { ctx0 with mail := set_wrapped mail0 (Char.ofNat 10), expritem := some 0,
                    msgid := 1 }, []⟩) ∧
    mail_match (world0 [rule2] []) { ctx0 with expritem := some 0, msgid := 1 }
        (some { reply2 with type := .MSG_ACTION }) ⟨none, 0⟩ =
      .error (.fatalx "child: unexpected message") :=
  ⟨(C11_mismatched_reply_returns_blocked (world0 [rule2] [])
      { ctx0 with expritem := some 0, msgid := 1 } { reply2 with id := 2 } ⟨none, 0⟩
      (by decide)).1 (by decide),
   (C11_mismatched_reply_returns_blocked (world0 [rule2] [])
      { ctx0 with expritem := some 0, msgid := 1 } { reply2 with type := .MSG_ACTION } ⟨none, 0⟩
      (by decide)).2 rfl (by decide)⟩

/-- C12. A `mail_match` or `mail_deliver` call makes an external call (invokes
    a clause predicate, runs or sends an action) only when the outstanding
    correlation id is zero on entry; while an id is pending, the call makes
    none and either returns `MAIL_BLOCKED` with the id still pending (no reply,
    or a reply with another id) or consumes the matching reply and clears the
    id; and when `mail_deliver` sends an action to the privileged peer it
    sends exactly one request, records its id as outstanding and returns
    `MAIL_BLOCKED`. -/
theorem C12_no_request_while_one_is_pending (W : World) (c : MailCtx) (msg : Option Msg)
    (mb : Msgbuf) (ret : Ret) :
    (mail_match W c msg mb = .ok ret →
      (ret.events ≠ [] → c.msgid = 0) ∧
      (c.msgid ≠ 0 → ret.events = [] ∧
        ((ret.status = .MAIL_BLOCKED ∧ ret.mctx.msgid = c.msgid ∧
            ∀ m, msg = some m → m.id ≠ c.msgid) ∨
         (∃ m, msg = some m ∧ m.id = c.msgid ∧ ret.mctx.msgid = 0)))) ∧
    (mail_deliver W c msg mb = .ok ret →
      (ret.events ≠ [] → c.msgid = 0) ∧
      (c.msgid ≠ 0 → ret.events = [] ∧
        ((ret.status = .MAIL_BLOCKED ∧ ret.mctx.msgid = c.msgid ∧
            ∀ m, msg = some m → m.id ≠ c.msgid) ∨
         (∃ m, msg = some m ∧ m.id = c.msgid ∧ ret.mctx.msgid = 0))) ∧
      (∀ m b, Event.sent m b ∈ ret.events →
        ret.status = .MAIL_BLOCKED ∧ ret.mctx.msgid = m.id ∧
        ret.events = [Event.sent m b])) := by
  constructor
  · intro h
    refine ⟨fun hev => ?_, fun hpend => mail_match_pending W c msg mb ret hpend h⟩
    by_contra hpend
    exact hev (mail_match_pending W c msg mb ret hpend h).1
  · intro h
    refine ⟨fun hev => ?_, fun hpend => mail_deliver_pending W c msg mb ret hpend h,
      fun m b hs => mail_deliver_sent W c msg mb ret h m b hs⟩
    by_contra hpend
    exact hev (mail_deliver_pending W c msg mb ret hpend h).1

theorem C12_witness :
    ((([] : List Event) ≠ [] → 1 = 0) ∧
      (1 ≠ 0 → ([] : List Event) = [] ∧
        ((Status.MAIL_BLOCKED = .MAIL_BLOCKED ∧ 1 = 1 ∧
            ∀ m, (none : Option Msg) = some m → m.id ≠ 1) ∨
         (∃ m, (none : Option Msg) = some m ∧ m.id = 1 ∧ 1 = 0)))) ∧
    (∀ m b, Event.sent m b ∈
        [Event.sent
          { type := .MSG_ACTION, id := 1, error := 0, account := some account0,
            action := some action1, uid := 8,
            mail := some { set_wrapped mail0 (Char.ofNat 10) with
              tags := [("action", "archive")] } }
          ⟨some [("action", "archive")], 1⟩] →
      Status.MAIL_BLOCKED = .MAIL_BLOCKED ∧ 1 = m.id ∧
      [Event.sent
          { type := .MSG_ACTION, id := 1, error := 0, account := some account0,
            action := some action1, uid := 8,
            mail := some { set_wrapped mail0 (Char.ofNat 10) with
              tags := [("action", "archive")] } }
          ⟨some [("action", "archive")], 1⟩] = [Event.sent m b]) :=
  ⟨(C12_no_request_while_one_is_pending (world0 [rule2] [])
      { ctx0 with expritem := some 0, msgid := 1 } none ⟨none, 0⟩
      ⟨.MAIL_BLOCKED,
        { ctx0 with mail := set_wrapped mail0 ' ', expritem := some 0, msgid := 1 }, []⟩).1 rfl,
   ((C12_no_request_while_one_is_pending (world0 [] [])
      { ctx0 with dqueue := [request0 action1 8] } none ⟨none, 0⟩
      ⟨.MAIL_BLOCKED,
        { ctx0 with
          mail := { set_wrapped mail0 (Char.ofNat 10) with tags := [("action", "archive")] },
          msgid := 1,
          dqueue := [request0 action1 8] },
        [Event.sent
          { type := .MSG_ACTION, id := 1, error := 0, account := some account0,
            action := some action1, uid := 8,
            mail := some { set_wrapped mail0 (Char.ofNat 10) with
              tags := [("action", "archive")] } }
          ⟨some [("action", "archive")], 1⟩]⟩).2 rfl).2.2⟩


/-- C13 (as stated, refuted). A matched rule with nested rules whose template
    names no configured action: `mail_match` pushes the rule, descends and
    returns `MAIL_CONTINUE`; the actions are not expanded, so no error is
    reported. -/
theorem C13_counterexample :
    resolves (world0 [rule13n] [action0]) ctx0 ⟨some "nowhere"⟩ = false ∧
    mail_match (world0 [rule13n] [action0]) ctx0 none ⟨none, 0⟩ =
      .ok ⟨.MAIL_CONTINUE,
        { ctx0 with mail := set_wrapped mail0 ' ', result := true, matched := true,
                    stack := [[0]], rule := some [0, 0] }, []⟩ ∧
    (mail_match (world0 [rule13n] [action0]) ctx0 none ⟨none, 0⟩).map (fun r => r.status) ≠
      .ok .MAIL_ERROR := by
  refine ⟨by decide, rfl, ?_⟩
  have h : (mail_match (world0 [rule13n] [action0]) ctx0 none ⟨none, 0⟩).map
      (fun r => r.status) = .ok .MAIL_CONTINUE := rfl
  rw [h]
  intro hcon
  cases hcon

/-- C13 (amended). When some action-name template of a rule expands to a
    string that matches no configured action, `fill_delivery_queue` returns
    non-zero, having enqueued the requests of the templates before the first
    such template and none for that template or any later one; and a
    `mail_match` call that acts on the verdict true of such a rule, the rule
    having no nested rules, returns `MAIL_ERROR` (not `MAIL_DELIVER` or
    `MAIL_CONTINUE`). -/
theorem C13_unresolved_template_is_reported (W : World) (mctx : MailCtx) (p : RulePtr)
    (r : Rule) (hp : mctx.rule = some p) (hr : rule_at W.rules p = some r)
    (hbad : ∃ rs ∈ r.d.actions, resolves W mctx rs = false) :
    fill_delivery_queue W mctx p =
      .ok (1, { mctx with
        dqueue := mctx.dqueue ++
          spec_requests W mctx p (r.d.actions.takeWhile (resolves W mctx)) }) ∧
    ∀ (c c1 : MailCtx) (msg : Option Msg) (mb : Msgbuf) (ev : List Event),
      r.rules = [] → c1.result = true →
      mctx = { c1 with matched := true, done := c1.done || r.d.stop,
                       mail := tag_mail W r c1.mail } →
      mail_match W c msg mb = skip W c1 ev →
      mail_match W c msg mb =
        .ok ⟨.MAIL_ERROR,
          { mctx with
            dqueue := mctx.dqueue ++
              spec_requests W mctx p (r.d.actions.takeWhile (resolves W mctx)) }, ev⟩ := by
  have hfill : fill_delivery_queue W mctx p =
      .ok (1, { mctx with
        dqueue := mctx.dqueue ++
          spec_requests W mctx p (r.d.actions.takeWhile (resolves W mctx)) }) := by
    unfold fill_delivery_queue deref_rule
    simp only [hr]
    exact fill_templates_fail W p mctx p r hp hr r.d.actions hbad mctx.dqueue
  refine ⟨hfill, ?_⟩
  intro c c1 msg mb ev hn hres hm hcall
  have hne : r.d.actions ≠ [] := by
    obtain ⟨rs, hrs, _⟩ := hbad
    intro h0
    rw [h0] at hrs
    simp at hrs
  have hp1 : c1.rule = some p := by
    rw [hm] at hp
    exact hp
  rw [hcall]
  rw [hm] at hfill
  rw [hm]
  exact skip_leaf_error W c1 ev p r _ 1 hres hp1 hr hn hne hfill (by decide)

theorem C13_witness :
    (fill_delivery_queue (world0 [rule13] [action0, action1])
        { ctx0 with mail := set_wrapped mail0 ' ', result := true, matched := true } [0] =
      .ok (1, { ctx0 with mail := set_wrapped mail0 ' ', result := true, matched := true,
                          dqueue := [request0 action0 7] })) ∧
    mail_match (world0 [rule13] [action0, action1]) ctx0 none ⟨none, 0⟩ =
      .ok ⟨.MAIL_ERROR,
        { ctx0 with mail := set_wrapped mail0 ' ', result := true, matched := true,
                    dqueue := [request0 action0 7] }, []⟩ :=
  ⟨(C13_unresolved_template_is_reported (world0 [rule13] [action0, action1])
      { ctx0 with mail := set_wrapped mail0 ' ', result := true, matched := true } [0] rule13
      rfl rfl ⟨⟨some "nowhere"⟩, by decide, by decide⟩).1,
   (C13_unresolved_template_is_reported (world0 [rule13] [action0, action1])
      { ctx0 with mail := set_wrapped mail0 ' ', result := true, matched := true } [0] rule13
      rfl rfl ⟨⟨some "nowhere"⟩, by decide, by decide⟩).2 ctx0
      { ctx0 with mail := set_wrapped mail0 ' ', result := true } none ⟨none, 0⟩ []
      rfl rfl rfl rfl⟩

/-- C14. For a rule whose derive-from-message flag is unset and whose explicit
    identity set is present, `find_delivery_users` returns exactly the set of
    the rule with the release flag clear, whatever the flags and sets of the
    action and of the account are, and whatever the message-derived identity
    lookup would return: the lookup is not consulted. -/
theorem C14_rule_identity_set_wins (W : World) (mctx : MailCtx) (t : Action) (p : RulePtr)
    (r : Rule) (us : List Uid) (hp : mctx.rule = some p) (hr : rule_at W.rules p = some r)
    (hf : r.d.find_uid = false) (hu : r.d.users = some us) :
    find_delivery_users W mctx t = .ok (us, false) ∧
    ∀ g, find_delivery_users { W with find_users := g } mctx t = .ok (us, false) := by
  have key : ∀ V : World, V.rules = W.rules → find_delivery_users V mctx t = .ok (us, false) := by
    intro V hV
    unfold find_delivery_users deref_rule
    rw [hp]
    simp [hV, hr, hf, hu]
  exact ⟨key W rfl, fun g => key _ rfl⟩

theorem C14_witness :
    find_delivery_users
        (world0 [.node { plain_rule none with users := some [5, 6] } []] [])
        ctx0 { action0 with find_uid := true } = .ok ([5, 6], false) ∧
    ∀ g, find_delivery_users
        { world0 [.node { plain_rule none with users := some [5, 6] } []] [] with
          find_users := g }
        ctx0 { action0 with find_uid := true } = .ok ([5, 6], false) :=
  C14_rule_identity_set_wins (world0 [.node { plain_rule none with users := some [5, 6] } []] [])
    ctx0 { action0 with find_uid := true } [0]
    (.node { plain_rule none with users := some [5, 6] } []) [5, 6] rfl rfl rfl rfl


/-- C15. For a context with no pending correlation id, the stop flag unset, no
    rule having matched and a null rule pointer, `mail_match` returns
    `MAIL_DONE` and sets the disposition of the message to drop when the
    configured default is drop, and to keep when the configured default is
    keep or none is configured. -/
theorem C15_default_disposition_at_end (W : World) (c : MailCtx) (msg : Option Msg)
    (mb : Msgbuf) (hid : c.msgid = 0) (hdone : c.done = false) (_hm : c.matched = false)
    (hr : c.rule = none) :
    mail_match W c msg mb =
      .ok ⟨.MAIL_DONE,
        { c with mail := { set_wrapped c.mail ' ' with decision := spec_default W.impl_act } },
        []⟩ := by
  unfold mail_match
  simp only [hid, ne_eq, not_true_eq_false, if_false, hdone, Bool.false_eq_true, hr]
  cases W.impl_act <;> rfl

theorem C15_witness :
    mail_match { world0 [] [] with impl_act := .DECISION_DROP }
        { ctx0 with rule := none } none ⟨none, 0⟩ =
      .ok ⟨.MAIL_DONE,
        { ctx0 with
          mail := { set_wrapped mail0 ' ' with decision := .DECISION_DROP },
          rule := none },
        []⟩ ∧
    mail_match (world0 [] []) { ctx0 with rule := none } none ⟨none, 0⟩ =
      .ok ⟨.MAIL_DONE,
        { ctx0 with
          mail := { set_wrapped mail0 ' ' with decision := .DECISION_KEEP },
          rule := none },
        []⟩ :=
  ⟨C15_default_disposition_at_end { world0 [] [] with impl_act := .DECISION_DROP }
      { ctx0 with rule := none } none ⟨none, 0⟩ rfl rfl rfl rfl,
   C15_default_disposition_at_end (world0 [] []) { ctx0 with rule := none } none ⟨none, 0⟩
      rfl rfl rfl rfl⟩

/-- C16 (as stated, refuted). After a `mail_match` call in which a predicate
    asked for privilege the delivery queue is empty and an id is pending:
    `mail_deliver` with no reply returns `MAIL_BLOCKED`, not `MAIL_MATCH`. -/
theorem C16_counterexample :
    mail_match (world0 [rule2] []) ctx0 none ⟨none, 0⟩ =
      .ok ⟨.MAIL_BLOCKED,
        { ctx0 with mail := set_wrapped mail0 ' ', expritem := some 0, msgid := 1 },
        [Event.matched [0] 0 3]⟩ ∧
    ({ ctx0 with mail := set_wrapped mail0 ' ', expritem := some 0, msgid := 1 } :
      MailCtx).dqueue = [] ∧
    mail_deliver (world0 [rule2] [])
        { ctx0 with mail := set_wrapped mail0 ' ', expritem := some 0, msgid := 1 }
        none ⟨none, 0⟩ =
      .ok ⟨.MAIL_BLOCKED,
        { ctx0 with mail := set_wrapped mail0 (Char.ofNat 10), expritem := some 0,
                    msgid := 1 }, []⟩ ∧
    (mail_deliver (world0 [rule2] [])
        { ctx0 with mail := set_wrapped mail0 ' ', expritem := some 0, msgid := 1 }
        none ⟨none, 0⟩).map (fun r => r.status) ≠ .ok .MAIL_MATCH := by
  refine ⟨rfl, rfl, rfl, ?_⟩
  have h : (mail_deliver (world0 [rule2] [])
        { ctx0 with mail := set_wrapped mail0 ' ', expritem := some 0, msgid := 1 }
        none ⟨none, 0⟩).map (fun r => r.status) = .ok .MAIL_BLOCKED := rfl
  rw [h]
  intro hcon
  cases hcon

/-- C16 (amended). For a context whose delivery queue is empty and which has
    no pending correlation id, `mail_deliver` returns the delivery-complete
    status `MAIL_MATCH`, makes no external call and leaves the queue, the tags,
    the outstanding id, the rule pointer and the stack unchanged (only the wrap
    convention of the message is set); calling it again any number of times
    gives the same status and the same state. -/
theorem C16_deliver_on_empty_queue_is_idempotent (W : World) (c : MailCtx)
    (msg : Option Msg) (mb : Msgbuf) (hq : c.dqueue = []) (hid : c.msgid = 0) :
    mail_deliver W c msg mb =
      .ok ⟨.MAIL_MATCH, { c with mail := set_wrapped c.mail (Char.ofNat 10) }, []⟩ ∧
    ∀ n, deliver_run W mb n c =
      .ok (List.replicate n
        ⟨.MAIL_MATCH, { c with mail := set_wrapped c.mail (Char.ofNat 10) }, []⟩) := by
  refine ⟨?_, fun n => deliver_run_empty W mb n c hid hq⟩
  unfold mail_deliver
  simp [hid, hq]

theorem C16_witness :
    mail_deliver (world0 [] []) ctx0 none ⟨none, 0⟩ =
      .ok ⟨.MAIL_MATCH, { ctx0 with mail := set_wrapped mail0 (Char.ofNat 10) }, []⟩ ∧
    ∀ n, deliver_run (world0 [] []) ⟨none, 0⟩ n ctx0 =
      .ok (List.replicate n
        ⟨.MAIL_MATCH, { ctx0 with mail := set_wrapped mail0 (Char.ofNat 10) }, []⟩) :=
  C16_deliver_on_empty_queue_is_idempotent (world0 [] []) ctx0 none ⟨none, 0⟩ rfl rfl


/-- C17. For a rule with an empty or absent clause list that has no account
    filter, or whose filter matched the account, a `mail_match` call that
    starts the rule gives the verdict true without invoking any predicate: it
    sets the matched flag, sets the stop flag of the context when the rule has
    its stop flag, and then either pushes the rule and descends into its nested
    rules, or applies its tag assignment and expands its actions, reporting a
    delivery when the expansion returns 0 and an error otherwise. -/
theorem C17_rule_without_clauses_matches (W : World) (c : MailCtx) (msg : Option Msg)
    (mb : Msgbuf) (p : RulePtr) (r : Rule) (hid : c.msgid = 0) (hdone : c.done = false)
    (hp : c.rule = some p) (hei : c.expritem = none) (hr : rule_at W.rules p = some r)
    (hacc : account_excluded W r c.account = false)
    (hcl : r.d.expr = none ∨ r.d.expr = some [])
    (hst : ∀ q ∈ c.stack, (rule_at W.rules q).isSome = true) :
    ∃ ret, mail_match W c msg mb = .ok ret ∧ ret.events = [] ∧ ret.mctx.result = true ∧
      ret.mctx.matched = true ∧ ret.mctx.done = r.d.stop ∧
      (r.rules ≠ [] →
        ret.status = .MAIL_CONTINUE ∧ ret.mctx.rule = some (0 :: p) ∧
        ret.mctx.stack = c.stack ++ [p] ∧ ret.mctx.mail = set_wrapped c.mail ' ' ∧
        ret.mctx.dqueue = c.dqueue) ∧
      (r.rules = [] →
        ret.mctx.mail = tag_mail W r (set_wrapped c.mail ' ') ∧
        (r.d.actions = [] → ret.status = .MAIL_CONTINUE ∧ ret.mctx.dqueue = c.dqueue) ∧
        (r.d.actions ≠ [] →
          ∃ rc c3, fill_delivery_queue W
              { c with mail := tag_mail W r (set_wrapped c.mail ' '), result := true,
                       matched := true, done := r.d.stop } p = .ok (rc, c3) ∧
            ret.mctx.dqueue = c3.dqueue ∧
            ret.status = if rc = 0 then .MAIL_DELIVER else .MAIL_ERROR)) := by
  rw [mail_match_match_all W c msg mb p r hid hdone hp hei hr hacc hcl]
  obtain ⟨acc, m, rule, stack, ei, res, matched, done, msgid, dq⟩ := c
  simp only at hid hdone hp hei hst ⊢
  subst hid hdone hp hei
  by_cases hn : r.rules = []
  · by_cases ha : r.d.actions = []
    · rw [skip_leaf_plain W _ [] p r rfl rfl hr hn ha]
      obtain ⟨nxt, r1, st1, _, _, h3, _⟩ := next_rule_ok W
        ⟨acc, tag_mail W r (set_wrapped m ' '), some p, stack, none, true, true,
          false || r.d.stop, 0, dq⟩ .MAIL_CONTINUE [] p r rfl hr hst
      refine ⟨_, h3, rfl, rfl, rfl, by simp, fun h => absurd hn h, fun _ => ⟨rfl,
        fun _ => ⟨rfl, rfl⟩, fun h => absurd ha h⟩⟩
    · obtain ⟨rc, q1, hq⟩ := fill_delivery_queue_ok W
        ⟨acc, tag_mail W r (set_wrapped m ' '), some p, stack, none, true, true,
          false || r.d.stop, 0, dq⟩ p r rfl hr
      have hq2 : fill_delivery_queue W
          ⟨acc, tag_mail W r (set_wrapped m ' '), some p, stack, none, true, true,
            r.d.stop, 0, dq⟩ p =
          .ok (rc, ⟨acc, tag_mail W r (set_wrapped m ' '), some p, stack, none, true, true,
            r.d.stop, 0, q1⟩) := by
        simpa using hq
      by_cases hrc : rc = 0
      · subst hrc
        rw [skip_leaf_deliver W _ [] p r _ rfl rfl hr hn ha hq]
        obtain ⟨nxt, r1, st1, _, _, h3, _⟩ := next_rule_ok W
          ⟨acc, tag_mail W r (set_wrapped m ' '), some p, stack, none, true, true,
            false || r.d.stop, 0, q1⟩ .MAIL_DELIVER [] p r rfl hr hst
        refine ⟨_, h3, rfl, rfl, rfl, by simp, fun h => absurd hn h, fun _ => ⟨rfl,
          fun h => absurd h ha, fun _ => ⟨0, _, hq2, rfl, rfl⟩⟩⟩
      · rw [skip_leaf_error W _ [] p r _ rc rfl rfl hr hn ha hq hrc]
        refine ⟨_, rfl, rfl, rfl, rfl, by simp, fun h => absurd hn h, fun _ => ⟨rfl,
          fun h => absurd h ha, fun _ => ⟨rc, _, hq2, rfl, by simp [hrc]⟩⟩⟩
  · rw [skip_nested W _ [] p r rfl rfl hr hn]
    exact ⟨_, rfl, rfl, rfl, rfl, by simp, fun _ => ⟨rfl, rfl, rfl, rfl, rfl⟩,
      fun h => absurd h hn⟩

theorem C17_witness :
    (∃ ret, mail_match (world0 [rule17] [action0]) ctx0 none ⟨none, 0⟩ = .ok ret ∧
      ret.events = [] ∧ ret.mctx.result = true ∧
      ret.mctx.matched = true ∧ ret.mctx.done = rule17.d.stop ∧
      (rule17.rules ≠ [] →
        ret.status = .MAIL_CONTINUE ∧ ret.mctx.rule = some (0 :: [0]) ∧
        ret.mctx.stack = ctx0.stack ++ [[0]] ∧ ret.mctx.mail = set_wrapped ctx0.mail ' ' ∧
        ret.mctx.dqueue = ctx0.dqueue) ∧
      (rule17.rules = [] →
        ret.mctx.mail = tag_mail (world0 [rule17] [action0]) rule17 (set_wrapped ctx0.mail ' ') ∧
        (rule17.d.actions = [] → ret.status = .MAIL_CONTINUE ∧ ret.mctx.dqueue = ctx0.dqueue) ∧
        (rule17.d.actions ≠ [] →
          ∃ rc c3, fill_delivery_queue (world0 [rule17] [action0])
              { ctx0 with
                mail := tag_mail (world0 [rule17] [action0]) rule17 (set_wrapped ctx0.mail ' '),
                result := true,
                matched := true,
                done := rule17.d.stop } [0] = .ok (rc, c3) ∧
            ret.mctx.dqueue = c3.dqueue ∧
            ret.status = if rc = 0 then .MAIL_DELIVER else .MAIL_ERROR))) ∧
    mail_match (world0 [rule17] [action0]) ctx0 none ⟨none, 0⟩ =
      .ok ⟨.MAIL_DELIVER,
        { ctx0 with
          mail := { set_wrapped mail0 ' ' with tags := [("seen", "yes")] },
          rule := none,
          result := true,
          matched := true,
          done := true,
          dqueue := [request0 action0 7] }, []⟩ :=
  ⟨C17_rule_without_clauses_matches (world0 [rule17] [action0]) ctx0 none ⟨none, 0⟩ [0] rule17
      rfl rfl rfl rfl rfl rfl (Or.inl rfl) (by decide),
   rfl⟩

/-- C18 (as stated, refuted). First, a message whose index is 0: the request
    is sent and the call returns blocked, but the recorded id is 0, so the next
    call with no reply sends a second request for the same head.  Second, a
    channel that refuses the request: the call aborts. -/
theorem C18_counterexample :
    (deliver_run (world0 [] []) ⟨none, 0⟩ 2
        { ctx0 with mail := { mail0 with idx := 0 }, dqueue := [request0 action1 8] }).map
        (fun rets => rets.map fun r => (r.status, r.mctx.msgid, r.events.length)) =
      .ok [(.MAIL_BLOCKED, 0, 1), (.MAIL_BLOCKED, 0, 1)] ∧
    mail_deliver { world0 [] [] with privsep_send := fun _ _ => 1 }
        { ctx0 with dqueue := [request0 action1 8] } none ⟨none, 0⟩ =
      .error (.fatalx "child: privsep_send error") :=
  ⟨rfl, rfl⟩

/-- C18 (amended). For a context with zero outstanding id whose head request
    has a non-null mechanism that is not in-process, when the index of the
    message is not zero and the privileged channel accepts the request,
    `mail_deliver` sends one request (message index, account, action, identity,
    tags), returns `MAIL_BLOCKED` and leaves the outstanding id equal to the
    index of the message, hence non-zero, with the head still in the queue;
    every following call given no reply or a reply with another id returns
    `MAIL_BLOCKED` again, sends nothing and leaves the context as it is; the
    reply with the matching id is consumed and clears the id. -/
theorem C18_privileged_delivery_blocks_until_reply (W : World) (c : MailCtx)
    (msg : Option Msg) (mb : Msgbuf) (d : DeliverCtx) (rest : List DeliverCtx)
    (hid : c.msgid = 0) (hq : c.dqueue = d :: rest)
    (hfn : d.action.deliver.deliver.isSome = true)
    (hty : d.action.deliver.type ≠ .DELIVER_INCHILD) (hidx : c.mail.idx ≠ 0)
    (hsend : ∀ m b, W.privsep_send m b = 0) :
    ∃ c1 req buf, mail_deliver W c msg mb = .ok ⟨.MAIL_BLOCKED, c1, [Event.sent req buf]⟩ ∧
      req.type = .MSG_ACTION ∧ req.id = c.mail.idx ∧ req.account = some d.account ∧
      req.action = some d.action ∧ req.uid = d.uid ∧
      buf.buf = some (W.add_tag c.mail.tags "action" d.action.name) ∧
      c1.msgid = c.mail.idx ∧ c1.msgid ≠ 0 ∧
      c1.dqueue = { d with tim := W.get_time } :: rest ∧
      (∀ msg2 mb2, (∀ m, msg2 = some m → m.id ≠ c1.msgid) →
        mail_deliver W c1 msg2 mb2 = .ok ⟨.MAIL_BLOCKED, c1, []⟩) ∧
      (∀ n, deliver_run W mb n c1 = .ok (List.replicate n ⟨.MAIL_BLOCKED, c1, []⟩)) ∧
      (∀ m mb2 ret, m.id = c1.msgid → mail_deliver W c1 (some m) mb2 = .ok ret →
        ret.events = [] ∧ ret.mctx.msgid = 0) := by
  have hfn2 : d.action.deliver.deliver.isNone = false := by
    cases hx : d.action.deliver.deliver with
    | none => simp [hx] at hfn
    | some _ => rfl
  have hcall : mail_deliver W c msg mb =
      .ok ⟨.MAIL_BLOCKED,
        { c with
          mail := { set_wrapped c.mail (Char.ofNat 10) with
            tags := W.add_tag c.mail.tags "action" d.action.name },
          msgid := c.mail.idx,
          dqueue := { d with tim := W.get_time } :: rest },
        [Event.sent
          (mail_send
            { set_wrapped c.mail (Char.ofNat 10) with
              tags := W.add_tag c.mail.tags "action" d.action.name }
            { type := .MSG_ACTION, id := c.mail.idx, error := 0, account := some d.account,
              action := some d.action, uid := d.uid, mail := none })
          ⟨some (W.add_tag c.mail.tags "action" d.action.name),
            W.strb_size (W.add_tag c.mail.tags "action" d.action.name)⟩]⟩ := by
    unfold mail_deliver
    simp only [hid, ne_eq, not_true_eq_false, if_false, hq]
    unfold start_action
    simp only [hfn2, Bool.false_eq_true, if_false, hty, hsend, ne_eq, not_true_eq_false]
    simp [ACTION_ERROR, ACTION_PARENT, mail_send, set_wrapped]
  refine ⟨_, _, _, hcall, rfl, rfl, rfl, rfl, rfl, rfl, rfl, hidx, rfl, ?_, ?_, ?_⟩
  · intro msg2 mb2 hm
    exact mail_deliver_pending_blocked W _ msg2 mb2 hidx hm
  · intro n
    exact deliver_run_pending W mb n _ hidx
  · intro m mb2 ret hm hret
    have hp := mail_deliver_pending W _ (some m) mb2 ret hidx hret
    refine ⟨hp.1, ?_⟩
    rcases hp.2 with ⟨_, _, h3⟩ | ⟨m2, h1, _, h3⟩
    · exact absurd hm (h3 m rfl)
    · exact h3

theorem C18_witness :
    ∃ c1 req buf,
      mail_deliver (world0 [] []) { ctx0 with dqueue := [request0 action1 8] } none ⟨none, 0⟩ =
        .ok ⟨.MAIL_BLOCKED, c1, [Event.sent req buf]⟩ ∧
      req.type = .MSG_ACTION ∧ req.id = 1 ∧ req.account = some account0 ∧
      req.action = some action1 ∧ req.uid = 8 ∧
      buf.buf = some [("action", "archive")] ∧
      c1.msgid = 1 ∧ c1.msgid ≠ 0 ∧
      c1.dqueue = [request0 action1 8] ∧
      (∀ msg2 mb2, (∀ m, msg2 = some m → m.id ≠ c1.msgid) →
        mail_deliver (world0 [] []) c1 msg2 mb2 = .ok ⟨.MAIL_BLOCKED, c1, []⟩) ∧
      (∀ n, deliver_run (world0 [] []) ⟨none, 0⟩ n c1 =
        .ok (List.replicate n ⟨.MAIL_BLOCKED, c1, []⟩)) ∧
      (∀ m mb2 ret, m.id = c1.msgid →
        mail_deliver (world0 [] []) c1 (some m) mb2 = .ok ret →
        ret.events = [] ∧ ret.mctx.msgid = 0) :=
  C18_privileged_delivery_blocks_until_reply (world0 [] [])
    { ctx0 with dqueue := [request0 action1 8] } none ⟨none, 0⟩ (request0 action1 8) []
    rfl rfl rfl (by decide) (by decide) (fun _ _ => rfl)

/-- C20. The end-of-ruleset disposition does not depend on the matched flag:
    for a context with no pending id, the stop flag unset and a null rule
    pointer, whatever the matched flag is, `mail_match` returns `MAIL_DONE`,
    leaves the flag as it found it and overwrites the disposition with the
    configured default (drop when drop is configured, keep otherwise).
    `mail_match` sets the flag when a rule matches: label `skip` returns with
    the flag set when the verdict is true and with the flag as it was when the
    verdict is false; so does a call that starts a rule without clauses
    (verdict true), a call on the last clause of a rule whose predicate
    answers at once, and a call that is handed the reply for the last clause;
    and no call changes the flag otherwise. It never reads the flag: when the
    clause predicates do not read it, changing the flag on entry changes
    neither the status, nor the events, nor the resulting context apart from
    the flag itself. -/
theorem C20_end_disposition_ignores_matched_flag (W : World) (c : MailCtx) (msg : Option Msg)
    (mb : Msgbuf) (hid : c.msgid = 0) (hdone : c.done = false) (hr : c.rule = none) :
    (∀ b : Bool, mail_match W { c with matched := b } msg mb =
      .ok ⟨.MAIL_DONE,
        { c with
          matched := b,
          mail := { set_wrapped c.mail ' ' with decision := spec_default W.impl_act } },
        []⟩) ∧
    ((∀ x ei v, W.match_fn { x with matched := v } ei = W.match_fn x ei) →
      ∀ (x : MailCtx) (v : Bool) (m : Option Msg) (buf : Msgbuf),
        (mail_match W { x with matched := v } m buf).map
            (fun r => (r.status, ({ r.mctx with matched := false } : MailCtx), r.events)) =
          (mail_match W x m buf).map
            (fun r => (r.status, ({ r.mctx with matched := false } : MailCtx), r.events))) ∧
    (∀ (x : MailCtx) (ev : List Event) (p : RulePtr) (r : Rule),
      x.rule = some p → rule_at W.rules p = some r →
      (∀ q ∈ x.stack, (rule_at W.rules q).isSome = true) →
      ∃ ret, skip W x ev = .ok ret ∧ ret.mctx.result = x.result ∧
        ret.mctx.matched = (x.matched || x.result)) ∧
    (∀ (x : MailCtx) (m : Option Msg) (buf : Msgbuf) (p : RulePtr) (r : Rule),
      x.msgid = 0 → x.done = false → x.rule = some p → x.expritem = none →
      rule_at W.rules p = some r → account_excluded W r x.account = false →
      (r.d.expr = none ∨ r.d.expr = some []) →
      (∀ q ∈ x.stack, (rule_at W.rules q).isSome = true) →
      ∃ ret, mail_match W x m buf = .ok ret ∧ ret.mctx.result = true ∧
        ret.mctx.matched = true) ∧
    (∀ (x : MailCtx) (m : Option Msg) (buf : Msgbuf) (p : RulePtr) (r : Rule)
      (cl : List Expritem) (i : Nat) (ei : Expritem) (b : Bool),
      x.msgid = 0 → x.done = false → x.rule = some p → rule_at W.rules p = some r →
      r.d.expr = some cl → x.expritem = some i → cl[i]? = some ei → i + 1 = cl.length →
      (W.match_fn { x with mail := set_wrapped x.mail ' ' } ei).ret = code W b →
      (∀ q ∈ x.stack, (rule_at W.rules q).isSome = true) →
      ∃ ret, mail_match W x m buf = .ok ret ∧
        ret.mctx.result = adjust_sync ei b x.result ∧
        ret.mctx.matched = (x.matched || adjust_sync ei b x.result)) ∧
    (∀ (x : MailCtx) (m : Msg) (buf : Msgbuf) (p : RulePtr) (r : Rule)
      (cl : List Expritem) (i : Nat) (ei : Expritem) (b : Bool),
      x.msgid ≠ 0 → m.id = x.msgid → m.type = .MSG_DONE → m.error = code W b →
      x.rule = some p → rule_at W.rules p = some r →
      r.d.expr = some cl → x.expritem = some i → cl[i]? = some ei → i + 1 = cl.length →
      (∀ q ∈ x.stack, (rule_at W.rules q).isSome = true) →
      ∃ ret, mail_match W x (some m) buf = .ok ret ∧
        ret.mctx.result = adjust_reply ei b x.result ∧
        ret.mctx.matched = (x.matched || adjust_reply ei b x.result)) ∧
    (∀ (x : MailCtx) (m : Option Msg) (buf : Msgbuf) (ret : Ret),
      mail_match W x m buf = .ok ret →
      ret.mctx.matched = x.matched ∨ (ret.mctx.result = true ∧ ret.mctx.matched = true)) := by
  refine ⟨fun b => ?_, fun hpred x v m buf => mail_match_matched W x v m buf hpred,
    fun x ev p r hp hr hst => ?_,
    fun x m buf p r h1 h2 h3 h4 h5 h6 h7 h8 =>
      mail_match_sets_matched_all W x m buf p r h1 h2 h3 h4 h5 h6 h7 h8,
    fun x m buf p r cl i ei b h1 h2 h3 h4 h5 h6 h7 h8 h9 h10 =>
      mail_match_sets_matched_last W x m buf p r cl i ei b h1 h2 h3 h4 h5 h6 h7 h8 h9 h10,
    fun x m buf p r cl i ei b h1 h2 h3 h4 h5 h6 h7 h8 h9 h10 h11 =>
      mail_match_sets_matched_reply W x m buf p r cl i ei b h1 h2 h3 h4 h5 h6 h7 h8 h9 h10 h11,
    fun x m buf ret h => mail_match_matched_only W x m buf ret h⟩
  · unfold mail_match
    simp only [hid, ne_eq, not_true_eq_false, if_false, hdone, Bool.false_eq_true, hr]
    cases W.impl_act <;> rfl
  · obtain ⟨ret, h1, _, h3, h4, _⟩ := skip_summary W x ev p r hp hr hst
    exact ⟨ret, h1, h3, h4⟩

theorem C20_witness :
    (∀ b : Bool, mail_match { world0 rules19 [action0] with impl_act := .DECISION_DROP }
        { ctx0 with rule := none, matched := b } none ⟨none, 0⟩ =
      .ok ⟨.MAIL_DONE,
        { ctx0 with
          rule := none,
          matched := b,
          mail := { set_wrapped mail0 ' ' with decision := .DECISION_DROP } },
        []⟩) ∧
    (∀ (x : MailCtx) (v : Bool) (m : Option Msg) (buf : Msgbuf),
      (mail_match { world0 rules19 [action0] with impl_act := .DECISION_DROP }
          { x with matched := v } m buf).map
          (fun r => (r.status, ({ r.mctx with matched := false } : MailCtx), r.events)) =
        (mail_match { world0 rules19 [action0] with impl_act := .DECISION_DROP } x m buf).map
          (fun r => (r.status, ({ r.mctx with matched := false } : MailCtx), r.events))) ∧
    (∃ ret, mail_match { world0 rules19 [action0] with impl_act := .DECISION_DROP }
        { ctx0 with rule := some [0, 0], stack := [[0]] } none ⟨none, 0⟩ = .ok ret ∧
      ret.mctx.result = true ∧ ret.mctx.matched = true) ∧
    (∃ ret, mail_match { world0 rules19 [action0] with impl_act := .DECISION_DROP }
        { ctx0 with expritem := some 2 } none ⟨none, 0⟩ = .ok ret ∧
      ret.mctx.result = adjust_sync ⟨1, .OP_OR, false⟩ true false ∧
      ret.mctx.matched = (false || adjust_sync ⟨1, .OP_OR, false⟩ true false)) ∧
    (mail_match { world0 rules19 [action0] with impl_act := .DECISION_DROP }
        { ctx0 with expritem := some 2 } none ⟨none, 0⟩).map
        (fun r => (r.status, r.mctx.rule, r.mctx.result, r.mctx.matched)) =
      .ok (.MAIL_CONTINUE, some [0, 0], true, true) :=
  ⟨(C20_end_disposition_ignores_matched_flag
      { world0 rules19 [action0] with impl_act := .DECISION_DROP }
      { ctx0 with rule := none } none ⟨none, 0⟩ rfl rfl rfl).1,
   (C20_end_disposition_ignores_matched_flag
      { world0 rules19 [action0] with impl_act := .DECISION_DROP }
      { ctx0 with rule := none } none ⟨none, 0⟩ rfl rfl rfl).2.1 (fun _ _ _ => rfl),
   (C20_end_disposition_ignores_matched_flag
      { world0 rules19 [action0] with impl_act := .DECISION_DROP }
      { ctx0 with rule := none } none ⟨none, 0⟩ rfl rfl rfl).2.2.2.1
      { ctx0 with rule := some [0, 0], stack := [[0]] } none ⟨none, 0⟩ [0, 0]
      (.node { plain_rule none with actions := [⟨some "inbox"⟩] } [])
      rfl rfl rfl rfl rfl rfl (Or.inl rfl) (by decide),
   (C20_end_disposition_ignores_matched_flag
      { world0 rules19 [action0] with impl_act := .DECISION_DROP }
      { ctx0 with rule := none } none ⟨none, 0⟩ rfl rfl rfl).2.2.2.2.1
      { ctx0 with expritem := some 2 } none ⟨none, 0⟩ [0]
      (.node (plain_rule (some clauses1))
        [.node { plain_rule none with actions := [⟨some "inbox"⟩] } []])
      clauses1 2 ⟨1, .OP_OR, false⟩ true
      rfl rfl rfl rfl rfl rfl rfl rfl rfl (by decide),
   rfl⟩

end Fdm
